import Mathlib

/-!
# Verification of the pypdepsim similarity / co-occurrence ranking engine

Shallow embedding of the TypeScript sources:
* `src/lib/pypi-stats.ts` (second module: `jaccard.ts`) — exact Jaccard similarity
* `src/lib/jaccardBitset.ts` — two-pointer approximate Jaccard over sorted ID arrays
* `src/lib/similar.ts` — bounded top-K min-heap, candidate evaluation,
  `computeSimilarOnDemand`, `computeCooccurrence` and their fallbacks
* `src/lib/config.ts` — threshold configuration (environment defaults)
* `src/README.md` — `fetchJsonWithCache` retry loop of `lib/pypi.ts`

JavaScript numbers are embedded as `ℚ`, string sets as `Finset String` (the
engine's sets of normalized package names), and the asynchronous pipeline is
embedded by its sequential semantics: concurrent fetch completion order only
permutes map-insertion order, and all fetch results are supplied by explicit
oracle functions in an `Env` record (a failed or timed-out fetch is `none`).
-/

namespace PyPDepSim

/-! ## Data model -/

/-- `SimilarItem` from `src/lib/similar.ts`:
`{ name: string; jaccard: number; sharedDependents: number }`. -/
structure SimilarItem where
  name : String
  jaccard : ℚ
  sharedDependents : ℕ
deriving DecidableEq, Repr

/-- Embedding of JavaScript `Number(x.toFixed(6))`: rounding to six decimal
places (half away from zero for the nonnegative scores that occur here). -/
def toFixed6 (q : ℚ) : ℚ :=
  (⌊q * 1000000 + 1 / 2⌋ : ℚ) / 1000000

/-- JavaScript `s.toLowerCase()`, written over the character list (so that
concrete instances reduce). -/
def jsToLowerCase (s : String) : String := String.mk (s.data.map Char.toLower)

/-- `normalizePackageName` from `src/lib/similar.ts`: lower-case, then collapse
the separators `-`, `_`, `.` to `-` (the second `toLowerCase()` of the source
is a no-op and is dropped). -/
def normalizePackageName (name : String) : String :=
  String.mk ((jsToLowerCase name).data.map fun c =>
    if c = '-' ∨ c = '_' ∨ c = '.' then '-' else c)

/-! ## Configuration (`src/lib/config.ts`, environment-variable defaults) -/

def MIN_JACCARD_SMALL_BASE : ℚ := 1 / 1000
def MIN_JACCARD_MEDIUM_BASE : ℚ := 1 / 100
def MIN_JACCARD_BITSET_SMALL_BASE : ℚ := 1 / 1000
def MIN_JACCARD_BITSET_MEDIUM_BASE : ℚ := 1 / 50
def MIN_SHARED_SMALL_BASE : ℕ := 1
def MIN_SHARED_MEDIUM_BASE : ℕ := 2
def RELAXED_JACCARD_VERY_SMALL : ℚ := 1 / 10000
def RELAXED_JACCARD_SMALL : ℚ := 5 / 10000
def RELAXED_JACCARD_MEDIUM : ℚ := 1 / 1000
def NAME_BASED_FALLBACK_SCORE : ℚ := 1 / 1000
def DIRECT_DEPENDENCY_BOOST_SCORE : ℚ := 1 / 2
def BASE_SIZE_VERY_SMALL : ℕ := 5
def BASE_SIZE_SMALL : ℕ := 10
def BASE_SIZE_MEDIUM : ℕ := 20
def DEPS_COUNT_VERY_SMALL : ℕ := 5
def DEPS_COUNT_SMALL : ℕ := 10
def MIN_RATIO_VERY_SMALL_DEPS : ℚ := 15 / 100
def MIN_RATIO_SMALL_DEPS : ℚ := 1 / 10
def MIN_RATIO_MEDIUM_DEPS : ℚ := 1 / 20
def MIN_RATIO_COOCCUR_VERY_SMALL_DEPS : ℚ := 1 / 5
def MIN_RATIO_COOCCUR_SMALL_DEPS : ℚ := 1 / 10
def MIN_RATIO_COOCCUR_MEDIUM_DEPS : ℚ := 1 / 20
def RELAXED_JACCARD_MINIMUM : ℚ := 1 / 100

/-- `getJaccardThreshold` from `src/lib/config.ts`. -/
def getJaccardThreshold (baseSize : ℕ) : ℚ :=
  if baseSize < BASE_SIZE_SMALL then MIN_JACCARD_SMALL_BASE
  else MIN_JACCARD_MEDIUM_BASE

/-- `getBitsetJaccardThreshold` from `src/lib/config.ts`. -/
def getBitsetJaccardThreshold (baseSize : ℕ) : ℚ :=
  if baseSize < BASE_SIZE_SMALL then MIN_JACCARD_BITSET_SMALL_BASE
  else MIN_JACCARD_BITSET_MEDIUM_BASE

/-- `getSharedThreshold` from `src/lib/config.ts`. -/
def getSharedThreshold (baseSize : ℕ) : ℕ :=
  if baseSize < BASE_SIZE_SMALL then MIN_SHARED_SMALL_BASE
  else MIN_SHARED_MEDIUM_BASE

/-- `getRelaxedJaccardThreshold` from `src/lib/config.ts`. -/
def getRelaxedJaccardThreshold (baseSize : ℕ) : ℚ :=
  if baseSize < BASE_SIZE_VERY_SMALL then RELAXED_JACCARD_VERY_SMALL
  else if baseSize < BASE_SIZE_MEDIUM then RELAXED_JACCARD_SMALL
  else RELAXED_JACCARD_MEDIUM

/-- `getForwardDepsRatioThreshold` from `src/lib/config.ts`. -/
def getForwardDepsRatioThreshold (depsCount : ℕ) : ℚ :=
  if depsCount < DEPS_COUNT_VERY_SMALL then MIN_RATIO_VERY_SMALL_DEPS
  else if depsCount < DEPS_COUNT_SMALL then MIN_RATIO_SMALL_DEPS
  else MIN_RATIO_MEDIUM_DEPS

/-- `getCooccurForwardDepsRatioThreshold` from `src/lib/config.ts`. -/
def getCooccurForwardDepsRatioThreshold (depsCount : ℕ) : ℚ :=
  if depsCount < DEPS_COUNT_VERY_SMALL then MIN_RATIO_COOCCUR_VERY_SMALL_DEPS
  else if depsCount < DEPS_COUNT_SMALL then MIN_RATIO_COOCCUR_SMALL_DEPS
  else MIN_RATIO_COOCCUR_MEDIUM_DEPS

/-! ## Exact Jaccard similarity (`jaccard.ts`, second module of
`src/lib/pypi-stats.ts`) -/

/-- `JaccardResult` from `jaccard.ts`. -/
@[ext]
structure JaccardResult where
  score : ℚ
  shared : ℕ
  unionSize : ℕ
deriving DecidableEq, Repr

/-- `jaccardSimilarityStandard` from `jaccard.ts`: iterate `a`, count members
of `b`, `unionSize = a.size + b.size - shared`,
`score = unionSize > 0 ? shared / unionSize : 0`. -/
def jaccardSimilarityStandard (a b : Finset String) : JaccardResult :=
  let shared := (a.filter fun x => x ∈ b).card
  let unionSize := a.card + b.card - shared
  { score := if 0 < unionSize then (shared : ℚ) / unionSize else 0
    shared := shared
    unionSize := unionSize }

/-- The two-pointer merge loop of `jaccardSimilarityOptimized`, counting
common elements of two sorted arrays. -/
def mergeCount : List String → List String → ℕ
  | [], _ => 0
  | _ :: _, [] => 0
  | a :: as, b :: bs =>
    if a = b then mergeCount as bs + 1
    else if a < b then mergeCount as (b :: bs)
    else mergeCount (a :: as) bs
termination_by l₁ l₂ => l₁.length + l₂.length
decreasing_by all_goals simp_arith

/-- `jaccardSimilarityOptimized` from `jaccard.ts`: sort both sets, count the
intersection with a two-pointer merge. -/
def jaccardSimilarityOptimized (a b : Finset String) : JaccardResult :=
  let arrA := Finset.sort (· ≤ ·) a
  let arrB := Finset.sort (· ≤ ·) b
  let shared := mergeCount arrA arrB
  let unionSize := arrA.length + arrB.length - shared
  { score := if 0 < unionSize then (shared : ℚ) / unionSize else 0
    shared := shared
    unionSize := unionSize }

/-- `jaccardSimilarity` from `jaccard.ts`: dispatch on the size threshold 100. -/
def jaccardSimilarity (a b : Finset String) : JaccardResult :=
  if a.card < 100 ∧ b.card < 100 then jaccardSimilarityStandard a b
  else jaccardSimilarityOptimized a b

/-- `canMeetThreshold` from `src/lib/similar.ts`: size-only pre-filter. -/
def canMeetThreshold (candidateSize baseSize : ℕ) (minJaccard : ℚ) : Bool :=
  if candidateSize = 0 ∨ baseSize = 0 then false
  else
    let maxPossibleIntersection := min candidateSize baseSize
    let minPossibleUnion := max candidateSize baseSize
    let maxPossibleJaccard : ℚ := (maxPossibleIntersection : ℚ) / (minPossibleUnion : ℚ)
    decide (maxPossibleJaccard ≥ minJaccard)

/-! ### Correctness of the two-pointer merge -/

lemma mergeCount_sorted_eq_filter :
    ∀ (l₁ l₂ : List String), l₁.Sorted (· < ·) → l₂.Sorted (· < ·) →
      mergeCount l₁ l₂ = (l₁.filter fun x => x ∈ l₂).length
  | [], l₂, _, _ => by simp [mergeCount]
  | a :: as, [], _, _ => by simp [mergeCount]
  | a :: as, b :: bs, h₁, h₂ => by
    have ha : ∀ x ∈ as, a < x := List.rel_of_sorted_cons h₁
    have hb : ∀ y ∈ bs, b < y := List.rel_of_sorted_cons h₂
    by_cases hab : a = b
    · subst hab
      rw [mergeCount, if_pos rfl]
      have ih := mergeCount_sorted_eq_filter as bs h₁.of_cons h₂.of_cons
      have hcongr : (as.filter fun x => x ∈ a :: bs) = as.filter fun x => x ∈ bs := by
        apply List.filter_congr
        intro x hx
        have hne : x ≠ a := ne_of_gt (ha x hx)
        simp [List.mem_cons, hne]
      have hstep : ((a :: as).filter fun x => x ∈ a :: bs)
          = a :: (as.filter fun x => x ∈ bs) := by
        rw [← hcongr]
        simp [List.filter_cons]
      rw [hstep, List.length_cons, ih]
    · by_cases hlt : a < b
      · rw [mergeCount, if_neg hab, if_pos hlt]
        have hnot : a ∉ b :: bs := by
          intro hmem
          rcases List.mem_cons.mp hmem with h | h
          · exact hab h
          · exact absurd (hlt.trans (hb a h)) (lt_irrefl a)
        have ih := mergeCount_sorted_eq_filter as (b :: bs) h₁.of_cons h₂
        have hstep : ((a :: as).filter fun x => x ∈ b :: bs)
            = as.filter fun x => x ∈ b :: bs := by
          have h1 : a ∉ bs := fun h => hnot (List.mem_cons_of_mem b h)
          simp [List.filter_cons, List.mem_cons, hab, h1]
        rw [hstep, ih]
      · have hgt : b < a := by
          rcases lt_trichotomy a b with h | h | h
          · exact absurd h hlt
          · exact absurd h hab
          · exact h
        rw [mergeCount, if_neg hab, if_neg hlt]
        have hmem : ∀ x ∈ a :: as, (x ∈ b :: bs) = (x ∈ bs) := by
          intro x hx
          have hax : b < x := by
            rcases List.mem_cons.mp hx with h | h
            · exact h ▸ hgt
            · exact hgt.trans (ha x h)
          have : x ≠ b := ne_of_gt hax
          simp [List.mem_cons, this]
        have ih := mergeCount_sorted_eq_filter (a :: as) bs h₁ h₂.of_cons
        have hcongr : ((a :: as).filter fun x => x ∈ b :: bs)
            = (a :: as).filter fun x => x ∈ bs := by
          apply List.filter_congr
          intro x hx
          simp only [hmem x hx]
        rw [ih, hcongr]
termination_by l₁ l₂ => l₁.length + l₂.length
decreasing_by all_goals simp_arith

lemma length_filter_mem_sort (a b : Finset String) :
    ((Finset.sort (· ≤ ·) a).filter fun x => x ∈ Finset.sort (· ≤ ·) b).length
      = (a.filter fun x => x ∈ b).card := by
  have hnd : ((Finset.sort (· ≤ ·) a).filter fun x => x ∈ Finset.sort (· ≤ ·) b).Nodup :=
    (Finset.sort_nodup _ a).filter _
  rw [← List.toFinset_card_of_nodup hnd, List.toFinset_filter]
  congr 1
  · ext x
    simp [Finset.mem_sort, List.mem_toFinset, Finset.mem_filter]

lemma mergeCount_sort_eq (a b : Finset String) :
    mergeCount (Finset.sort (· ≤ ·) a) (Finset.sort (· ≤ ·) b)
      = (a.filter fun x => x ∈ b).card := by
  rw [mergeCount_sorted_eq_filter _ _ (Finset.sort_sorted_lt a) (Finset.sort_sorted_lt b)]
  exact length_filter_mem_sort a b

/-- The optimized and standard exact-Jaccard implementations agree. -/
lemma jaccardSimilarityOptimized_eq_standard (a b : Finset String) :
    jaccardSimilarityOptimized a b = jaccardSimilarityStandard a b := by
  unfold jaccardSimilarityOptimized jaccardSimilarityStandard
  simp only [mergeCount_sort_eq, Finset.length_sort]

/-- The dispatcher always returns the standard result. -/
lemma jaccardSimilarity_eq_standard (a b : Finset String) :
    jaccardSimilarity a b = jaccardSimilarityStandard a b := by
  unfold jaccardSimilarity
  split
  · rfl
  · exact jaccardSimilarityOptimized_eq_standard a b

/-! ### Set-theoretic characterization -/

lemma filter_mem_eq_inter' (a b : Finset String) :
    (a.filter fun x => x ∈ b) = a ∩ b := by
  ext x
  simp [Finset.mem_filter, Finset.mem_inter]

lemma shared_eq_card_inter (a b : Finset String) :
    (jaccardSimilarityStandard a b).shared = (a ∩ b).card := by
  show (a.filter fun x => x ∈ b).card = (a ∩ b).card
  rw [filter_mem_eq_inter']

lemma unionSize_eq_card_union (a b : Finset String) :
    (jaccardSimilarityStandard a b).unionSize = (a ∪ b).card := by
  have h := Finset.card_union_add_card_inter a b
  show a.card + b.card - (a.filter fun x => x ∈ b).card = (a ∪ b).card
  rw [filter_mem_eq_inter' a b]
  omega


lemma standard_score_def (a b : Finset String) :
    (jaccardSimilarityStandard a b).score =
      if 0 < (jaccardSimilarityStandard a b).unionSize
      then ((jaccardSimilarityStandard a b).shared : ℚ)
            / ((jaccardSimilarityStandard a b).unionSize : ℚ)
      else 0 := rfl

lemma standard_score_char (a b : Finset String) :
    (jaccardSimilarityStandard a b).score =
      if (a ∪ b).card = 0 then 0
      else ((a ∩ b).card : ℚ) / ((a ∪ b).card : ℚ) := by
  rw [standard_score_def, shared_eq_card_inter, unionSize_eq_card_union]
  rcases Nat.eq_zero_or_pos (a ∪ b).card with h | h
  · simp [h]
  · rw [if_pos h, if_neg (by omega)]

lemma standard_comm (a b : Finset String) :
    jaccardSimilarityStandard a b = jaccardSimilarityStandard b a := by
  have h1 : (jaccardSimilarityStandard a b).shared
      = (jaccardSimilarityStandard b a).shared := by
    rw [shared_eq_card_inter, shared_eq_card_inter, Finset.inter_comm]
  have h2 : (jaccardSimilarityStandard a b).unionSize
      = (jaccardSimilarityStandard b a).unionSize := by
    rw [unionSize_eq_card_union, unionSize_eq_card_union, Finset.union_comm]
  ext
  · rw [standard_score_def, standard_score_def, h1, h2]
  · exact h1
  · exact h2

lemma standard_self (a : Finset String) (h : a.Nonempty) :
    (jaccardSimilarityStandard a a).score = 1 := by
  rw [standard_score_char]
  have hcard : 0 < a.card := Finset.card_pos.mpr h
  rw [Finset.union_self, Finset.inter_self, if_neg (by omega)]
  have : ((a.card : ℚ)) ≠ 0 := by positivity
  exact div_self this

lemma standard_empty (a : Finset String) :
    (jaccardSimilarityStandard a ∅).score = 0 := by
  rw [standard_score_char]
  rcases Nat.eq_zero_or_pos (a ∪ ∅).card with h | h
  · simp [h]
  · rw [if_neg (by omega)]
    simp

/-- **C2.** `jaccardSimilarity` returns `shared = |A ∩ B|`,
`unionSize = |A ∪ B|`, and `score = |A ∩ B| / |A ∪ B|` (0 when the union is
empty); it is symmetric, equals 1 on a nonempty set against itself, and 0
against the empty set. -/
theorem jaccardSimilarity_spec (a b : Finset String) :
    (jaccardSimilarity a b).shared = (a ∩ b).card
    ∧ (jaccardSimilarity a b).unionSize = (a ∪ b).card
    ∧ (jaccardSimilarity a b).score =
        (if (a ∪ b).card = 0 then 0 else ((a ∩ b).card : ℚ) / ((a ∪ b).card : ℚ))
    ∧ jaccardSimilarity a b = jaccardSimilarity b a
    ∧ (a.Nonempty → (jaccardSimilarity a a).score = 1)
    ∧ (jaccardSimilarity a ∅).score = 0 := by
  repeat rw [jaccardSimilarity_eq_standard]
  refine ⟨shared_eq_card_inter a b, unionSize_eq_card_union a b,
    standard_score_char a b, standard_comm a b, ?_, standard_empty a⟩
  intro h
  exact standard_self a h

/-- Witness for `jaccardSimilarity_spec` at a concrete nonempty set. -/
theorem jaccardSimilarity_spec_witness :
    ({"a"} : Finset String).Nonempty
    ∧ (jaccardSimilarity {"a"} {"a"}).score = 1 :=
  ⟨⟨"a", Finset.mem_singleton_self "a"⟩,
    (jaccardSimilarity_spec {"a"} {"a"}).2.2.2.2.1 ⟨"a", Finset.mem_singleton_self "a"⟩⟩

/-- **C10.** The optimized (sorted two-pointer) and standard (set-iteration)
exact-Jaccard implementations return identical results on every pair of
finite string sets, so the size-threshold dispatch in `jaccardSimilarity`
never changes the returned value. -/
theorem jaccard_optimized_refines_standard (a b : Finset String) :
    jaccardSimilarityOptimized a b = jaccardSimilarityStandard a b
    ∧ jaccardSimilarity a b = jaccardSimilarityStandard a b :=
  ⟨jaccardSimilarityOptimized_eq_standard a b, jaccardSimilarity_eq_standard a b⟩

/-! ### The size-only pre-filter (C4) -/

lemma score_le_min_div_max (c B : Finset String) (hc : 0 < c.card) (hB : 0 < B.card) :
    (jaccardSimilarity c B).score ≤ (min c.card B.card : ℚ) / (max c.card B.card : ℚ) := by
  rw [jaccardSimilarity_eq_standard, standard_score_char]
  have hmax : (max c.card B.card : ℕ) ≤ (c ∪ B).card :=
    max_le (Finset.card_le_card Finset.subset_union_left)
      (Finset.card_le_card Finset.subset_union_right)
  have hmin : (c ∩ B).card ≤ min c.card B.card :=
    le_min (Finset.card_le_card Finset.inter_subset_left)
      (Finset.card_le_card Finset.inter_subset_right)
  have hupos : 0 < (c ∪ B).card := lt_of_lt_of_le (lt_of_lt_of_le hc (le_max_left _ _)) hmax
  rw [if_neg (by omega)]
  apply div_le_div₀ (by positivity) (by exact_mod_cast hmin)
  · exact_mod_cast lt_of_lt_of_le hc (le_max_left _ _)
  · exact_mod_cast hmax

lemma score_zero_of_empty_side (c B : Finset String) (h : c.card = 0 ∨ B.card = 0) :
    (jaccardSimilarity c B).score = 0 := by
  rw [jaccardSimilarity_eq_standard, standard_score_char]
  have hinter : (c ∩ B).card = 0 := by
    rcases h with h | h
    · have : c = ∅ := Finset.card_eq_zero.mp h
      simp [this]
    · have : B = ∅ := Finset.card_eq_zero.mp h
      simp [this]
  rcases Nat.eq_zero_or_pos (c ∪ B).card with hu | hu
  · simp [hu]
  · rw [if_neg (by omega), hinter]
    simp

/-- **C4 (counterexample to the claim as stated).** With threshold `t = 0` and
an empty candidate set, `canMeetThreshold` returns `false`, yet the exact
Jaccard score of a pair of sets with those cardinalities is `0`, which is not
below `t`. -/
theorem canMeetThreshold_not_always_strict :
    canMeetThreshold (∅ : Finset String).card ({"x"} : Finset String).card 0 = false
    ∧ ¬ ((jaccardSimilarity (∅ : Finset String) {"x"}).score < 0) := by
  constructor
  · simp [canMeetThreshold]
  · have h := score_zero_of_empty_side (∅ : Finset String) {"x"} (Or.inl (by decide))
    rw [h]
    exact lt_irrefl 0

/-- **C4 (amended).** For every positive threshold `t`, whenever
`canMeetThreshold (|c|, |B|, t)` returns `false` the exact Jaccard score of
every pair of sets with those cardinalities is below `t`; and for nonempty
sizes, `min(|c|,|B|) / max(|c|,|B|)` is an upper bound on the exact Jaccard
score of any such pair. -/
theorem canMeetThreshold_sound (c B : Finset String) (t : ℚ) :
    (0 < t → canMeetThreshold c.card B.card t = false →
      (jaccardSimilarity c B).score < t)
    ∧ (0 < c.card → 0 < B.card →
      (jaccardSimilarity c B).score ≤ (min c.card B.card : ℚ) / (max c.card B.card : ℚ)) := by
  constructor
  · intro ht hfalse
    by_cases hzero : c.card = 0 ∨ B.card = 0
    · rw [score_zero_of_empty_side c B hzero]
      exact ht
    · push_neg at hzero
      have hc : 0 < c.card := Nat.pos_of_ne_zero hzero.1
      have hB : 0 < B.card := Nat.pos_of_ne_zero hzero.2
      have hbound := score_le_min_div_max c B hc hB
      unfold canMeetThreshold at hfalse
      rw [if_neg (by omega)] at hfalse
      simp only [decide_eq_false_iff_not, not_le] at hfalse
      push_cast at hfalse
      exact lt_of_le_of_lt hbound hfalse
  · exact score_le_min_div_max c B

/-- Witness for `canMeetThreshold_sound` at a concrete input. -/
theorem canMeetThreshold_sound_witness :
    ((0 : ℚ) < 1/2
      ∧ canMeetThreshold ({"a"} : Finset String).card ({"b","c","d"} : Finset String).card (1/2) = false
      ∧ (jaccardSimilarity ({"a"} : Finset String) {"b","c","d"}).score < 1/2)
    ∧ (0 < ({"a"} : Finset String).card ∧ 0 < ({"b","c","d"} : Finset String).card
      ∧ (jaccardSimilarity ({"a"} : Finset String) {"b","c","d"}).score
          ≤ (min ({"a"} : Finset String).card ({"b","c","d"} : Finset String).card : ℚ)
            / (max ({"a"} : Finset String).card ({"b","c","d"} : Finset String).card : ℚ)) := by
  have h := canMeetThreshold_sound ({"a"} : Finset String) {"b","c","d"} (1/2)
  have h1 : ({"a"} : Finset String).card = 1 := by decide
  have h3 : ({"b","c","d"} : Finset String).card = 3 := by decide
  have hcmt : canMeetThreshold ({"a"} : Finset String).card
      ({"b","c","d"} : Finset String).card (1/2) = false := by
    rw [h1, h3]
    norm_num [canMeetThreshold]
  refine ⟨⟨by norm_num, hcmt, h.1 (by norm_num) hcmt⟩,
    ⟨by decide, by decide, h.2 (by decide) (by decide)⟩⟩

/-! ## Bounded top-K min-heap (`heapPushBounded` and friends,
`src/lib/similar.ts` lines 343-380) -/

/-- Default element letting JavaScript array indexing be expressed with
`List.getD`; every access the heap code performs is in bounds. -/
def dfltItem : SimilarItem := ⟨"", 0, 0⟩

/-- `heap[i].jaccard` — the score stored at index `i`. -/
def scoreAt (h : List SimilarItem) (i : ℕ) : ℚ := (h.getD i dfltItem).jaccard

/-- `heapSwap` from `src/lib/similar.ts`. -/
def heapSwap (h : List SimilarItem) (i j : ℕ) : List SimilarItem :=
  (h.set i (h.getD j dfltItem)).set j (h.getD i dfltItem)

lemma heapSwap_length (h : List SimilarItem) (i j : ℕ) :
    (heapSwap h i j).length = h.length := by
  simp [heapSwap]

lemma scoreAt_heapSwap (h : List SimilarItem) (i j k : ℕ)
    (hi : i < h.length) (hj : j < h.length) :
    scoreAt (heapSwap h i j) k =
      if k = j then scoreAt h i else if k = i then scoreAt h j else scoreAt h k := by
  unfold scoreAt heapSwap
  simp only [List.getD_eq_getElem?_getD, List.getElem?_set, List.length_set]
  by_cases hkj : k = j
  · subst hkj
    by_cases hki : i = k <;> simp [hki, hi, hj]
  · by_cases hki : i = k
    · subst hki
      simp [Ne.symm hkj, hkj, hi]
    · simp [hki, Ne.symm hki, Ne.symm hkj, hkj]

lemma getD_cons_swap_perm :
    ∀ (t : List SimilarItem) (k : ℕ) (a : SimilarItem), k < t.length →
      (t.getD k dfltItem :: t.set k a).Perm (a :: t)
  | b :: s, 0, a, _ => by
    simpa using List.Perm.swap a b s
  | b :: s, k + 1, a, hk => by
    have hk' : k < s.length := by simpa using hk
    have ih := getD_cons_swap_perm s k a hk'
    have s1 : (s.getD k dfltItem :: b :: s.set k a).Perm
        (b :: s.getD k dfltItem :: s.set k a) := List.Perm.swap b _ _
    have s2 : (b :: s.getD k dfltItem :: s.set k a).Perm (b :: a :: s) := ih.cons b
    have s3 : (b :: a :: s).Perm (a :: b :: s) := List.Perm.swap a b s
    exact (s1.trans s2).trans s3

lemma heapSwap_perm :
    ∀ (h : List SimilarItem) (i j : ℕ), i < h.length → j < h.length →
      (heapSwap h i j).Perm h
  | a :: t, 0, 0, _, _ => by simp [heapSwap]
  | a :: t, 0, j + 1, _, hj => by
    have hj' : j < t.length := by simpa using hj
    have := getD_cons_swap_perm t j a hj'
    simpa [heapSwap] using this
  | a :: t, i + 1, 0, hi, _ => by
    have hi' : i < t.length := by simpa using hi
    have := getD_cons_swap_perm t i a hi'
    simpa [heapSwap] using this
  | a :: t, i + 1, j + 1, hi, hj => by
    have hi' : i < t.length := by simpa using hi
    have hj' : j < t.length := by simpa using hj
    have ih := heapSwap_perm t i j hi' hj'
    simpa [heapSwap] using ih.cons a

/-- The child-selection step of `heapSiftDown`: `m` after the two
comparisons against the left and right child. -/
def minChildIdx (h : List SimilarItem) (i : ℕ) : ℕ :=
  let n := h.length
  let l := 2 * i + 1
  let r := 2 * i + 2
  let m₁ := if l < n ∧ scoreAt h l < scoreAt h i then l else i
  if r < n ∧ scoreAt h r < scoreAt h m₁ then r else m₁

lemma minChildIdx_eq_self (h : List SimilarItem) (i : ℕ)
    (hm : minChildIdx h i = i) :
    (2 * i + 1 < h.length → scoreAt h i ≤ scoreAt h (2 * i + 1))
    ∧ (2 * i + 2 < h.length → scoreAt h i ≤ scoreAt h (2 * i + 2)) := by
  unfold minChildIdx at hm
  simp only at hm
  by_cases h1 : 2 * i + 1 < h.length ∧ scoreAt h (2 * i + 1) < scoreAt h i
  · rw [if_pos h1] at hm
    by_cases h2 : 2 * i + 2 < h.length ∧ scoreAt h (2 * i + 2) < scoreAt h (2 * i + 1)
    · rw [if_pos h2] at hm
      omega
    · rw [if_neg h2] at hm
      omega
  · rw [if_neg h1] at hm
    by_cases h2 : 2 * i + 2 < h.length ∧ scoreAt h (2 * i + 2) < scoreAt h i
    · rw [if_pos h2] at hm
      omega
    · push_neg at h1 h2
      exact ⟨fun hl => h1 hl, fun hr => h2 hr⟩

lemma minChildIdx_ne_self (h : List SimilarItem) (i : ℕ)
    (hm : minChildIdx h i ≠ i) :
    (minChildIdx h i = 2 * i + 1 ∨ minChildIdx h i = 2 * i + 2)
    ∧ minChildIdx h i < h.length ∧ i < minChildIdx h i
    ∧ scoreAt h (minChildIdx h i) ≤ scoreAt h i
    ∧ (2 * i + 1 < h.length → scoreAt h (minChildIdx h i) ≤ scoreAt h (2 * i + 1))
    ∧ (2 * i + 2 < h.length → scoreAt h (minChildIdx h i) ≤ scoreAt h (2 * i + 2)) := by
  unfold minChildIdx at hm ⊢
  simp only at hm ⊢
  by_cases h1 : 2 * i + 1 < h.length ∧ scoreAt h (2 * i + 1) < scoreAt h i
  · rw [if_pos h1] at hm ⊢
    by_cases h2 : 2 * i + 2 < h.length ∧ scoreAt h (2 * i + 2) < scoreAt h (2 * i + 1)
    · rw [if_pos h2] at hm ⊢
      exact ⟨Or.inr rfl, h2.1, by omega, (lt_trans h2.2 h1.2).le,
        fun _ => h2.2.le, fun _ => le_refl _⟩
    · rw [if_neg h2] at hm ⊢
      push_neg at h2
      exact ⟨Or.inl rfl, h1.1, by omega, h1.2.le,
        fun _ => le_refl _, fun hr => h2 hr⟩
  · rw [if_neg h1] at hm ⊢
    by_cases h2 : 2 * i + 2 < h.length ∧ scoreAt h (2 * i + 2) < scoreAt h i
    · rw [if_pos h2] at hm ⊢
      push_neg at h1
      exact ⟨Or.inr rfl, h2.1, by omega, h2.2.le,
        fun hl => (lt_of_lt_of_le h2.2 (h1 hl)).le, fun _ => le_refl _⟩
    · rw [if_neg h2] at hm
      omega

/-- `heapSiftDown` from `src/lib/similar.ts`: restore the heap shape downward
from index `i`. -/
def heapSiftDown (h : List SimilarItem) (i : ℕ) : List SimilarItem :=
  if hm : minChildIdx h i = i then h
  else heapSiftDown (heapSwap h i (minChildIdx h i)) (minChildIdx h i)
termination_by h.length - i
decreasing_by
  have hs := minChildIdx_ne_self h i hm
  have hlen := heapSwap_length h i (minChildIdx h i)
  omega

/-- `heapSiftUp` from `src/lib/similar.ts`: restore the heap shape upward from
index `i` (the parent of `i + 1` is `i / 2`). -/
def heapSiftUp : List SimilarItem → ℕ → List SimilarItem
  | h, 0 => h
  | h, i + 1 =>
    if scoreAt h (i / 2) ≤ scoreAt h (i + 1) then h
    else heapSiftUp (heapSwap h (i / 2) (i + 1)) (i / 2)
termination_by _ i => i
decreasing_by omega

/-- `heapPushBounded` from `src/lib/similar.ts`: insert and sift up while the
heap holds fewer than `limit` items, otherwise replace the root only when the
incoming score is strictly greater. -/
def heapPushBounded (limit : ℕ) (heap : List SimilarItem) (item : SimilarItem) :
    List SimilarItem :=
  if heap.length < limit then heapSiftUp (heap ++ [item]) heap.length
  else if limit ≤ 0 then heap
  else if item.jaccard ≤ scoreAt heap 0 then heap
  else heapSiftDown (heap.set 0 item) 0

/-- The zero-based binary min-heap invariant of the `heap` array. -/
def IsMinHeap (h : List SimilarItem) : Prop :=
  ∀ j, 0 < j → j < h.length → scoreAt h ((j - 1) / 2) ≤ scoreAt h j

lemma isMinHeap_root_le (h : List SimilarItem) (hh : IsMinHeap h) :
    ∀ j, j < h.length → scoreAt h 0 ≤ scoreAt h j := by
  intro j
  induction j using Nat.strong_induction_on with
  | _ j ih =>
    intro hj
    rcases Nat.eq_zero_or_pos j with rfl | hj0
    · exact le_refl _
    · exact le_trans (ih ((j - 1) / 2) (by omega) (by omega)) (hh j hj0 hj)

/-- Sift-up restores the full min-heap shape from a state whose only possible
violation is the edge into index `i`, provided the children of `i` already fit
above `i`'s parent. -/
lemma heapSiftUp_correct :
    ∀ (i : ℕ) (h : List SimilarItem), i = 0 ∨ i < h.length →
      (∀ j, 0 < j → j < h.length → j ≠ i → scoreAt h ((j - 1) / 2) ≤ scoreAt h j) →
      (0 < i → ∀ j, j < h.length → (j = 2 * i + 1 ∨ j = 2 * i + 2) →
        scoreAt h ((i - 1) / 2) ≤ scoreAt h j) →
      IsMinHeap (heapSiftUp h i) ∧ (heapSiftUp h i).Perm h
  | 0, h, _, hex, _ => by
    rw [heapSiftUp]
    exact ⟨fun j hj hlt => hex j hj hlt (by omega), List.Perm.refl h⟩
  | i + 1, h, hi, hex, hpar => by
    rw [heapSiftUp]
    by_cases hc : scoreAt h (i / 2) ≤ scoreAt h (i + 1)
    · rw [if_pos hc]
      refine ⟨?_, List.Perm.refl h⟩
      intro j hj hlt
      by_cases hji : j = i + 1
      · subst hji
        have : (i + 1 - 1) / 2 = i / 2 := by omega
        rw [this]
        exact hc
      · exact hex j hj hlt hji
    · rw [if_neg hc]
      push_neg at hc
      have hk : i + 1 < h.length := by omega
      have hplt : i / 2 < i + 1 := by omega
      have hp : i / 2 < h.length := lt_trans hplt hk
      have hswap := fun k => scoreAt_heapSwap h (i / 2) (i + 1) k hp hk
      have hlen := heapSwap_length h (i / 2) (i + 1)
      have hparent : (i + 1 - 1) / 2 = i / 2 := by omega
      have hex' : ∀ j, 0 < j → j < (heapSwap h (i / 2) (i + 1)).length →
          j ≠ i / 2 →
          scoreAt (heapSwap h (i / 2) (i + 1)) ((j - 1) / 2)
            ≤ scoreAt (heapSwap h (i / 2) (i + 1)) j := by
        intro j hj hjl hjp
        rw [hlen] at hjl
        rw [hswap, hswap]
        by_cases hji : j = i + 1
        · subst hji
          rw [if_pos rfl, hparent, if_neg (by omega), if_pos rfl]
          exact hc.le
        · rw [if_neg hji, if_neg hjp]
          by_cases hq1 : (j - 1) / 2 = i / 2
          · -- j is a sibling of i+1 below the parent i/2
            rw [if_neg (by omega), if_pos hq1]
            have := hex j hj hjl hji
            rw [hq1] at this
            exact (lt_of_lt_of_le hc this).le
          · by_cases hq2 : (j - 1) / 2 = i + 1
            · -- j is a child of i+1
              rw [if_pos hq2]
              have hj2 : j = 2 * (i + 1) + 1 ∨ j = 2 * (i + 1) + 2 := by omega
              have := hpar (by omega) j hjl hj2
              rw [hparent] at this
              exact this
            · rw [if_neg hq2, if_neg hq1]
              exact hex j hj hjl hji
      have hpar' : 0 < i / 2 → ∀ j, j < (heapSwap h (i / 2) (i + 1)).length →
          (j = 2 * (i / 2) + 1 ∨ j = 2 * (i / 2) + 2) →
          scoreAt (heapSwap h (i / 2) (i + 1)) ((i / 2 - 1) / 2)
            ≤ scoreAt (heapSwap h (i / 2) (i + 1)) j := by
        intro hp0 j hjl hj2
        rw [hlen] at hjl
        rw [hswap, hswap]
        have hgp : (i / 2 - 1) / 2 ≠ i + 1 := by omega
        have hgp2 : (i / 2 - 1) / 2 ≠ i / 2 := by omega
        rw [if_neg hgp, if_neg hgp2]
        have hpp := hex (i / 2) hp0 hp (by omega)
        by_cases hji : j = i + 1
        · subst hji
          rw [if_pos rfl]
          exact hpp
        · rw [if_neg hji, if_neg (by omega)]
          have hstep := hex j (by omega) hjl hji
          have hjq : (j - 1) / 2 = i / 2 := by omega
          rw [hjq] at hstep
          exact le_trans hpp hstep
      have ih := heapSiftUp_correct (i / 2) (heapSwap h (i / 2) (i + 1))
        (by rw [heapSwap_length]; omega) hex' hpar'
      exact ⟨ih.1, ih.2.trans (heapSwap_perm h (i / 2) (i + 1) hp hk)⟩
termination_by i => i
decreasing_by omega

/-- Sift-down restores the full min-heap shape from a state whose only
possible violations are the edges from `i` into its children, provided the
children of `i` already fit above `i`'s parent. -/
lemma heapSiftDown_correct :
    ∀ (h : List SimilarItem) (i : ℕ),
      (∀ j, 0 < j → j < h.length → j ≠ 2 * i + 1 → j ≠ 2 * i + 2 →
        scoreAt h ((j - 1) / 2) ≤ scoreAt h j) →
      (0 < i → ∀ j, j < h.length → (j = 2 * i + 1 ∨ j = 2 * i + 2) →
        scoreAt h ((i - 1) / 2) ≤ scoreAt h j) →
      IsMinHeap (heapSiftDown h i) ∧ (heapSiftDown h i).Perm h := by
  intro h i
  induction h, i using heapSiftDown.induct with
  | case1 h i hm =>
    intro hex _
    rw [heapSiftDown, dif_pos hm]
    have hstop := minChildIdx_eq_self h i hm
    refine ⟨?_, List.Perm.refl h⟩
    intro j hj hjl
    by_cases hj1 : j = 2 * i + 1
    · subst hj1
      have : (2 * i + 1 - 1) / 2 = i := by omega
      rw [this]
      exact hstop.1 hjl
    · by_cases hj2 : j = 2 * i + 2
      · subst hj2
        have : (2 * i + 2 - 1) / 2 = i := by omega
        rw [this]
        exact hstop.2 hjl
      · exact hex j hj hjl hj1 hj2
  | case2 h i hm ih =>
    intro hex hpar
    rw [heapSiftDown, dif_neg hm]
    have hs := minChildIdx_ne_self h i hm
    obtain ⟨hm12, hmn, him, hmi, hml, hmr⟩ := hs
    have hin : i < h.length := lt_trans him hmn
    have hswap := fun k => scoreAt_heapSwap h i (minChildIdx h i) k hin hmn
    have hlen := heapSwap_length h i (minChildIdx h i)
    have hparent : (minChildIdx h i - 1) / 2 = i := by omega
    have hex' : ∀ j, 0 < j → j < (heapSwap h i (minChildIdx h i)).length →
        j ≠ 2 * minChildIdx h i + 1 → j ≠ 2 * minChildIdx h i + 2 →
        scoreAt (heapSwap h i (minChildIdx h i)) ((j - 1) / 2)
          ≤ scoreAt (heapSwap h i (minChildIdx h i)) j := by
      intro j hj hjl hc1 hc2
      rw [hlen] at hjl
      rw [hswap, hswap]
      by_cases hjm : j = minChildIdx h i
      · subst hjm
        rw [if_pos rfl, hparent, if_neg (by omega), if_pos rfl]
        exact hmi
      · rw [if_neg hjm]
        by_cases hji : j = i
        · rw [hji, if_pos rfl]
          have hi0 : 0 < i := by omega
          have hq1 : (i - 1) / 2 ≠ minChildIdx h i := by omega
          have hq2 : (i - 1) / 2 ≠ i := by omega
          rw [if_neg hq1, if_neg hq2]
          exact hpar hi0 (minChildIdx h i) hmn hm12
        · rw [if_neg hji]
          by_cases hq1 : (j - 1) / 2 = minChildIdx h i
          · omega
          · rw [if_neg hq1]
            by_cases hq2 : (j - 1) / 2 = i
            · rw [if_pos hq2]
              have hjc : j = 2 * i + 1 ∨ j = 2 * i + 2 := by omega
              rcases hjc with hjc | hjc
              · subst hjc
                exact hml hjl
              · subst hjc
                exact hmr hjl
            · rw [if_neg hq2]
              exact hex j hj hjl (by omega) (by omega)
    have hpar' : 0 < minChildIdx h i →
        ∀ j, j < (heapSwap h i (minChildIdx h i)).length →
        (j = 2 * minChildIdx h i + 1 ∨ j = 2 * minChildIdx h i + 2) →
        scoreAt (heapSwap h i (minChildIdx h i)) ((minChildIdx h i - 1) / 2)
          ≤ scoreAt (heapSwap h i (minChildIdx h i)) j := by
      intro _ j hjl hj2
      rw [hlen] at hjl
      rw [hswap, hswap, hparent]
      rw [if_neg (by omega), if_pos rfl, if_neg (by omega), if_neg (by omega)]
      have hstep := hex j (by omega) hjl (by omega) (by omega)
      have hjq : (j - 1) / 2 = minChildIdx h i := by omega
      rw [hjq] at hstep
      exact hstep
    have res := ih hex' hpar'
    exact ⟨res.1, res.2.trans (heapSwap_perm h i (minChildIdx h i) hin hmn)⟩

lemma scoreAt_append_lt (h l : List SimilarItem) (a : ℕ) (ha : a < h.length) :
    scoreAt (h ++ l) a = scoreAt h a := by
  unfold scoreAt
  rw [List.getD_eq_getElem?_getD, List.getD_eq_getElem?_getD,
    List.getElem?_append_left ha]

lemma scoreAt_set_ne (h : List SimilarItem) (v : SimilarItem) (i a : ℕ)
    (ha : i ≠ a) : scoreAt (h.set i v) a = scoreAt h a := by
  unfold scoreAt
  rw [List.getD_eq_getElem?_getD, List.getD_eq_getElem?_getD,
    List.getElem?_set_ne ha]

/-- `heapPushBounded` preserves the min-heap shape and transforms the heap
contents exactly as the claim describes: insert below capacity, ignore a
non-greater score at capacity, and replace the root otherwise. -/
lemma heapPushBounded_spec (limit : ℕ) (h : List SimilarItem)
    (item : SimilarItem) (hh : IsMinHeap h) :
    IsMinHeap (heapPushBounded limit h item)
    ∧ (h.length < limit →
        (heapPushBounded limit h item : Multiset SimilarItem) = item ::ₘ (h : Multiset SimilarItem))
    ∧ (¬ h.length < limit → limit = 0 → heapPushBounded limit h item = h)
    ∧ (¬ h.length < limit → 0 < limit → item.jaccard ≤ scoreAt h 0 →
        heapPushBounded limit h item = h)
    ∧ (¬ h.length < limit → 0 < limit → scoreAt h 0 < item.jaccard →
        (heapPushBounded limit h item : Multiset SimilarItem)
          = item ::ₘ ((h : Multiset SimilarItem).erase (h.getD 0 dfltItem))) := by
  by_cases hlt : h.length < limit
  · -- insert and sift up
    have hup := heapSiftUp_correct h.length (h ++ [item])
      (by right; simp)
      (by
        intro j hj hjl hji
        rw [List.length_append, List.length_singleton] at hjl
        have hjh : j < h.length := by omega
        have hqh : (j - 1) / 2 < h.length := by omega
        rw [scoreAt_append_lt h [item] j hjh, scoreAt_append_lt h [item] _ hqh]
        exact hh j hj hjh)
      (by
        intro _ j hjl hj2
        rw [List.length_append, List.length_singleton] at hjl
        omega)
    unfold heapPushBounded
    rw [if_pos hlt]
    refine ⟨hup.1, fun _ => ?_, fun hc => absurd hlt hc, fun hc => absurd hlt hc,
      fun hc => absurd hlt hc⟩
    have := hup.2
    rw [Multiset.coe_eq_coe.mpr this]
    show ((h ++ [item] : List SimilarItem) : Multiset SimilarItem) = _
    simp [Multiset.cons_swap]
  · by_cases hz : limit = 0
    · unfold heapPushBounded
      rw [if_neg hlt, if_pos (by omega)]
      exact ⟨hh, fun hc => absurd hc hlt, fun _ _ => rfl,
        fun _ hpos => absurd hz (by omega), fun _ hpos => absurd hz (by omega)⟩
    · by_cases hle : item.jaccard ≤ scoreAt h 0
      · unfold heapPushBounded
        rw [if_neg hlt, if_neg (by omega), if_pos hle]
        exact ⟨hh, fun hc => absurd hc hlt, fun _ hc => absurd hc hz,
          fun _ _ _ => rfl, fun _ _ hgt => absurd hle (by exact not_le.mpr hgt)⟩
      · -- replace the root and sift down
        have hne : h ≠ [] := by
          intro hnil
          subst hnil
          simp at hlt
          omega
        obtain ⟨h0, t, rfl⟩ := List.exists_cons_of_ne_nil hne
        have hset : (h0 :: t).set 0 item = item :: t := rfl
        have hdown := heapSiftDown_correct ((h0 :: t).set 0 item) 0
          (by
            intro j hj hjl hj1 hj2
            rw [hset] at hjl ⊢
            have hq : (j - 1) / 2 ≠ 0 := by omega
            have hjokay : j ≠ 0 := by omega
            show scoreAt ((h0 :: t).set 0 item) ((j - 1) / 2)
              ≤ scoreAt ((h0 :: t).set 0 item) j
            rw [scoreAt_set_ne _ _ _ _ (by omega), scoreAt_set_ne _ _ _ _ (by omega)]
            exact hh j hj (by simpa using hjl))
          (by omega)
        unfold heapPushBounded
        rw [if_neg hlt, if_neg (by omega), if_neg hle]
        refine ⟨hdown.1, fun hc => absurd hc hlt, fun _ hc => absurd hc hz,
          fun _ _ hc => absurd hc (by push_neg at hle; exact not_le.mpr hle),
          fun _ _ _ => ?_⟩
        rw [Multiset.coe_eq_coe.mpr hdown.2, hset]
        show (item :: t : Multiset SimilarItem) = _
        simp [List.getD]

/-- The multiset of jaccard scores held by the selector. -/
def scoresOf (h : List SimilarItem) : Multiset ℚ :=
  ((h.map SimilarItem.jaccard : List ℚ) : Multiset ℚ)

/-- `held` is a top-`K` selection of the multiset `seen`: it is contained in
`seen`, holds `min K |seen|` elements, and every element left out is bounded
by every element held. -/
def IsTopK (K : ℕ) (seen held : Multiset ℚ) : Prop :=
  held ≤ seen ∧ Multiset.card held = min K (Multiset.card seen)
  ∧ ∀ a ∈ held, ∀ b ∈ seen - held, b ≤ a

lemma scoresOf_card (h : List SimilarItem) :
    Multiset.card (scoresOf h) = h.length := by
  simp [scoresOf]

lemma scoresOf_congr (h h' : List SimilarItem)
    (hp : (h : Multiset SimilarItem) = (h' : Multiset SimilarItem)) :
    scoresOf h = scoresOf h' := by
  unfold scoresOf
  have := congrArg (Multiset.map SimilarItem.jaccard) hp
  simpa using this

lemma scoresOf_mem_root_le (h : List SimilarItem) (hh : IsMinHeap h) :
    ∀ a ∈ scoresOf h, scoreAt h 0 ≤ a := by
  intro a ha
  simp only [scoresOf, Multiset.mem_coe, List.mem_map] at ha
  obtain ⟨x, hx, rfl⟩ := ha
  obtain ⟨j, hj, rfl⟩ := List.mem_iff_getElem.mp hx
  have : scoreAt h j = h[j].jaccard := by
    unfold scoreAt
    rw [List.getD_eq_getElem?_getD, List.getElem?_eq_getElem hj]
    rfl
  rw [← this]
  exact isMinHeap_root_le h hh j hj

lemma root_mem_scoresOf (h : List SimilarItem) (hne : h ≠ []) :
    scoreAt h 0 ∈ scoresOf h := by
  obtain ⟨h0, t, rfl⟩ := List.exists_cons_of_ne_nil hne
  simp [scoresOf, scoreAt, List.getD]

lemma map_erase_of_mem (f : SimilarItem → ℚ) (s : Multiset SimilarItem)
    (a : SimilarItem) (ha : a ∈ s) :
    Multiset.map f (s.erase a) = (Multiset.map f s).erase (f a) := by
  obtain ⟨t, rfl⟩ := Multiset.exists_cons_of_mem ha
  rw [Multiset.erase_cons_head, Multiset.map_cons, Multiset.erase_cons_head]

lemma sub_erase_of_le (root : ℚ) (s seen : Multiset ℚ) (hroot : root ∈ s)
    (hle : s ≤ seen) :
    seen - s.erase root = root ::ₘ (seen - s) := by
  have hs : root ::ₘ s.erase root = s := Multiset.cons_erase hroot
  have he : s.erase root ≤ s := Multiset.erase_le root s
  calc seen - s.erase root
      = (seen - s + s) - s.erase root := by rw [tsub_add_cancel_of_le hle]
    _ = (seen - s) + (s - s.erase root) := add_tsub_assoc_of_le he _
    _ = (seen - s) + {root} := by
        rw [← hs, Multiset.erase_cons_head, ← Multiset.singleton_add,
          add_tsub_cancel_right]
    _ = root ::ₘ (seen - s) := by
        rw [add_comm, Multiset.singleton_add]

/-- One push keeps the selector a top-`K` selection of everything seen. -/
lemma isTopK_push (limit : ℕ) (h : List SimilarItem) (item : SimilarItem)
    (seen : Multiset ℚ) (hh : IsMinHeap h)
    (ht : IsTopK limit seen (scoresOf h)) :
    IsTopK limit (item.jaccard ::ₘ seen)
      (scoresOf (heapPushBounded limit h item)) := by
  obtain ⟨hle, hcard, hmax⟩ := ht
  have hs_card : Multiset.card (scoresOf h) = h.length := scoresOf_card h
  have hcard2 : (limit ≤ Multiset.card seen ∧ Multiset.card (scoresOf h) = limit)
      ∨ (Multiset.card seen ≤ limit
          ∧ Multiset.card (scoresOf h) = Multiset.card seen) := by
    rcases le_total limit (Multiset.card seen) with hc | hc
    · exact Or.inl ⟨hc, by rw [hcard, min_eq_left hc]⟩
    · exact Or.inr ⟨hc, by rw [hcard, min_eq_right hc]⟩
  have hspec := heapPushBounded_spec limit h item hh
  by_cases hlt : h.length < limit
  · -- below capacity: everything seen is held
    have hmeq := hspec.2.1 hlt
    have hnew : scoresOf (heapPushBounded limit h item)
        = item.jaccard ::ₘ scoresOf h := by
      have := scoresOf_congr _ _ hmeq
      rw [this]
      show Multiset.map SimilarItem.jaccard (item ::ₘ (h : Multiset SimilarItem))
        = _
      rw [Multiset.map_cons]
      rfl
    have hseen_eq : scoresOf h = seen := by
      apply Multiset.eq_of_le_of_card_le hle
      rcases hcard2 with ⟨h1, h2⟩ | ⟨h1, h2⟩ <;> omega
    have hlen_eq : Multiset.card seen = h.length := by
      rw [← hseen_eq, hs_card]
    rw [hnew, hseen_eq]
    refine ⟨le_refl _, by rw [Multiset.card_cons, min_eq_right (by omega)], ?_⟩
    intro a _ b hb
    rw [tsub_self] at hb
    exact absurd hb (Multiset.not_mem_zero b)
  · by_cases hz : limit = 0
    · have heq := hspec.2.2.1 hlt hz
      rw [heq]
      subst hz
      have : scoresOf h = 0 := by
        have : Multiset.card (scoresOf h) = 0 := by omega
        exact Multiset.card_eq_zero.mp this
      rw [this]
      exact ⟨Multiset.zero_le _, by simp, fun a ha => absurd ha (Multiset.not_mem_zero a)⟩
    · have hfull : Multiset.card (scoresOf h) = limit := by
        rcases hcard2 with ⟨h1, h2⟩ | ⟨h1, h2⟩ <;> omega
      have hseen_ge : limit ≤ Multiset.card seen := by
        have := Multiset.card_le_card hle
        omega
      have hne : h ≠ [] := by
        intro hnil
        rw [hnil] at hfull
        simp [scoresOf] at hfull
        omega
      have hrootmem : scoreAt h 0 ∈ scoresOf h := root_mem_scoresOf h hne
      by_cases hgt : scoreAt h 0 < item.jaccard
      · -- replace the root
        have hmeq := hspec.2.2.2.2 hlt (by omega) hgt
        have hroot_getD : (h.getD 0 dfltItem).jaccard = scoreAt h 0 := rfl
        have hgetD_mem : h.getD 0 dfltItem ∈ (h : Multiset SimilarItem) := by
          obtain ⟨h0, t, rfl⟩ := List.exists_cons_of_ne_nil hne
          simp [List.getD]
        have hnew : scoresOf (heapPushBounded limit h item)
            = item.jaccard ::ₘ (scoresOf h).erase (scoreAt h 0) := by
          have := scoresOf_congr _ _ hmeq
          rw [this]
          show Multiset.map SimilarItem.jaccard
            (item ::ₘ ((h : Multiset SimilarItem).erase (h.getD 0 dfltItem))) = _
          rw [Multiset.map_cons, map_erase_of_mem _ _ _ hgetD_mem, hroot_getD]
          rfl
        rw [hnew]
        have herase_le : (scoresOf h).erase (scoreAt h 0) ≤ scoresOf h :=
          Multiset.erase_le _ _
        refine ⟨?_, ?_, ?_⟩
        · exact Multiset.cons_le_cons _ (le_trans herase_le hle)
        · rw [Multiset.card_cons, Multiset.card_erase_of_mem hrootmem,
            Multiset.card_cons, min_eq_left (by omega)]
          simp only [Nat.pred_eq_sub_one]
          omega
        · intro a ha b hb
          rw [Multiset.sub_cons, Multiset.erase_cons_head,
            sub_erase_of_le _ _ _ hrootmem hle] at hb
          have hroot_le : ∀ c ∈ scoresOf h, scoreAt h 0 ≤ c :=
            scoresOf_mem_root_le h hh
          rcases Multiset.mem_cons.mp hb with rfl | hb'
          · -- the evicted root is bounded by everything still held
            rcases Multiset.mem_cons.mp ha with rfl | ha'
            · exact hgt.le
            · exact hroot_le a (Multiset.mem_of_mem_erase ha')
          · -- anything never held is bounded by the old root, hence by all
            have hb_le_root : b ≤ scoreAt h 0 := hmax _ hrootmem _ hb'
            rcases Multiset.mem_cons.mp ha with rfl | ha'
            · exact le_trans hb_le_root hgt.le
            · exact le_trans hb_le_root (hroot_le a (Multiset.mem_of_mem_erase ha'))
      · -- at capacity with a non-greater score: unchanged
        push_neg at hgt
        have heq := hspec.2.2.2.1 hlt (by omega) hgt
        rw [heq]
        refine ⟨le_trans hle (Multiset.le_cons_self seen _), ?_, ?_⟩
        · rw [Multiset.card_cons, min_eq_left (by omega)]
          omega
        · intro a ha b hb
          rw [Multiset.cons_sub_of_le _ hle] at hb
          rcases Multiset.mem_cons.mp hb with rfl | hb'
          · exact le_trans hgt (scoresOf_mem_root_le h hh a ha)
          · exact hmax a ha b hb'

/-- Folding pushes over any item sequence keeps the heap shape and the
top-`K` selection property. -/
lemma foldl_push_invariant (limit : ℕ) :
    ∀ (items : List SimilarItem) (h : List SimilarItem) (seen : Multiset ℚ),
      IsMinHeap h → IsTopK limit seen (scoresOf h) →
      IsMinHeap (items.foldl (heapPushBounded limit) h)
      ∧ IsTopK limit (seen + ((items.map SimilarItem.jaccard : List ℚ) : Multiset ℚ))
          (scoresOf (items.foldl (heapPushBounded limit) h))
  | [], h, seen, hh, ht => by
    simpa using ⟨hh, ht⟩
  | x :: xs, h, seen, hh, ht => by
    have hstep := heapPushBounded_spec limit h x hh
    have htop := isTopK_push limit h x seen hh ht
    have ih := foldl_push_invariant limit xs (heapPushBounded limit h x)
      (x.jaccard ::ₘ seen) hstep.1 htop
    rw [List.foldl_cons]
    refine ⟨ih.1, ?_⟩
    have hms : seen + ((((x :: xs).map SimilarItem.jaccard : List ℚ)) : Multiset ℚ)
        = (x.jaccard ::ₘ seen) + ((xs.map SimilarItem.jaccard : List ℚ) : Multiset ℚ) := by
      simp only [List.map_cons]
      rw [← Multiset.cons_coe, ← Multiset.singleton_add, ← Multiset.singleton_add]
      rw [add_comm {x.jaccard} seen, add_assoc]
    rw [hms]
    exact ih.2

lemma isTopK_empty (limit : ℕ) : IsTopK limit 0 (scoresOf []) := by
  refine ⟨le_refl _, by simp [scoresOf], ?_⟩
  intro a ha
  simp [scoresOf] at ha

lemma isMinHeap_nil : IsMinHeap [] := by
  intro j hj hlt
  simp at hlt

/-- **C3 (counterexample to the claim as stated).** Pushing the scores
`9, 9, 5` into a selector of capacity `2` ends with the score multiset
`{9, 9}` — the selector does not hold the two highest *distinct* scores seen,
which are `9` and `5`. -/
theorem heapPushBounded_not_topK_distinct :
    ((([⟨"a", (9 : ℚ), 0⟩, ⟨"b", 9, 0⟩, ⟨"c", 5, 0⟩] : List SimilarItem).map
        SimilarItem.jaccard).dedup = [9, 5])
    ∧ scoresOf (([⟨"a", (9 : ℚ), 0⟩, ⟨"b", 9, 0⟩, ⟨"c", 5, 0⟩] : List SimilarItem).foldl
        (heapPushBounded 2) []) = (9 ::ₘ {9})
    ∧ (5 : ℚ) ∉ scoresOf (([⟨"a", (9 : ℚ), 0⟩, ⟨"b", 9, 0⟩, ⟨"c", 5, 0⟩] : List SimilarItem).foldl
        (heapPushBounded 2) []) := by
  have h1 : heapPushBounded 2 [] ⟨"a", (9 : ℚ), 0⟩ = [⟨"a", (9 : ℚ), 0⟩] := by
    rw [heapPushBounded, if_pos (by norm_num)]
    show heapSiftUp [⟨"a", (9 : ℚ), 0⟩] 0 = _
    rw [heapSiftUp]
  have h2 : heapPushBounded 2 [⟨"a", (9 : ℚ), 0⟩] ⟨"b", 9, 0⟩
      = [⟨"a", (9 : ℚ), 0⟩, ⟨"b", 9, 0⟩] := by
    rw [heapPushBounded, if_pos (by norm_num)]
    show heapSiftUp [⟨"a", (9 : ℚ), 0⟩, ⟨"b", 9, 0⟩] (0 + 1) = _
    rw [heapSiftUp, if_pos (by norm_num [scoreAt, List.getD])]
  have h3 : heapPushBounded 2 [⟨"a", (9 : ℚ), 0⟩, ⟨"b", 9, 0⟩] ⟨"c", 5, 0⟩
      = [⟨"a", (9 : ℚ), 0⟩, ⟨"b", 9, 0⟩] := by
    rw [heapPushBounded, if_neg (by norm_num), if_neg (by omega),
      if_pos (by norm_num [scoreAt, List.getD])]
  refine ⟨by norm_num, ?_, ?_⟩
  · rw [List.foldl_cons, List.foldl_cons, List.foldl_cons, List.foldl_nil,
      h1, h2, h3]
    rfl
  · rw [List.foldl_cons, List.foldl_cons, List.foldl_cons, List.foldl_nil,
      h1, h2, h3]
    norm_num [scoresOf]

/-- **C3 (amended).** The bounded selector with capacity `K = limit` never
holds more than `K` items at any point of a push sequence; with the selector
full, a push leaves it unchanged unless the incoming score strictly exceeds
the heap minimum, in which case exactly the minimum is evicted; and after all
pushes the selector holds the `K` highest scores seen, counted with
multiplicity. -/
theorem boundedTopK_selector_spec (limit : ℕ) (items : List SimilarItem) :
    (∀ n, ((items.take n).foldl (heapPushBounded limit) []).length ≤ limit)
    ∧ IsTopK limit ((items.map SimilarItem.jaccard : List ℚ) : Multiset ℚ)
        (scoresOf (items.foldl (heapPushBounded limit) []))
    ∧ (∀ (h : List SimilarItem) (item : SimilarItem),
        IsMinHeap h → h.length = limit → 0 < limit →
        (∀ s ∈ scoresOf h, scoreAt h 0 ≤ s)
        ∧ (item.jaccard ≤ scoreAt h 0 → heapPushBounded limit h item = h)
        ∧ (scoreAt h 0 < item.jaccard →
            scoresOf (heapPushBounded limit h item)
              = item.jaccard ::ₘ (scoresOf h).erase (scoreAt h 0))) := by
  refine ⟨?_, ?_, ?_⟩
  · intro n
    have hinv := foldl_push_invariant limit (items.take n) [] 0
      isMinHeap_nil (isTopK_empty limit)
    have hcard := hinv.2.2.1
    rw [scoresOf_card] at hcard
    omega
  · have hinv := foldl_push_invariant limit items [] 0
      isMinHeap_nil (isTopK_empty limit)
    simpa using hinv.2
  · intro h item hh hlen hpos
    have hspec := heapPushBounded_spec limit h item hh
    refine ⟨scoresOf_mem_root_le h hh, ?_, ?_⟩
    · intro hle
      exact hspec.2.2.2.1 (by omega) hpos hle
    · intro hgt
      have hne : h ≠ [] := by
        intro hnil
        rw [hnil] at hlen
        simp at hlen
        omega
      have hmeq := hspec.2.2.2.2 (by omega) hpos hgt
      have := scoresOf_congr _ _ hmeq
      rw [this]
      show Multiset.map SimilarItem.jaccard
        (item ::ₘ ((h : Multiset SimilarItem).erase (h.getD 0 dfltItem))) = _
      have hgetD_mem : h.getD 0 dfltItem ∈ (h : Multiset SimilarItem) := by
        obtain ⟨h0, t, rfl⟩ := List.exists_cons_of_ne_nil hne
        simp [List.getD]
      rw [Multiset.map_cons, map_erase_of_mem _ _ _ hgetD_mem]
      rfl

/-- Witness for `boundedTopK_selector_spec` at a concrete full selector. -/
theorem boundedTopK_selector_spec_witness :
    IsMinHeap [⟨"a", (1 : ℚ), 0⟩]
    ∧ ([⟨"a", (1 : ℚ), 0⟩] : List SimilarItem).length = 1
    ∧ 0 < 1
    ∧ ((⟨"b", (0 : ℚ), 0⟩ : SimilarItem).jaccard ≤ scoreAt [⟨"a", (1 : ℚ), 0⟩] 0 →
        heapPushBounded 1 [⟨"a", (1 : ℚ), 0⟩] ⟨"b", (0 : ℚ), 0⟩ = [⟨"a", (1 : ℚ), 0⟩]) := by
  have hheap : IsMinHeap [⟨"a", (1 : ℚ), 0⟩] := by
    intro j hj hlt
    simp at hlt
    omega
  have happ := (boundedTopK_selector_spec 1 [⟨"a", (1 : ℚ), 0⟩]).2.2
    [⟨"a", (1 : ℚ), 0⟩] ⟨"b", (0 : ℚ), 0⟩ hheap rfl (by omega)
  exact ⟨hheap, rfl, by omega, happ.2.1⟩

/-! ## Approximate Jaccard over sorted ID arrays (`src/lib/jaccardBitset.ts`) -/

/-- The two-pointer intersection count of `jaccardBitset`. -/
def bitsetInterCount : List ℕ → List ℕ → ℕ
  | [], _ => 0
  | _ :: _, [] => 0
  | va :: as, vb :: bs =>
    if va = vb then bitsetInterCount as bs + 1
    else if va < vb then bitsetInterCount as (vb :: bs)
    else bitsetInterCount (va :: as) bs
termination_by l₁ l₂ => l₁.length + l₂.length
decreasing_by all_goals simp_arith

/-- `jaccardBitset` from `src/lib/jaccardBitset.ts`: approximate Jaccard
`inter / (|a| + |b| - inter)` over two sorted ID arrays; `0` when either array
is empty. -/
def jaccardBitset (a b : List ℕ) : ℚ :=
  if a.length = 0 ∨ b.length = 0 then 0
  else
    let inter := bitsetInterCount a b
    (inter : ℚ) / ((a.length : ℚ) + (b.length : ℚ) - (inter : ℚ))

/-! ## Remaining configuration defaults (`src/lib/config.ts`) -/

def BASE_SIZE_LARGE : ℕ := 50
def COOCCUR_MIN_JACCARD_DEFAULT : ℚ := 1 / 1000
def COOCCUR_MIN_JACCARD_SMALL_BASE : ℚ := 5 / 10000
def COOCCUR_MIN_JACCARD_MEDIUM_BASE : ℚ := 8 / 10000
def LOW_FETCH_SUCCESS_RATE_THRESHOLD : ℚ := 3 / 10
def LOW_FETCH_RATE_JACCARD_MULTIPLIER : ℚ := 1 / 2
def DEFAULT_MAX_DEPENDENTS_TO_SCAN : ℕ := 150
def DEFAULT_MAX_LIVE_CANDIDATES : ℕ := 200
def MAX_MAX_DEPENDENTS_TO_SCAN : ℕ := 1000
def MAX_MAX_LIVE_CANDIDATES : ℕ := 1000
def DEFAULT_TOP_SEARCH_LIMIT : ℕ := 250
def MAX_TOP_SEARCH_LIMIT : ℕ := 250
def MAX_CANDIDATES_TO_COLLECT : ℕ := 5000
def EARLY_TERMINATE_CANDIDATES : ℕ := 5000
def CANDIDATES_MULTIPLIER_PER_LIMIT : ℕ := 15
def MAX_PACKAGES_TO_CHECK_FORWARD_DEPS : ℕ := 300
def MAX_PACKAGES_TO_CHECK_COOCCUR : ℕ := 200
def COOCCUR_MULTIPLIER_PER_LIMIT : ℕ := 10
def MAX_POPULAR_FOR_NAME_BASED : ℕ := 100
def MIN_SCORE_FOR_EARLY_EXIT : ℚ := 1 / 10
def MIN_CHECKED_MULTIPLIER : ℕ := 10
def EARLY_EXIT_BATCH_SIZE : ℕ := 500

/-- `getCooccurJaccardThreshold` from `src/lib/config.ts`. -/
def getCooccurJaccardThreshold (baseSize : ℕ) (fetchSuccessRate : ℚ) :
    ℕ × ℚ :=
  let p₀ : ℕ × ℚ :=
    if baseSize < BASE_SIZE_SMALL then
      (MIN_SHARED_SMALL_BASE, COOCCUR_MIN_JACCARD_SMALL_BASE)
    else if baseSize < BASE_SIZE_LARGE then
      (MIN_SHARED_SMALL_BASE, COOCCUR_MIN_JACCARD_MEDIUM_BASE)
    else (MIN_SHARED_MEDIUM_BASE, COOCCUR_MIN_JACCARD_DEFAULT)
  if fetchSuccessRate < LOW_FETCH_SUCCESS_RATE_THRESHOLD then
    (max 1 (p₀.1 - 1), p₀.2 * LOW_FETCH_RATE_JACCARD_MULTIPLIER)
  else p₀

/-! ## The environment of the similarity pipeline

All fetches and cache loads of `src/lib/similar.ts` are supplied by total
oracle functions: the source catches every individual failure (a failed or
timed-out fetch is `none` and the candidate or stage degrades exactly as in
the `catch` branches), `fetchReverseDependentsApprox` of `lib/pypi.ts` always
returns the empty array, and the cache loaders of `lib/cache.ts` return `{}`
on any failure. Concurrent completion order only permutes map-insertion
order; the embedding fixes the sequential order. -/
structure Env where
  /-- `loadReverseDepsCacheAsync` record lookup: `none` is a missing key. -/
  cache : String → Option (List String)
  /-- `fetchPackageMeta` followed by `pickLatestDependencies`; `none` is a
  fetch failure or timeout (caught by the caller). -/
  fetchMeta : String → Option (List String)
  /-- `getDependentsBitset` as observed at the candidate-evaluation call
  sites of `src/lib/similar.ts`, which wrap it in
  `try { ... } catch { /* ignore bitset fetch failures */ }`: the empty list
  is an absent entry or a caught failure. The same loader can also reject
  (un-caught `readFile`/`JSON.parse` in the `bitsetCache` module of
  `src/README.md`); that throw path escapes only at the un-wrapped base-load
  call (`similar.ts:386`) and is modelled there by the separate fallible
  oracle `bitsetLoad` of `computeSimilarOnDemandE`. -/
  bitset : String → List ℕ
  /-- `loadPopularPackages()` (empty when `data/popular.json` is absent). -/
  popular : List String
  /-- `UI_FRAMEWORKS` of `lib/seeds.ts` (a concrete set, staged at the end
  of `src/lib/similar.ts`); kept as an oracle so the theorems hold for every
  framework list, the staged one included. -/
  uiFrameworks : List String
  /-- `isUiFramework` of `lib/seeds.ts` (same staged module), likewise kept
  as an oracle. -/
  isUiFramework : String → Bool

/-- `fetchReverseDependentsApprox` from `lib/pypi.ts` (`src/README.md`):
kept for backward compatibility, always returns the empty array. -/
def fetchReverseDependentsApprox (_packageName : String) : List String := []

/-- JavaScript `new Set(arr)` iteration order: deduplicate keeping the first
occurrence. -/
def insertUnique (l : List String) (x : String) : List String :=
  if x ∈ l then l else l ++ [x]

/-- The element list of `new Set(arr)`. -/
def jsSetOfList (l : List String) : List String := l.foldl insertUnique []

/-- `cache[normalizePackageName(name)] || cache[name.toLowerCase()] || []`. -/
def cacheLookup (env : Env) (name : String) : List String :=
  match env.cache (normalizePackageName name) with
  | some l => l
  | none => (env.cache (jsToLowerCase name)).getD []

/-- `getReverseDeps` from `src/lib/similar.ts`: the cached reverse-dependent
set when nonempty, otherwise the live result (always empty, see
`fetchReverseDependentsApprox`). -/
def getReverseDeps (env : Env) (pkg : String) : List String :=
  let cached := cacheLookup env pkg
  if 0 < cached.length then jsSetOfList cached
  else jsSetOfList (fetchReverseDependentsApprox pkg)

/-- `options?.x || DEFAULT` — JavaScript treats `0` and `undefined` alike. -/
def orDefault (o : Option ℕ) (dflt : ℕ) : ℕ :=
  match o with
  | some v => if v = 0 then dflt else v
  | none => dflt

/-- Splitting used by the name-token fallbacks: `lower.split(/[-_.\/]/)`
followed by the `parts[0] || lower` default. -/
def mainNameOf (lower : String) : String :=
  let parts := (lower.data.splitOnP fun c =>
    c = '-' ∨ c = '_' ∨ c = '.' ∨ c = '/').map String.mk
  match parts with
  | [] => lower
  | p :: _ => if p = "" then lower else p

/-- `a.includes(b)` on strings, as list infix containment. -/
def jsIncludes (a b : String) : Bool := decide (b.toList <:+: a.toList)

/-- The name-pattern test shared by all name-token fallbacks. -/
def nameTokenMatch (lower popLower : String) : Bool :=
  let mainName := mainNameOf lower
  let popMain := mainNameOf popLower
  popMain = mainName || jsIncludes popLower mainName || jsIncludes lower popMain

/-! ## Candidate evaluation (`evaluateCandidate`, `src/lib/similar.ts`) -/

/-- The per-query evaluation state threaded through candidate evaluation. -/
structure EvalState where
  heap : List SimilarItem
  liveFetches : ℕ
  checkedCount : ℕ
deriving Repr

/-- `evaluateCandidate` from `src/lib/similar.ts` (sequential semantics):
skip the query itself; prefer the cached reverse-dependent set; with no
cached set try the bitset fast path; fall back to a live fetch (which always
returns the empty array); pre-filter by `canMeetThreshold`; push scores
meeting the adaptive thresholds. -/
def evaluateCandidate (env : Env) (pkg : String) (limit : ℕ)
    (base : List String) (baseBitset : List ℕ) (maxLiveCandidates : ℕ)
    (st : EvalState) (cand : String) : EvalState :=
  let normalizedCand := normalizePackageName cand
  let normalizedPkg := normalizePackageName pkg
  if normalizedCand = normalizedPkg then st
  else
    let depSet₀ := jsSetOfList (cacheLookup env cand)
    let bitsetHit : Option ℚ :=
      if depSet₀.length = 0 ∧ 0 < baseBitset.length then
        let candBitset := env.bitset cand
        if 0 < candBitset.length then
          let scoreBs := jaccardBitset baseBitset candBitset
          if getBitsetJaccardThreshold base.length ≤ scoreBs then
            some (toFixed6 scoreBs)
          else none
        else none
      else none
    match bitsetHit with
    | some usedScore =>
      { st with
        heap := heapPushBounded limit st.heap ⟨cand, usedScore, 0⟩ }
    | none =>
      let fetchLive := depSet₀.length = 0 ∧ st.liveFetches < maxLiveCandidates
      let depSet :=
        if fetchLive then jsSetOfList (fetchReverseDependentsApprox cand)
        else depSet₀
      let live' := if fetchLive then st.liveFetches + 1 else st.liveFetches
      if depSet.length = 0 then { st with liveFetches := live' }
      else
        let minShared := getSharedThreshold base.length
        let minJaccard := getJaccardThreshold base.length
        if ¬ canMeetThreshold depSet.length base.length minJaccard then
          { st with liveFetches := live' }
        else
          let jr := jaccardSimilarity base.toFinset depSet.toFinset
          let checked := st.checkedCount + 1
          if minJaccard ≤ jr.score ∧ minShared ≤ jr.shared then
            { heap := heapPushBounded limit st.heap
                ⟨cand, toFixed6 jr.score, jr.shared⟩
              liveFetches := live'
              checkedCount := checked }
          else
            { st with liveFetches := live', checkedCount := checked }

/-- `checkEarlyExit` from `src/lib/similar.ts`. -/
def checkEarlyExit (limit minChecked : ℕ) (st : EvalState) : Bool :=
  if st.heap.length < limit then false
  else if st.checkedCount < minChecked then false
  else
    let minScore := if 0 < st.heap.length then scoreAt st.heap 0 else 0
    decide (MIN_SCORE_FOR_EARLY_EXIT ≤ minScore)

/-- The batched candidate-evaluation loop with early exit. -/
def evalBatches (env : Env) (pkg : String) (limit : ℕ) (base : List String)
    (baseBitset : List ℕ) (maxLiveCandidates minChecked : ℕ)
    (cands : List String) (st : EvalState) : EvalState :=
  if cands = [] then st
  else
    let st' := (cands.take EARLY_EXIT_BATCH_SIZE).foldl
      (evaluateCandidate env pkg limit base baseBitset maxLiveCandidates) st
    if checkEarlyExit limit minChecked st' then st'
    else evalBatches env pkg limit base baseBitset maxLiveCandidates minChecked
      (cands.drop EARLY_EXIT_BATCH_SIZE) st'
termination_by cands.length
decreasing_by
  rename_i hne _
  simp only [List.length_drop]
  have : cands.length ≠ 0 := fun h => hne (List.length_eq_zero.mp h)
  unfold EARLY_EXIT_BATCH_SIZE
  omega

/-! ## Sort comparators (stable `Array.prototype.sort` is modelled by
`List.mergeSort`; `le a b` holds when the comparator allows `a` before `b`) -/

/-- `(a, b) => b.jaccard - a.jaccard`. -/
def jaccardDescLe (a b : SimilarItem) : Bool := decide (b.jaccard ≤ a.jaccard)

/-- Sort by shared count descending, ties by jaccard descending. -/
def sharedThenJaccardDescLe (a b : SimilarItem) : Bool :=
  if a.sharedDependents = b.sharedDependents then decide (b.jaccard ≤ a.jaccard)
  else decide (b.sharedDependents ≤ a.sharedDependents)

/-- The forward-dependency co-occurrence comparator: direct dependencies
first, then shared count descending, then jaccard descending. -/
def cooccurForwardLe (pkgDepsSet : List String) (a b : SimilarItem) : Bool :=
  let aD := normalizePackageName a.name ∈ pkgDepsSet
  let bD := normalizePackageName b.name ∈ pkgDepsSet
  if aD ∧ ¬ bD then true
  else if ¬ aD ∧ bD then false
  else sharedThenJaccardDescLe a b

/-- The candidate-priority comparator of the scoring pass: popular packages
first, then dependent-set size closest to the base size, then candidates with
any cached dependents. -/
def candidatePriorityLe (env : Env) (baseSize : ℕ) (popularSet : List String)
    (a b : String) : Bool :=
  let aPopular := normalizePackageName a ∈ popularSet
  let bPopular := normalizePackageName b ∈ popularSet
  if aPopular ∧ ¬ bPopular then true
  else if ¬ aPopular ∧ bPopular then false
  else
    let aSize := (cacheLookup env a).length
    let bSize := (cacheLookup env b).length
    let aDiff := ((aSize : ℤ) - (baseSize : ℤ)).natAbs
    let bDiff := ((bSize : ℤ) - (baseSize : ℤ)).natAbs
    if 0 < aSize ∧ 0 < bSize ∧ aDiff ≠ bDiff then decide (aDiff ≤ bDiff)
    else if 0 < aSize ∧ bSize = 0 then true
    else if aSize = 0 ∧ 0 < bSize then false
    else true

/-! ## Fallback strategies (`src/lib/similar.ts`) -/

/-- JavaScript `Map` as an insertion-ordered association list. -/
def lookupCount (m : List (String × ℕ)) (k : String) : Option ℕ :=
  (m.find? fun e => e.1 = k).map Prod.snd

/-- `Map.set` for a key already present: update in place. -/
def updateCount (m : List (String × ℕ)) (k : String) (v : ℕ) :
    List (String × ℕ) :=
  m.map fun e => if e.1 = k then (k, v) else e

/-- `cooccur.set(d, (cooccur.get(d) || 0) + 1)`. -/
def incrCount (m : List (String × ℕ)) (k : String) : List (String × ℕ) :=
  match lookupCount m k with
  | some c => updateCount m k (c + 1)
  | none => m ++ [(k, 1)]

/-- `computeSimilarNameBasedFallback` from `src/lib/similar.ts`: scan popular
packages for name-pattern matches or cache-recorded dependents of the query,
stop at `limit * 2` matches, return the first `limit` with the fixed
low-confidence score. -/
def computeSimilarNameBasedFallback (env : Env) (pkg : String) (limit : ℕ) :
    List SimilarItem :=
  let lower := normalizePackageName pkg
  let similarNames := env.popular.foldl
    (fun acc pop =>
      if limit * 2 ≤ acc.length then acc
      else
        let popLower := normalizePackageName pop
        let nameHit := nameTokenMatch lower popLower
        let cacheArr := (env.cache (normalizePackageName pop)).getD []
        let cacheHit := 0 < cacheArr.length ∧
          (lower ∈ jsSetOfList cacheArr ∨ pkg ∈ jsSetOfList cacheArr)
        if (nameHit ∨ cacheHit) ∧ popLower ≠ lower ∧ pop ∉ acc then acc ++ [pop]
        else acc)
    []
  if 0 < similarNames.length then
    (similarNames.take limit).map fun name =>
      ⟨name, NAME_BASED_FALLBACK_SCORE, 0⟩
  else []

/-- `computeCooccurrenceNameBasedFallback` from `src/lib/similar.ts`. -/
def computeCooccurrenceNameBasedFallback (env : Env) (pkg : String)
    (limit : ℕ) : List SimilarItem :=
  let lower := normalizePackageName pkg
  let cooccurCandidates := (env.popular.take
      (min env.popular.length MAX_POPULAR_FOR_NAME_BASED)).foldl
    (fun acc pop =>
      if limit * 2 ≤ acc.length then acc
      else
        let normalizedPop := normalizePackageName pop
        if normalizedPop = lower then acc
        else if nameTokenMatch lower normalizedPop ∧ pop ∉ acc then acc ++ [pop]
        else acc)
    []
  if 0 < cooccurCandidates.length then
    (cooccurCandidates.take limit).map fun name =>
      ⟨name, NAME_BASED_FALLBACK_SCORE, 0⟩
  else []

/-- The forward-dependency strategy of `computeSimilarOnDemand` for a query
with an empty reverse-dependent set: score popular packages by the shared
fraction of the query's own dependencies. -/
def computeSimilarForwardDeps (env : Env) (pkg : String) (limit : ℕ)
    (pkgDeps : List String) : List SimilarItem :=
  let normalizedPkg := normalizePackageName pkg
  let pkgDepsSet := jsSetOfList (pkgDeps.map normalizePackageName)
  let packagesToCheck := min env.popular.length
    (min (limit * CANDIDATES_MULTIPLIER_PER_LIMIT) MAX_PACKAGES_TO_CHECK_FORWARD_DEPS)
  let entries := (env.popular.take packagesToCheck).foldl
    (fun (acc : List (String × ℕ)) candidate =>
      let normalizedCandidate := normalizePackageName candidate
      if normalizedCandidate = normalizedPkg then acc
      else
        match env.fetchMeta candidate with
        | none => acc
        | some candidateDeps =>
          let candidateDepsSet := jsSetOfList (candidateDeps.map normalizePackageName)
          let sharedDeps := pkgDepsSet.filter fun dep => dep ∈ candidateDepsSet
          if 0 < sharedDeps.length ∧ (lookupCount acc candidate).isNone then
            acc ++ [(candidate, sharedDeps.length)]
          else acc)
    []
  let totalDeps := pkgDeps.length
  (((entries.map fun e =>
      (⟨e.1, toFixed6 ((e.2 : ℚ) / (totalDeps : ℚ)), e.2⟩ : SimilarItem)).filter
    fun r => 1 ≤ r.sharedDependents
      ∧ getForwardDepsRatioThreshold totalDeps ≤ r.jaccard).mergeSort
    sharedThenJaccardDescLe).take limit

/-- Candidate expansion of the main scoring path: sample dependents of the
base set, fetch each one's forward dependencies and add them as candidates,
stopping once `EARLY_TERMINATE_CANDIDATES` are collected. -/
def collectFromDependents (env : Env) (pkg : String)
    (baseDependents : List String) (candidates₀ : List String) : List String :=
  (baseDependents.foldl
    (fun (acc : List String × Bool) depPkg =>
      if acc.2 then acc
      else
        match env.fetchMeta depPkg with
        | none => acc
        | some deps => deps.foldl
            (fun (a : List String × Bool) d =>
              if a.2 then a
              else if normalizePackageName d ≠ normalizePackageName pkg then
                let c := insertUnique a.1 d
                (c, EARLY_TERMINATE_CANDIDATES ≤ c.length)
              else a)
            acc)
    (candidates₀, false)).1

/-- The cache-only relaxed rescan (fallback strategy 1 of
`computeSimilarOnDemand`). -/
def relaxedCachePass (env : Env) (pkg : String) (base : List String)
    (cands : List String) : List SimilarItem :=
  let normalizedPkg := normalizePackageName pkg
  cands.foldl
    (fun alt cand =>
      let normalizedCand := normalizePackageName cand
      if normalizedCand = normalizedPkg then alt
      else
        let depSetArr := cacheLookup env cand
        if depSetArr.length = 0 then alt
        else
          let depSet := jsSetOfList depSetArr
          let jr := jaccardSimilarity base.toFinset depSet.toFinset
          if getRelaxedJaccardThreshold base.length ≤ jr.score ∧ 0 < jr.shared then
            alt ++ [⟨cand, toFixed6 jr.score, jr.shared⟩]
          else alt)
    []

/-- The inline name-based rescue (fallback strategy 2 of
`computeSimilarOnDemand`, for small nonempty bases). -/
def smallBaseNameRescue (env : Env) (pkg : String) (limit : ℕ) :
    List SimilarItem :=
  let lower := normalizePackageName pkg
  (env.popular.take (min env.popular.length MAX_POPULAR_FOR_NAME_BASED)).foldl
    (fun nameBased pop =>
      if limit ≤ nameBased.length then nameBased
      else
        let normalizedPop := normalizePackageName pop
        if normalizedPop = lower then nameBased
        else if nameTokenMatch lower normalizedPop then
          nameBased ++ [⟨pop, NAME_BASED_FALLBACK_SCORE, 0⟩]
        else nameBased)
    []

/-! ## `computeSimilarOnDemand` and `computeCooccurrence`
(`src/lib/similar.ts`, sequential semantics; per-stage wall-clock budgets are
elided — a timed-out individual fetch is a `none` oracle answer) -/

/-- `computeSimilarOnDemand` from `src/lib/similar.ts`, on the runs where
the base-bitset load returns: `const baseBitset = await
getDependentsBitset(pkg)` (line 386) is awaited outside any try/catch in the
source and can throw; this definition gives the returned value when that load
yields `env.bitset pkg`, and `computeSimilarOnDemandE` below models the
throwing variant. -/
def computeSimilarOnDemand (env : Env) (pkg : String) (limit : ℕ)
    (restrictToPeerGroup : Bool)
    (topSearchLimit maxDependentsToScan maxLiveCandidates : Option ℕ) :
    List SimilarItem :=
  let base := getReverseDeps env pkg
  if base.length < 1 then
    match env.fetchMeta pkg with
    | none => computeSimilarNameBasedFallback env pkg limit
    | some pkgDeps =>
      if pkgDeps.length = 0 then computeSimilarNameBasedFallback env pkg limit
      else
        let results := computeSimilarForwardDeps env pkg limit pkgDeps
        if 0 < results.length then results
        else computeSimilarNameBasedFallback env pkg limit
  else
    let candidates₀ :=
      if restrictToPeerGroup ∧ env.isUiFramework pkg then
        env.uiFrameworks.foldl
          (fun c n =>
            if normalizePackageName n ≠ normalizePackageName pkg then
              insertUnique c n
            else c)
          []
      else
        let tsl := min (orDefault topSearchLimit DEFAULT_TOP_SEARCH_LIMIT)
          MAX_TOP_SEARCH_LIMIT
        let top := if 0 < env.popular.length then env.popular.take tsl else []
        jsSetOfList top
    let mds := min (orDefault maxDependentsToScan DEFAULT_MAX_DEPENDENTS_TO_SCAN)
      MAX_MAX_DEPENDENTS_TO_SCAN
    let baseDependents := base.take mds
    let candidates₁ := collectFromDependents env pkg baseDependents candidates₀
    let candidates₂ := candidates₁.take MAX_CANDIDATES_TO_COLLECT
    let mlc := min (orDefault maxLiveCandidates DEFAULT_MAX_LIVE_CANDIDATES)
      MAX_MAX_LIVE_CANDIDATES
    let baseBitset := env.bitset pkg
    let popularSet := env.popular.map normalizePackageName
    let sortedCandidates := candidates₂.mergeSort
      (candidatePriorityLe env base.length popularSet)
    let candArray := sortedCandidates.take (min 5000 candidates₂.length)
    let minChecked := limit * MIN_CHECKED_MULTIPLIER
    let final := evalBatches env pkg limit base baseBitset mlc minChecked
      candArray ⟨[], 0, 0⟩
    let results := final.heap.mergeSort jaccardDescLe
    if results.length = 0 then
      let candArray₂ := sortedCandidates.take (min 2000 sortedCandidates.length)
      let alt := relaxedCachePass env pkg base candArray₂
      let results₂ := (alt.mergeSort jaccardDescLe).take limit
      if results₂.length = 0 ∧ 0 < base.length ∧ base.length < BASE_SIZE_SMALL then
        let nameBased := smallBaseNameRescue env pkg limit
        if 0 < nameBased.length then nameBased.take limit else results₂
      else results₂
    else results

/-- `computeCooccurrenceFromReverseDeps` from `src/lib/similar.ts`. -/
def computeCooccurrenceFromReverseDeps (env : Env) (pkg : String) (limit : ℕ)
    (base : List String) (maxDependentsToScan : Option ℕ) : List SimilarItem :=
  let mds := min (orDefault maxDependentsToScan DEFAULT_MAX_DEPENDENTS_TO_SCAN)
    MAX_MAX_DEPENDENTS_TO_SCAN
  let baseDependents := base.take mds
  let baseSize := if base.length = 0 then 1 else base.length
  let minCooccurForEarlyExit := limit * 3
  let scan := baseDependents.foldl
    (fun (acc : List (String × ℕ) × ℕ × Bool) depPkg =>
      if acc.2.2 then acc
      else
        match env.fetchMeta depPkg with
        | none => acc
        | some deps =>
          let afterInner := deps.foldl
            (fun (a : List (String × ℕ) × Bool) d =>
              if a.2 then a
              else if normalizePackageName d ≠ normalizePackageName pkg then
                let m := incrCount a.1 d
                (m, minCooccurForEarlyExit ≤ m.length)
              else a)
            (acc.1, acc.2.2)
          (afterInner.1, acc.2.1 + 1, afterInner.2))
    ([], 0, false)
  let cooccur := scan.1
  let successfulFetches := scan.2.1
  let fetchSuccessRate : ℚ :=
    if 0 < baseDependents.length then
      (successfulFetches : ℚ) / (baseDependents.length : ℚ)
    else 0
  let scannedCount :=
    if 0 < successfulFetches then successfulFetches else baseDependents.length
  let minJaccardForScanned : ℚ :=
    if scannedCount < 200 then 1 / 100
    else max (5 / 1000) COOCCUR_MIN_JACCARD_DEFAULT
  let minSharedForScanned : ℕ :=
    if scannedCount < 200 then max 1 ⌈(scannedCount : ℚ) * (1 / 100)⌉₊
    else 1
  let threshold : ℕ × ℚ :=
    if scannedCount < 500 then (minSharedForScanned, minJaccardForScanned)
    else getCooccurJaccardThreshold baseSize fetchSuccessRate
  let mkItem := fun (e : String × ℕ) =>
    (⟨e.1,
      toFixed6 (if 0 < scannedCount then (e.2 : ℚ) / (scannedCount : ℚ) else 0),
      e.2⟩ : SimilarItem)
  let coRes := (((cooccur.map mkItem).filter
      fun r => threshold.1 ≤ r.sharedDependents ∧ threshold.2 ≤ r.jaccard).mergeSort
    jaccardDescLe).take limit
  if coRes.length = 0 ∧ 0 < cooccur.length then
    let relaxed := (((cooccur.map mkItem).filter
        fun r => 1 ≤ r.sharedDependents
          ∧ RELAXED_JACCARD_VERY_SMALL ≤ r.jaccard).mergeSort
      jaccardDescLe).take limit
    if 0 < relaxed.length then relaxed else coRes
  else coRes

/-- `computeCooccurrenceFromForwardDeps` from `src/lib/similar.ts`: used when
the query has no reverse dependents; seeds the co-occurrence map with the
query's direct dependencies that are in the popular catalog, then scores
popular packages by shared forward dependencies. -/
def computeCooccurrenceFromForwardDeps (env : Env) (pkg : String)
    (limit : ℕ) : List SimilarItem :=
  match env.fetchMeta pkg with
  | none => computeCooccurrenceNameBasedFallback env pkg limit
  | some pkgDeps =>
    if pkgDeps.length = 0 then computeCooccurrenceNameBasedFallback env pkg limit
    else
      let normalizedPkg := normalizePackageName pkg
      let pkgDepsSet := jsSetOfList (pkgDeps.map normalizePackageName)
      let popularSet := env.popular.map normalizePackageName
      let cooccur₀ := pkgDeps.foldl
        (fun (acc : List (String × ℕ)) dep =>
          if normalizePackageName dep ∈ popularSet ∧ (lookupCount acc dep).isNone then
            acc ++ [(dep, 1)]
          else acc)
        []
      let packagesToCheck := min env.popular.length
        (min (limit * COOCCUR_MULTIPLIER_PER_LIMIT) MAX_PACKAGES_TO_CHECK_COOCCUR)
      let cooccur := (env.popular.take packagesToCheck).foldl
        (fun acc pop =>
          let normalizedPop := normalizePackageName pop
          if normalizedPop = normalizedPkg then acc
          else if normalizedPop ∈ pkgDepsSet then acc
          else
            match env.fetchMeta pop with
            | none => acc
            | some popDeps =>
              let popDepsSet := jsSetOfList (popDeps.map normalizePackageName)
              let sharedCount := (pkgDepsSet.filter fun dep => dep ∈ popDepsSet).length
              if 0 < sharedCount then
                match lookupCount acc pop with
                | none => acc ++ [(pop, sharedCount)]
                | some c =>
                  if c < sharedCount then updateCount acc pop sharedCount else acc
              else acc)
        cooccur₀
      let totalDeps := pkgDeps.length
      let coRes := (((cooccur.map fun e =>
          let baseScore : ℚ := (e.2 : ℚ) / (totalDeps : ℚ)
          let score :=
            if normalizePackageName e.1 ∈ pkgDepsSet then
              max baseScore DIRECT_DEPENDENCY_BOOST_SCORE
            else baseScore
          (⟨e.1, toFixed6 score, e.2⟩ : SimilarItem)).filter
        fun r =>
          if normalizePackageName r.name ∈ pkgDepsSet then true
          else 1 ≤ r.sharedDependents
            ∧ getCooccurForwardDepsRatioThreshold totalDeps ≤ r.jaccard).mergeSort
        (cooccurForwardLe pkgDepsSet)).take limit
      if 0 < coRes.length then coRes
      else
        let relaxed := (((cooccur.map fun e =>
            (⟨e.1, toFixed6 ((e.2 : ℚ) / (totalDeps : ℚ)), e.2⟩ : SimilarItem)).filter
          fun r => 1 ≤ r.sharedDependents ∧ RELAXED_JACCARD_MINIMUM ≤ r.jaccard).mergeSort
          sharedThenJaccardDescLe).take limit
        if 0 < relaxed.length then relaxed
        else computeCooccurrenceNameBasedFallback env pkg limit

/-- `computeCooccurrence` from `src/lib/similar.ts`. -/
def computeCooccurrence (env : Env) (pkg : String) (limit : ℕ)
    (maxDependentsToScan : Option ℕ) : List SimilarItem :=
  let base := getReverseDeps env pkg
  if 0 < base.length then
    computeCooccurrenceFromReverseDeps env pkg limit base maxDependentsToScan
  else computeCooccurrenceFromForwardDeps env pkg limit

def INITIAL_MAX_DEPENDENTS_TO_SCAN : ℕ := 150
def INITIAL_MAX_LIVE_CANDIDATES : ℕ := 200

/-! ## Concrete environments -/

/-- A minimal concrete environment: empty caches, failing fetches. -/
def emptyEnv : Env :=
  { cache := fun _ => none
    fetchMeta := fun _ => none
    bitset := fun _ => []
    popular := []
    uiFrameworks := []
    isUiFramework := fun _ => false }

/-! ## C7: the bitset fast path -/

lemma heapPushBounded_nil (limit : ℕ) (item : SimilarItem) (h : 0 < limit) :
    heapPushBounded limit [] item = [item] := by
  rw [heapPushBounded, if_pos (by simpa using h)]
  show heapSiftUp [item] 0 = _
  rw [heapSiftUp]

/-- **C7 (amended).** Whenever a candidate is accepted through the bitset
fast path (no cached set, both bitsets present, approximate score at or above
the adaptive bitset threshold), the pushed item carries
`sharedDependents = 0` and its jaccard is exactly the two-pointer
`jaccardBitset` value rounded to six decimal places — no exact shared count
is reported on this path. -/
theorem evaluateCandidate_bitset_path (env : Env) (pkg : String) (limit : ℕ)
    (base : List String) (baseBitset : List ℕ) (maxLiveCandidates : ℕ)
    (st : EvalState) (cand : String)
    (hne : normalizePackageName cand ≠ normalizePackageName pkg)
    (hcache : (jsSetOfList (cacheLookup env cand)).length = 0)
    (hbb : 0 < baseBitset.length)
    (hcb : 0 < (env.bitset cand).length)
    (hthr : getBitsetJaccardThreshold base.length
      ≤ jaccardBitset baseBitset (env.bitset cand)) :
    evaluateCandidate env pkg limit base baseBitset maxLiveCandidates st cand
      = { st with heap := (heapPushBounded limit st.heap
          ⟨cand, toFixed6 (jaccardBitset baseBitset (env.bitset cand)), 0⟩) } := by
  unfold evaluateCandidate
  rw [if_neg hne]
  simp only [hcache]
  rw [if_pos (show True ∧ 0 < baseBitset.length from ⟨trivial, hbb⟩),
    if_pos hcb, if_pos hthr]

/-- A concrete environment exercising the bitset fast path with ID arrays
`[0, 1]` and `[0, 2]`. -/
def bitsetEnv : Env :=
  { cache := fun _ => none
    fetchMeta := fun _ => none
    bitset := fun n => if n = "p" then [0, 1] else if n = "c" then [0, 2] else []
    popular := []
    uiFrameworks := []
    isUiFramework := fun _ => false }

/-- **C7 (counterexample to the claim as stated).** The bitset fast path
reports `Number(score.toFixed(6))`, so for ID arrays `[0,1]` and `[0,2]` the
pushed jaccard is `0.333333`, not the raw `jaccardBitset` value `1/3`. -/
theorem bitset_path_jaccard_rounded_counterexample :
    jaccardBitset [0, 1] [0, 2] = 1 / 3
    ∧ (evaluateCandidate bitsetEnv "p" 5 ["x"] [0, 1] 0 ⟨[], 0, 0⟩ "c").heap
        = [⟨"c", 333333 / 1000000, 0⟩]
    ∧ (333333 / 1000000 : ℚ) ≠ 1 / 3 := by
  have hbs : jaccardBitset [0, 1] [0, 2] = 1 / 3 := by
    rw [jaccardBitset, if_neg (by norm_num)]
    rw [show bitsetInterCount [0, 1] [0, 2] = 1 by
      rw [bitsetInterCount, if_pos rfl, bitsetInterCount, if_neg (by norm_num),
        if_pos (by norm_num), bitsetInterCount]]
    norm_num
  have hcb : bitsetEnv.bitset "c" = [0, 2] := by rfl
  have heval := evaluateCandidate_bitset_path bitsetEnv "p" 5 ["x"] [0, 1] 0
    ⟨[], 0, 0⟩ "c" (by decide) (by rfl) (by norm_num)
    (by rw [hcb]; norm_num)
    (by
      rw [hcb, hbs]
      show getBitsetJaccardThreshold 1 ≤ 1 / 3
      norm_num [getBitsetJaccardThreshold, BASE_SIZE_SMALL,
        MIN_JACCARD_BITSET_SMALL_BASE])
  rw [hcb, hbs] at heval
  refine ⟨hbs, ?_, by norm_num⟩
  rw [heval]
  show heapPushBounded 5 [] ⟨"c", toFixed6 (1 / 3), 0⟩ = _
  rw [heapPushBounded_nil 5 _ (by norm_num)]
  have : toFixed6 (1 / 3) = 333333 / 1000000 := by
    unfold toFixed6
    norm_num
  rw [this]

/-- Witness for `evaluateCandidate_bitset_path` (the amended C7) at the same
concrete input. -/
theorem evaluateCandidate_bitset_path_witness :
    (evaluateCandidate bitsetEnv "p" 5 ["x"] [0, 1] 0 ⟨[], 0, 0⟩ "c")
      = { heap := heapPushBounded 5 []
            ⟨"c", toFixed6 (jaccardBitset [0, 1] (bitsetEnv.bitset "c")), 0⟩
          liveFetches := 0
          checkedCount := 0 } :=
  evaluateCandidate_bitset_path bitsetEnv "p" 5 ["x"] [0, 1] 0
    ⟨[], 0, 0⟩ "c" (by decide) (by rfl) (by norm_num)
    (by show 0 < ([0, 2] : List ℕ).length; norm_num)
    (by
      show getBitsetJaccardThreshold 1 ≤ jaccardBitset [0, 1] [0, 2]
      rw [jaccardBitset, if_neg (by norm_num)]
      rw [show bitsetInterCount [0, 1] [0, 2] = 1 by
        rw [bitsetInterCount, if_pos rfl, bitsetInterCount, if_neg (by norm_num),
          if_pos (by norm_num), bitsetInterCount]]
      norm_num [getBitsetJaccardThreshold, BASE_SIZE_SMALL,
        MIN_JACCARD_BITSET_SMALL_BASE])

/-! ## C6: the query never appears in its own results -/

lemma mem_heapPushBounded (limit : ℕ) (h : List SimilarItem)
    (item x : SimilarItem) (hh : IsMinHeap h)
    (hx : x ∈ heapPushBounded limit h item) : x ∈ h ∨ x = item := by
  have hspec := heapPushBounded_spec limit h item hh
  by_cases hlt : h.length < limit
  · have heq := hspec.2.1 hlt
    have hx' : x ∈ (heapPushBounded limit h item : Multiset SimilarItem) :=
      Multiset.mem_coe.mpr hx
    rw [heq] at hx'
    rcases Multiset.mem_cons.mp hx' with rfl | hmem
    · exact Or.inr rfl
    · exact Or.inl (Multiset.mem_coe.mp hmem)
  · by_cases hz : limit = 0
    · rw [hspec.2.2.1 hlt hz] at hx
      exact Or.inl hx
    · by_cases hle : item.jaccard ≤ scoreAt h 0
      · rw [hspec.2.2.2.1 hlt (by omega) hle] at hx
        exact Or.inl hx
      · push_neg at hle
        have heq := hspec.2.2.2.2 hlt (by omega) hle
        have hx' : x ∈ (heapPushBounded limit h item : Multiset SimilarItem) :=
          Multiset.mem_coe.mpr hx
        rw [heq] at hx'
        rcases Multiset.mem_cons.mp hx' with rfl | hmem
        · exact Or.inr rfl
        · exact Or.inl (Multiset.mem_coe.mp (Multiset.mem_of_mem_erase hmem))

lemma evaluateCandidate_step (env : Env) (pkg : String) (limit : ℕ)
    (base : List String) (baseBitset : List ℕ) (maxLiveCandidates : ℕ)
    (st : EvalState) (cand : String) (hh : IsMinHeap st.heap) :
    IsMinHeap (evaluateCandidate env pkg limit base baseBitset
      maxLiveCandidates st cand).heap
    ∧ ∀ x ∈ (evaluateCandidate env pkg limit base baseBitset
        maxLiveCandidates st cand).heap,
        x ∈ st.heap ∨ (x.name = cand
          ∧ normalizePackageName cand ≠ normalizePackageName pkg) := by
  unfold evaluateCandidate
  by_cases hne : normalizePackageName cand = normalizePackageName pkg
  · rw [if_pos hne]
    exact ⟨hh, fun x hx => Or.inl hx⟩
  · rw [if_neg hne]
    simp only []
    split
    · -- bitset-path push
      rename_i usedScore _
      constructor
      · exact (heapPushBounded_spec limit st.heap _ hh).1
      · intro x hx
        rcases mem_heapPushBounded limit st.heap _ x hh hx with hmem | rfl
        · exact Or.inl hmem
        · exact Or.inr ⟨rfl, hne⟩
    · -- no bitset hit: every remaining leaf either keeps the heap unchanged
      -- or pushes an item named after the candidate
      repeat' split
      all_goals
        first
        | exact ⟨hh, fun x hx => Or.inl hx⟩
        | (refine ⟨(heapPushBounded_spec limit st.heap _ hh).1, ?_⟩
           intro x hx
           rcases mem_heapPushBounded limit st.heap _ x hh hx with hmem | hxe
           · exact Or.inl hmem
           · right
             rw [hxe]
             exact ⟨rfl, hne⟩)

lemma foldl_evaluateCandidate (env : Env) (pkg : String) (limit : ℕ)
    (base : List String) (baseBitset : List ℕ) (maxLiveCandidates : ℕ) :
    ∀ (batch : List String) (st : EvalState), IsMinHeap st.heap →
      IsMinHeap (batch.foldl (evaluateCandidate env pkg limit base baseBitset
        maxLiveCandidates) st).heap
      ∧ ∀ x ∈ (batch.foldl (evaluateCandidate env pkg limit base baseBitset
          maxLiveCandidates) st).heap,
          x ∈ st.heap ∨ normalizePackageName x.name ≠ normalizePackageName pkg
  | [], st, hh => ⟨hh, fun _ hx => Or.inl hx⟩
  | c :: cs, st, hh => by
    rw [List.foldl_cons]
    have hstep := evaluateCandidate_step env pkg limit base baseBitset
      maxLiveCandidates st c hh
    have ih := foldl_evaluateCandidate env pkg limit base baseBitset
      maxLiveCandidates cs _ hstep.1
    refine ⟨ih.1, ?_⟩
    intro x hx
    rcases ih.2 x hx with hmem | hne
    · rcases hstep.2 x hmem with hmem' | ⟨hname, hne'⟩
      · exact Or.inl hmem'
      · right
        rw [hname]
        exact hne'
    · exact Or.inr hne

lemma evalBatches_heap (env : Env) (pkg : String) (limit : ℕ)
    (base : List String) (baseBitset : List ℕ)
    (maxLiveCandidates minChecked : ℕ) :
    ∀ (cands : List String) (st : EvalState), IsMinHeap st.heap →
      IsMinHeap (evalBatches env pkg limit base baseBitset maxLiveCandidates
        minChecked cands st).heap
      ∧ ∀ x ∈ (evalBatches env pkg limit base baseBitset maxLiveCandidates
          minChecked cands st).heap,
          x ∈ st.heap ∨ normalizePackageName x.name ≠ normalizePackageName pkg := by
  intro cands st
  induction cands, st using evalBatches.induct env pkg limit base baseBitset
    maxLiveCandidates minChecked with
  | case1 st =>
    intro hh
    rw [evalBatches, if_pos rfl]
    exact ⟨hh, fun _ hx => Or.inl hx⟩
  | case2 cands st hnil st' hexit =>
    intro hh
    rw [evalBatches, if_neg hnil]
    dsimp only
    split
    · exact foldl_evaluateCandidate env pkg limit base baseBitset
        maxLiveCandidates _ st hh
    · rename_i hfalse
      exact absurd hexit hfalse
  | case3 cands st hnil st' hexit ih =>
    intro hh
    rw [evalBatches, if_neg hnil]
    dsimp only
    split
    · rename_i htrue
      exact absurd htrue hexit
    · have hfold := foldl_evaluateCandidate env pkg limit base baseBitset
        maxLiveCandidates (cands.take EARLY_EXIT_BATCH_SIZE) st hh
      have ihres := ih hfold.1
      refine ⟨ihres.1, ?_⟩
      intro x hx
      rcases ihres.2 x hx with hmem | hne
      · rcases hfold.2 x hmem with hmem' | hne'
        · exact Or.inl hmem'
        · exact Or.inr hne'
      · exact Or.inr hne

lemma foldl_mem_invariant {α β : Type} (P : β → Prop) (f : β → α → β)
    (l : List α) (init : β) (h0 : P init)
    (hstep : ∀ b a, P b → P (f b a)) : P (l.foldl f init) := by
  induction l generalizing init with
  | nil => exact h0
  | cons a t ih => exact ih (f init a) (hstep init a h0)

lemma mem_of_mem_mergeSort_take {x : SimilarItem} {l : List SimilarItem}
    {le : SimilarItem → SimilarItem → Bool} {n : ℕ}
    (hx : x ∈ (l.mergeSort le).take n) : x ∈ l :=
  (l.mergeSort_perm le).mem_iff.mp (List.mem_of_mem_take hx)

lemma computeSimilarForwardDeps_excludes (env : Env) (pkg : String)
    (limit : ℕ) (pkgDeps : List String) :
    ∀ item ∈ computeSimilarForwardDeps env pkg limit pkgDeps,
      normalizePackageName item.name ≠ normalizePackageName pkg := by
  intro item hitem
  unfold computeSimilarForwardDeps at hitem
  have hsorted := mem_of_mem_mergeSort_take hitem
  have hfiltered := List.mem_of_mem_filter hsorted
  obtain ⟨e, he, rfl⟩ := List.mem_map.mp hfiltered
  have hkeys : ∀ e' ∈ (env.popular.take (min env.popular.length
      (min (limit * CANDIDATES_MULTIPLIER_PER_LIMIT)
        MAX_PACKAGES_TO_CHECK_FORWARD_DEPS))).foldl
      (fun (acc : List (String × ℕ)) candidate =>
        let normalizedCandidate := normalizePackageName candidate
        if normalizedCandidate = normalizePackageName pkg then acc
        else
          match env.fetchMeta candidate with
          | none => acc
          | some candidateDeps =>
            let candidateDepsSet := jsSetOfList (candidateDeps.map normalizePackageName)
            let sharedDeps := (jsSetOfList (pkgDeps.map normalizePackageName)).filter
              fun dep => dep ∈ candidateDepsSet
            if 0 < sharedDeps.length ∧ (lookupCount acc candidate).isNone then
              acc ++ [(candidate, sharedDeps.length)]
            else acc) [],
      normalizePackageName e'.1 ≠ normalizePackageName pkg := by
    refine foldl_mem_invariant
      (fun (acc : List (String × ℕ)) => ∀ e' ∈ acc,
        normalizePackageName e'.1 ≠ normalizePackageName pkg) _ _ _ ?_ ?_
    · intro e' he'
      exact absurd he' (List.not_mem_nil e')
    · intro acc candidate hacc
      intro e' he'
      dsimp only at he'
      by_cases hc : normalizePackageName candidate = normalizePackageName pkg
      · rw [if_pos hc] at he'
        exact hacc e' he'
      · rw [if_neg hc] at he'
        rcases hmeta : env.fetchMeta candidate with _ | deps
        · rw [hmeta] at he'
          exact hacc e' he'
        · rw [hmeta] at he'
          dsimp only at he'
          split at he'
          · rcases List.mem_append.mp he' with hin | hnew
            · exact hacc e' hin
            · rw [List.mem_singleton.mp hnew]
              exact hc
          · exact hacc e' he'
  exact hkeys e he

lemma computeSimilarNameBasedFallback_excludes (env : Env) (pkg : String)
    (limit : ℕ) :
    ∀ item ∈ computeSimilarNameBasedFallback env pkg limit,
      normalizePackageName item.name ≠ normalizePackageName pkg := by
  intro item hitem
  unfold computeSimilarNameBasedFallback at hitem
  dsimp only at hitem
  split at hitem
  case isTrue =>
    obtain ⟨name, hname, rfl⟩ := List.mem_map.mp hitem
    have hmem := List.mem_of_mem_take hname
    have hkeys : ∀ n ∈ env.popular.foldl
        (fun acc pop =>
          if limit * 2 ≤ acc.length then acc
          else
            let popLower := normalizePackageName pop
            let nameHit := nameTokenMatch (normalizePackageName pkg) popLower
            let cacheArr := (env.cache (normalizePackageName pop)).getD []
            let cacheHit := 0 < cacheArr.length ∧
              (normalizePackageName pkg ∈ jsSetOfList cacheArr
                ∨ pkg ∈ jsSetOfList cacheArr)
            if (nameHit ∨ cacheHit) ∧ popLower ≠ normalizePackageName pkg
                ∧ pop ∉ acc then
              acc ++ [pop]
            else acc) [],
        normalizePackageName n ≠ normalizePackageName pkg := by
      refine foldl_mem_invariant
        (fun (acc : List String) => ∀ n ∈ acc,
          normalizePackageName n ≠ normalizePackageName pkg) _ _ _ ?_ ?_
      · intro n hn
        exact absurd hn (List.not_mem_nil n)
      · intro acc pop hacc
        intro n hn
        dsimp only at hn
        split at hn
        · exact hacc n hn
        · split at hn
          · rcases List.mem_append.mp hn with hin | hnew
            · exact hacc n hin
            · rw [List.mem_singleton.mp hnew]
              rename_i hcond
              exact hcond.2.1
          · exact hacc n hn
    exact hkeys name hmem
  case isFalse =>
    exact absurd hitem (List.not_mem_nil item)

lemma relaxedCachePass_excludes (env : Env) (pkg : String)
    (base cands : List String) :
    ∀ item ∈ relaxedCachePass env pkg base cands,
      normalizePackageName item.name ≠ normalizePackageName pkg := by
  intro item hitem
  unfold relaxedCachePass at hitem
  have hkeys : ∀ it ∈ cands.foldl
      (fun alt cand =>
        let normalizedCand := normalizePackageName cand
        if normalizedCand = normalizePackageName pkg then alt
        else
          let depSetArr := cacheLookup env cand
          if depSetArr.length = 0 then alt
          else
            let depSet := jsSetOfList depSetArr
            let jr := jaccardSimilarity base.toFinset depSet.toFinset
            if getRelaxedJaccardThreshold base.length ≤ jr.score ∧ 0 < jr.shared then
              alt ++ [(⟨cand, toFixed6 jr.score, jr.shared⟩ : SimilarItem)]
            else alt) [],
      normalizePackageName it.name ≠ normalizePackageName pkg := by
    refine foldl_mem_invariant
      (fun (acc : List SimilarItem) => ∀ it ∈ acc,
        normalizePackageName it.name ≠ normalizePackageName pkg) _ _ _ ?_ ?_
    · intro it hit
      exact absurd hit (List.not_mem_nil it)
    · intro alt cand halt
      intro it hit
      dsimp only at hit
      by_cases hc : normalizePackageName cand = normalizePackageName pkg
      · rw [if_pos hc] at hit
        exact halt it hit
      · rw [if_neg hc] at hit
        split at hit
        · exact halt it hit
        · split at hit
          · rcases List.mem_append.mp hit with hin | hnew
            · exact halt it hin
            · rw [List.mem_singleton.mp hnew]
              exact hc
          · exact halt it hit
  exact hkeys item hitem

lemma smallBaseNameRescue_excludes (env : Env) (pkg : String) (limit : ℕ) :
    ∀ item ∈ smallBaseNameRescue env pkg limit,
      normalizePackageName item.name ≠ normalizePackageName pkg := by
  intro item hitem
  unfold smallBaseNameRescue at hitem
  have hkeys : ∀ it ∈ (env.popular.take
      (min env.popular.length MAX_POPULAR_FOR_NAME_BASED)).foldl
      (fun nameBased pop =>
        if limit ≤ nameBased.length then nameBased
        else
          let normalizedPop := normalizePackageName pop
          if normalizedPop = normalizePackageName pkg then nameBased
          else if nameTokenMatch (normalizePackageName pkg) normalizedPop then
            nameBased ++ [(⟨pop, NAME_BASED_FALLBACK_SCORE, 0⟩ : SimilarItem)]
          else nameBased) [],
      normalizePackageName it.name ≠ normalizePackageName pkg := by
    refine foldl_mem_invariant
      (fun (acc : List SimilarItem) => ∀ it ∈ acc,
        normalizePackageName it.name ≠ normalizePackageName pkg) _ _ _ ?_ ?_
    · intro it hit
      exact absurd hit (List.not_mem_nil it)
    · intro acc pop hacc
      intro it hit
      dsimp only at hit
      split at hit
      · exact hacc it hit
      · by_cases hc : normalizePackageName pop = normalizePackageName pkg
        · rw [if_pos hc] at hit
          exact hacc it hit
        · rw [if_neg hc] at hit
          split at hit
          · rcases List.mem_append.mp hit with hin | hnew
            · exact hacc it hin
            · rw [List.mem_singleton.mp hnew]
              exact hc
          · exact hacc it hit
  exact hkeys item hitem

lemma computeCooccurrenceNameBasedFallback_excludes (env : Env) (pkg : String)
    (limit : ℕ) :
    ∀ item ∈ computeCooccurrenceNameBasedFallback env pkg limit,
      normalizePackageName item.name ≠ normalizePackageName pkg := by
  intro item hitem
  unfold computeCooccurrenceNameBasedFallback at hitem
  dsimp only at hitem
  split at hitem
  case isTrue =>
    obtain ⟨name, hname, rfl⟩ := List.mem_map.mp hitem
    have hmem := List.mem_of_mem_take hname
    have hkeys : ∀ n ∈ (env.popular.take
        (min env.popular.length MAX_POPULAR_FOR_NAME_BASED)).foldl
        (fun acc pop =>
          if limit * 2 ≤ acc.length then acc
          else
            let normalizedPop := normalizePackageName pop
            if normalizedPop = normalizePackageName pkg then acc
            else if nameTokenMatch (normalizePackageName pkg) normalizedPop
                ∧ pop ∉ acc then
              acc ++ [pop]
            else acc) [],
        normalizePackageName n ≠ normalizePackageName pkg := by
      refine foldl_mem_invariant
        (fun (acc : List String) => ∀ n ∈ acc,
          normalizePackageName n ≠ normalizePackageName pkg) _ _ _ ?_ ?_
      · intro n hn
        exact absurd hn (List.not_mem_nil n)
      · intro acc pop hacc
        intro n hn
        dsimp only at hn
        split at hn
        · exact hacc n hn
        · by_cases hc : normalizePackageName pop = normalizePackageName pkg
          · rw [if_pos hc] at hn
            exact hacc n hn
          · rw [if_neg hc] at hn
            split at hn
            · rcases List.mem_append.mp hn with hin | hnew
              · exact hacc n hin
              · rw [List.mem_singleton.mp hnew]
                exact hc
            · exact hacc n hn
    exact hkeys name hmem
  case isFalse =>
    exact absurd hitem (List.not_mem_nil item)

/-- **C6.** For every environment, query, limit and option setting, the query
package never appears in its own `computeSimilarOnDemand` result: no returned
item's name normalizes to the query's normalized name, on the main scoring
path, the relaxed cache-only fallback, the forward-dependency fallback, and
the name-based fallback alike. -/
theorem query_never_in_own_similar_results (env : Env) (pkg : String)
    (limit : ℕ) (restrict : Bool) (o₁ o₂ o₃ : Option ℕ) :
    ∀ item ∈ computeSimilarOnDemand env pkg limit restrict o₁ o₂ o₃,
      normalizePackageName item.name ≠ normalizePackageName pkg := by
  intro item hitem
  unfold computeSimilarOnDemand at hitem
  dsimp only at hitem
  repeat' split at hitem
  all_goals
    first
    | exact computeSimilarNameBasedFallback_excludes env pkg limit item hitem
    | exact computeSimilarForwardDeps_excludes env pkg limit _ item hitem
    | exact smallBaseNameRescue_excludes env pkg limit item
        (List.mem_of_mem_take hitem)
    | exact relaxedCachePass_excludes env pkg _ _ item
        (mem_of_mem_mergeSort_take hitem)
    | exact absurd hitem (List.not_mem_nil item)
    | (have hmem := (List.mergeSort_perm _ jaccardDescLe).mem_iff.mp hitem
       rcases (evalBatches_heap env pkg limit _ _ _ _ _
           ⟨[], 0, 0⟩ isMinHeap_nil).2 item hmem with habs | hne
       · exact absurd habs (List.not_mem_nil item)
       · exact hne)

/-- An environment whose only data is one popular package with a name token
shared with the query, driving the name-based fallback. -/
def nameFallbackEnv : Env :=
  { cache := fun _ => none
    fetchMeta := fun _ => none
    bitset := fun _ => []
    popular := ["req-utils"]
    uiFrameworks := []
    isUiFramework := fun _ => false }

/-- Witness for `query_never_in_own_similar_results`: a concrete run whose
result is nonempty, with the returned item distinct from the query. -/
theorem query_never_in_own_similar_results_witness :
    (⟨"req-utils", NAME_BASED_FALLBACK_SCORE, 0⟩ : SimilarItem)
      ∈ computeSimilarOnDemand nameFallbackEnv "req" 5 false none none none
    ∧ normalizePackageName
        (⟨"req-utils", NAME_BASED_FALLBACK_SCORE, 0⟩ : SimilarItem).name
      ≠ normalizePackageName "req" := by
  have heq : computeSimilarOnDemand nameFallbackEnv "req" 5 false none none none
      = [⟨"req-utils", NAME_BASED_FALLBACK_SCORE, 0⟩] := rfl
  have hmem : (⟨"req-utils", NAME_BASED_FALLBACK_SCORE, 0⟩ : SimilarItem)
      ∈ computeSimilarOnDemand nameFallbackEnv "req" 5 false none none none := by
    rw [heq]
    exact List.mem_singleton_self _
  exact ⟨hmem, query_never_in_own_similar_results nameFallbackEnv "req" 5
    false none none none _ hmem⟩


/-! ## C5: result length and ordering -/

lemma length_heapSiftUp : ∀ (h : List SimilarItem) (i : ℕ),
    (heapSiftUp h i).length = h.length := by
  intro h i
  induction h, i using heapSiftUp.induct with
  | case1 h => rw [heapSiftUp]
  | case2 h i hle => rw [heapSiftUp, if_pos hle]
  | case3 h i hle ih =>
    rw [heapSiftUp, if_neg hle]
    rw [ih, heapSwap_length]

lemma length_heapSiftDown : ∀ (h : List SimilarItem) (i : ℕ),
    (heapSiftDown h i).length = h.length := by
  intro h i
  induction h, i using heapSiftDown.induct with
  | case1 h i hm => rw [heapSiftDown, dif_pos hm]
  | case2 h i hm ih =>
    rw [heapSiftDown, dif_neg hm]
    rw [ih, heapSwap_length]

lemma length_heapPushBounded_le (limit : ℕ) (h : List SimilarItem)
    (item : SimilarItem) (hle : h.length ≤ limit) :
    (heapPushBounded limit h item).length ≤ limit := by
  unfold heapPushBounded
  split
  · rename_i hlt
    rw [length_heapSiftUp]
    simp only [List.length_append, List.length_cons, List.length_nil]
    omega
  · split
    · exact hle
    · split
      · exact hle
      · rw [length_heapSiftDown, List.length_set]
        exact hle

lemma evaluateCandidate_heap_length (env : Env) (pkg : String) (limit : ℕ)
    (base : List String) (baseBitset : List ℕ) (maxLiveCandidates : ℕ)
    (st : EvalState) (cand : String) (hle : st.heap.length ≤ limit) :
    (evaluateCandidate env pkg limit base baseBitset maxLiveCandidates
      st cand).heap.length ≤ limit := by
  unfold evaluateCandidate
  dsimp only
  repeat' split
  all_goals first
    | exact hle
    | exact length_heapPushBounded_le limit st.heap _ hle

lemma evalBatches_heap_length (env : Env) (pkg : String) (limit : ℕ)
    (base : List String) (baseBitset : List ℕ)
    (maxLiveCandidates minChecked : ℕ) :
    ∀ (cands : List String) (st : EvalState), st.heap.length ≤ limit →
      (evalBatches env pkg limit base baseBitset maxLiveCandidates minChecked
        cands st).heap.length ≤ limit := by
  intro cands st
  induction cands, st using evalBatches.induct env pkg limit base baseBitset
    maxLiveCandidates minChecked with
  | case1 st =>
    intro hle
    rw [evalBatches, if_pos rfl]
    exact hle
  | case2 cands st hnil st' hexit =>
    intro hle
    rw [evalBatches, if_neg hnil]
    dsimp only
    split
    · exact foldl_mem_invariant (fun s => s.heap.length ≤ limit)
        (evaluateCandidate env pkg limit base baseBitset maxLiveCandidates)
        (cands.take EARLY_EXIT_BATCH_SIZE) st hle
        (fun b a hb => evaluateCandidate_heap_length env pkg limit base
          baseBitset maxLiveCandidates b a hb)
    · rename_i hfalse
      exact absurd hexit hfalse
  | case3 cands st hnil st' hexit ih =>
    intro hle
    rw [evalBatches, if_neg hnil]
    dsimp only
    split
    · rename_i htrue
      exact absurd htrue hexit
    · exact ih (foldl_mem_invariant (fun s => s.heap.length ≤ limit)
        (evaluateCandidate env pkg limit base baseBitset maxLiveCandidates)
        (cands.take EARLY_EXIT_BATCH_SIZE) st hle
        (fun b a hb => evaluateCandidate_heap_length env pkg limit base
          baseBitset maxLiveCandidates b a hb))


lemma jaccardDescLe_trans (a b c : SimilarItem)
    (hab : jaccardDescLe a b = true) (hbc : jaccardDescLe b c = true) :
    jaccardDescLe a c = true := by
  simp only [jaccardDescLe, decide_eq_true_eq] at hab hbc ⊢
  exact le_trans hbc hab

lemma jaccardDescLe_total (a b : SimilarItem) :
    (jaccardDescLe a b || jaccardDescLe b a) = true := by
  simp only [jaccardDescLe, Bool.or_eq_true, decide_eq_true_eq]
  exact le_total b.jaccard a.jaccard

/-- The heap drain and the relaxed pass sort by `(a, b) => b.jaccard -
a.jaccard`; the result is descending in jaccard. -/
lemma pairwise_desc_mergeSort (l : List SimilarItem) :
    (l.mergeSort jaccardDescLe).Pairwise (fun a b => b.jaccard ≤ a.jaccard) := by
  have hs := List.sorted_mergeSort jaccardDescLe_trans jaccardDescLe_total l
  exact hs.imp (fun h => by simpa [jaccardDescLe] using h)

lemma pairwise_desc_take {l : List SimilarItem} (n : ℕ)
    (h : l.Pairwise (fun a b => b.jaccard ≤ a.jaccard)) :
    (l.take n).Pairwise (fun a b => b.jaccard ≤ a.jaccard) :=
  List.Pairwise.sublist (List.take_sublist n l) h

lemma sharedThenJaccardDescLe_total (a b : SimilarItem) :
    (sharedThenJaccardDescLe a b || sharedThenJaccardDescLe b a) = true := by
  unfold sharedThenJaccardDescLe
  by_cases h : a.sharedDependents = b.sharedDependents
  · rw [if_pos h, if_pos h.symm]
    simp only [Bool.or_eq_true, decide_eq_true_eq]
    exact le_total b.jaccard a.jaccard
  · rw [if_neg h, if_neg (Ne.symm h)]
    simp only [Bool.or_eq_true, decide_eq_true_eq]
    omega

lemma sharedThenJaccardDescLe_trans (a b c : SimilarItem)
    (hab : sharedThenJaccardDescLe a b = true)
    (hbc : sharedThenJaccardDescLe b c = true) :
    sharedThenJaccardDescLe a c = true := by
  unfold sharedThenJaccardDescLe at hab hbc ⊢
  by_cases h1 : a.sharedDependents = b.sharedDependents
  · rw [if_pos h1] at hab
    by_cases h2 : b.sharedDependents = c.sharedDependents
    · rw [if_pos h2] at hbc
      rw [if_pos (h1.trans h2)]
      simp only [decide_eq_true_eq] at hab hbc ⊢
      exact le_trans hbc hab
    · rw [if_neg h2] at hbc
      have hac : a.sharedDependents ≠ c.sharedDependents := by omega
      rw [if_neg hac]
      simp only [decide_eq_true_eq] at hbc ⊢
      omega
  · rw [if_neg h1] at hab
    simp only [decide_eq_true_eq] at hab
    by_cases h2 : b.sharedDependents = c.sharedDependents
    · rw [if_pos h2] at hbc
      have hac : a.sharedDependents ≠ c.sharedDependents := by omega
      rw [if_neg hac]
      simp only [decide_eq_true_eq]
      omega
    · rw [if_neg h2] at hbc
      simp only [decide_eq_true_eq] at hbc
      have hac : a.sharedDependents ≠ c.sharedDependents := by omega
      rw [if_neg hac]
      simp only [decide_eq_true_eq]
      omega

/-- Rounding to six decimals is monotone. -/
lemma toFixed6_mono {p q : ℚ} (h : p ≤ q) : toFixed6 p ≤ toFixed6 q := by
  unfold toFixed6
  have hf : ⌊p * 1000000 + 1 / 2⌋ ≤ ⌊q * 1000000 + 1 / 2⌋ := by
    apply Int.floor_le_floor
    nlinarith
  have hc : ((⌊p * 1000000 + 1 / 2⌋ : ℤ) : ℚ) ≤ ((⌊q * 1000000 + 1 / 2⌋ : ℤ) : ℚ) := by
    exact_mod_cast hf
  linarith

/-- Shared-count order refines jaccard order when every stored jaccard is the
rounded shared-over-total ratio. -/
lemma pairwise_desc_of_shared_sorted {l : List SimilarItem} (td : ℕ)
    (hmem : ∀ x ∈ l, x.jaccard = toFixed6 ((x.sharedDependents : ℚ) / (td : ℚ)))
    (hs : l.Pairwise (fun a b => sharedThenJaccardDescLe a b = true)) :
    l.Pairwise (fun a b => b.jaccard ≤ a.jaccard) := by
  refine hs.imp_of_mem ?_
  intro a b hamem hbmem hab
  unfold sharedThenJaccardDescLe at hab
  by_cases h : a.sharedDependents = b.sharedDependents
  · rw [if_pos h] at hab
    exact of_decide_eq_true hab
  · rw [if_neg h] at hab
    have hle : b.sharedDependents ≤ a.sharedDependents := of_decide_eq_true hab
    rw [hmem a hamem, hmem b hbmem]
    apply toFixed6_mono
    rcases Nat.eq_zero_or_pos td with h0 | hpos
    · subst h0
      norm_num
    · have hpos' : (0 : ℚ) < (td : ℚ) := by exact_mod_cast hpos
      gcongr


lemma computeSimilarNameBasedFallback_desc (env : Env) (pkg : String)
    (limit : ℕ) :
    (computeSimilarNameBasedFallback env pkg limit).Pairwise
      (fun a b => b.jaccard ≤ a.jaccard) := by
  unfold computeSimilarNameBasedFallback
  dsimp only
  split
  · rw [List.pairwise_map]
    exact List.pairwise_of_forall_mem_list (fun a _ b _ => le_refl _)
  · exact List.Pairwise.nil

lemma computeCooccurrenceNameBasedFallback_desc (env : Env) (pkg : String)
    (limit : ℕ) :
    (computeCooccurrenceNameBasedFallback env pkg limit).Pairwise
      (fun a b => b.jaccard ≤ a.jaccard) := by
  unfold computeCooccurrenceNameBasedFallback
  dsimp only
  split
  · rw [List.pairwise_map]
    exact List.pairwise_of_forall_mem_list (fun a _ b _ => le_refl _)
  · exact List.Pairwise.nil

lemma length_computeSimilarNameBasedFallback_le (env : Env) (pkg : String)
    (limit : ℕ) :
    (computeSimilarNameBasedFallback env pkg limit).length ≤ limit := by
  unfold computeSimilarNameBasedFallback
  dsimp only
  split
  · rw [List.length_map]
    exact List.length_take_le _ _
  · exact Nat.zero_le _

lemma length_computeCooccurrenceNameBasedFallback_le (env : Env) (pkg : String)
    (limit : ℕ) :
    (computeCooccurrenceNameBasedFallback env pkg limit).length ≤ limit := by
  unfold computeCooccurrenceNameBasedFallback
  dsimp only
  split
  · rw [List.length_map]
    exact List.length_take_le _ _
  · exact Nat.zero_le _

lemma smallBaseNameRescue_desc (env : Env) (pkg : String) (limit : ℕ) :
    (smallBaseNameRescue env pkg limit).Pairwise
      (fun a b => b.jaccard ≤ a.jaccard) := by
  have hall : ∀ x ∈ smallBaseNameRescue env pkg limit,
      x.jaccard = NAME_BASED_FALLBACK_SCORE := by
    unfold smallBaseNameRescue
    dsimp only
    refine foldl_mem_invariant
      (fun (l : List SimilarItem) => ∀ x ∈ l,
        x.jaccard = NAME_BASED_FALLBACK_SCORE) _ _ _ ?_ ?_
    · intro x hx
      exact absurd hx (List.not_mem_nil x)
    · intro b a hb x hx
      repeat' split at hx
      all_goals first
        | exact hb x hx
        | (rcases List.mem_append.mp hx with hmem | hone
           · exact hb x hmem
           · rw [List.mem_singleton.mp hone])
  refine List.pairwise_of_forall_mem_list ?_
  intro a ha b hb
  rw [hall a ha, hall b hb]

lemma computeSimilarForwardDeps_desc (env : Env) (pkg : String) (limit : ℕ)
    (pkgDeps : List String) :
    (computeSimilarForwardDeps env pkg limit pkgDeps).Pairwise
      (fun a b => b.jaccard ≤ a.jaccard) := by
  unfold computeSimilarForwardDeps
  dsimp only
  apply pairwise_desc_take
  apply pairwise_desc_of_shared_sorted pkgDeps.length
  · intro x hx
    have hx' := (List.mergeSort_perm _ sharedThenJaccardDescLe).mem_iff.mp hx
    have hx'' := List.mem_of_mem_filter hx'
    rcases List.mem_map.mp hx'' with ⟨e, _, rfl⟩
    rfl
  · exact List.sorted_mergeSort sharedThenJaccardDescLe_trans
      sharedThenJaccardDescLe_total _



lemma pairwise_desc_ite (c : Prop) [Decidable c] (x y : List SimilarItem)
    (hx : x.Pairwise (fun a b => b.jaccard ≤ a.jaccard))
    (hy : y.Pairwise (fun a b => b.jaccard ≤ a.jaccard)) :
    (if c then x else y).Pairwise (fun a b => b.jaccard ≤ a.jaccard) := by
  split
  · exact hx
  · exact hy

lemma length_le_ite (n : ℕ) (c : Prop) [Decidable c] (x y : List SimilarItem)
    (hx : x.length ≤ n) (hy : y.length ≤ n) :
    (if c then x else y).length ≤ n := by
  split
  · exact hx
  · exact hy

lemma length_mergeSort_le {l : List SimilarItem} {n : ℕ}
    (cmp : SimilarItem → SimilarItem → Bool) (h : l.length ≤ n) :
    (l.mergeSort cmp).length ≤ n := by
  rw [List.length_mergeSort]
  exact h

lemma computeCooccurrenceFromReverseDeps_desc (env : Env) (pkg : String)
    (limit : ℕ) (base : List String) (mds : Option ℕ) :
    (computeCooccurrenceFromReverseDeps env pkg limit base mds).Pairwise
      (fun a b => b.jaccard ≤ a.jaccard) := by
  unfold computeCooccurrenceFromReverseDeps
  dsimp only
  exact pairwise_desc_ite _ _ _
    (pairwise_desc_ite _ _ _
      (pairwise_desc_take _ (pairwise_desc_mergeSort _))
      (pairwise_desc_take _ (pairwise_desc_mergeSort _)))
    (pairwise_desc_take _ (pairwise_desc_mergeSort _))

lemma length_computeCooccurrenceFromReverseDeps_le (env : Env) (pkg : String)
    (limit : ℕ) (base : List String) (mds : Option ℕ) :
    (computeCooccurrenceFromReverseDeps env pkg limit base mds).length
      ≤ limit := by
  unfold computeCooccurrenceFromReverseDeps
  dsimp only
  exact length_le_ite _ _ _ _
    (length_le_ite _ _ _ _ (List.length_take_le _ _) (List.length_take_le _ _))
    (List.length_take_le _ _)

lemma length_computeSimilarForwardDeps_le (env : Env) (pkg : String)
    (limit : ℕ) (pkgDeps : List String) :
    (computeSimilarForwardDeps env pkg limit pkgDeps).length ≤ limit := by
  unfold computeSimilarForwardDeps
  dsimp only
  exact List.length_take_le _ _

lemma length_computeCooccurrenceFromForwardDeps_le (env : Env) (pkg : String)
    (limit : ℕ) :
    (computeCooccurrenceFromForwardDeps env pkg limit).length ≤ limit := by
  unfold computeCooccurrenceFromForwardDeps
  cases hfm : env.fetchMeta pkg with
  | none => exact length_computeCooccurrenceNameBasedFallback_le env pkg limit
  | some pkgDeps =>
    dsimp only
    exact length_le_ite _ _ _ _
      (length_computeCooccurrenceNameBasedFallback_le env pkg limit)
      (length_le_ite _ _ _ _ (List.length_take_le _ _)
        (length_le_ite _ _ _ _ (List.length_take_le _ _)
          (length_computeCooccurrenceNameBasedFallback_le env pkg limit)))

lemma length_computeSimilarOnDemand_le (env : Env) (pkg : String) (limit : ℕ)
    (restrict : Bool) (tsl mds mlc : Option ℕ) :
    (computeSimilarOnDemand env pkg limit restrict tsl mds mlc).length
      ≤ limit := by
  unfold computeSimilarOnDemand
  dsimp only
  refine length_le_ite _ _ _ _ ?_ ?_
  · cases hfm : env.fetchMeta pkg with
    | none => exact length_computeSimilarNameBasedFallback_le env pkg limit
    | some pkgDeps =>
      dsimp only
      exact length_le_ite _ _ _ _
        (length_computeSimilarNameBasedFallback_le env pkg limit)
        (length_le_ite _ _ _ _
          (length_computeSimilarForwardDeps_le env pkg limit pkgDeps)
          (length_computeSimilarNameBasedFallback_le env pkg limit))
  · refine length_le_ite _ _ _ _ ?_ ?_
    · exact length_le_ite _ _ _ _
        (length_le_ite _ _ _ _ (List.length_take_le _ _)
          (List.length_take_le _ _))
        (List.length_take_le _ _)
    · exact length_mergeSort_le jaccardDescLe
        (evalBatches_heap_length env pkg limit _ _ _ _ _ _ (by simp))

lemma computeSimilarOnDemand_desc (env : Env) (pkg : String) (limit : ℕ)
    (restrict : Bool) (tsl mds mlc : Option ℕ) :
    (computeSimilarOnDemand env pkg limit restrict tsl mds mlc).Pairwise
      (fun a b => b.jaccard ≤ a.jaccard) := by
  unfold computeSimilarOnDemand
  dsimp only
  refine pairwise_desc_ite _ _ _ ?_ ?_
  · cases hfm : env.fetchMeta pkg with
    | none => exact computeSimilarNameBasedFallback_desc env pkg limit
    | some pkgDeps =>
      dsimp only
      exact pairwise_desc_ite _ _ _
        (computeSimilarNameBasedFallback_desc env pkg limit)
        (pairwise_desc_ite _ _ _
          (computeSimilarForwardDeps_desc env pkg limit pkgDeps)
          (computeSimilarNameBasedFallback_desc env pkg limit))
  · refine pairwise_desc_ite _ _ _ ?_ ?_
    · exact pairwise_desc_ite _ _ _
        (pairwise_desc_ite _ _ _
          (pairwise_desc_take _ (smallBaseNameRescue_desc env pkg limit))
          (pairwise_desc_take _ (pairwise_desc_mergeSort _)))
        (pairwise_desc_take _ (pairwise_desc_mergeSort _))
    · exact pairwise_desc_mergeSort _


/-- A concrete environment whose query has a cached reverse-dependent set. -/
def revDepsEnv : Env :=
  { cache := fun s => if s = "p" then some ["x"] else none
    fetchMeta := fun _ => none
    bitset := fun _ => []
    popular := []
    uiFrameworks := []
    isUiFramework := fun _ => false }

/-- **C5 (amended).** Every list returned by `computeSimilarOnDemand` and
`computeCooccurrence` has length at most the requested limit;
`computeSimilarOnDemand` results are sorted descending by jaccard on every
path; `computeCooccurrence` results are sorted descending by jaccard whenever
the query has reverse dependents (the forward-dependency fallback instead
sorts direct dependencies first, which can break the jaccard order, and no
path breaks jaccard ties by `sharedDependents`). -/
theorem results_bounded_and_ordered (env : Env) (pkg : String) (limit : ℕ)
    (restrict : Bool) (tsl mds mlc : Option ℕ) (cmds : Option ℕ) :
    (computeSimilarOnDemand env pkg limit restrict tsl mds mlc).length ≤ limit
    ∧ (computeSimilarOnDemand env pkg limit restrict tsl mds mlc).Pairwise
        (fun a b => b.jaccard ≤ a.jaccard)
    ∧ (computeCooccurrence env pkg limit cmds).length ≤ limit
    ∧ (0 < (getReverseDeps env pkg).length →
        (computeCooccurrence env pkg limit cmds).Pairwise
          (fun a b => b.jaccard ≤ a.jaccard)) := by
  refine ⟨length_computeSimilarOnDemand_le env pkg limit restrict tsl mds mlc,
    computeSimilarOnDemand_desc env pkg limit restrict tsl mds mlc, ?_, ?_⟩
  · unfold computeCooccurrence
    dsimp only
    exact length_le_ite _ _ _ _
      (length_computeCooccurrenceFromReverseDeps_le env pkg limit _ cmds)
      (length_computeCooccurrenceFromForwardDeps_le env pkg limit)
  · intro h
    unfold computeCooccurrence
    dsimp only
    rw [if_pos h]
    exact computeCooccurrenceFromReverseDeps_desc env pkg limit _ cmds

/-- Witness for **C5 (amended)** at a concrete environment with a nonempty
reverse-dependent set. -/
theorem results_bounded_and_ordered_witness :
    0 < (getReverseDeps revDepsEnv "p").length
    ∧ (computeCooccurrence revDepsEnv "p" 3 none).Pairwise
        (fun a b => b.jaccard ≤ a.jaccard)
    ∧ (computeSimilarOnDemand revDepsEnv "p" 3 false none none none).length
        ≤ 3 := by
  have h : 0 < (getReverseDeps revDepsEnv "p").length := by
    rw [show getReverseDeps revDepsEnv "p" = ["x"] from rfl]
    norm_num
  have hmain := results_bounded_and_ordered revDepsEnv "p" 3 false
    none none none none
  exact ⟨h, hmain.2.2.2 h, hmain.1⟩


/-- Concrete environment for the C5 counterexample: the query `"p"` has no
reverse dependents, its direct dependency `"a"` is popular, and the popular
package `"q"` shares both of the query's two dependencies. -/
def cooccurFwdEnv : Env :=
  { cache := fun _ => none
    fetchMeta := fun s =>
      if s = "p" then some ["a", "b"]
      else if s = "q" then some ["a", "b"] else none
    bitset := fun _ => []
    popular := ["a", "q"]
    uiFrameworks := []
    isUiFramework := fun _ => false }

lemma toFixed6_one : toFixed6 1 = 1 := by
  unfold toFixed6
  rw [show ⌊(1 : ℚ) * 1000000 + 1 / 2⌋ = 1000000 by
    rw [Int.floor_eq_iff]
    constructor <;> norm_num]
  norm_num

lemma toFixed6_half : toFixed6 (1 / 2) = 1 / 2 := by
  unfold toFixed6
  rw [show ⌊(1 : ℚ) / 2 * 1000000 + 1 / 2⌋ = 500000 by
    rw [Int.floor_eq_iff]
    constructor <;> norm_num]
  norm_num

lemma cooccurFwdEnv_eval : computeCooccurrence cooccurFwdEnv "p" 5 none
    = [⟨"a", 1 / 2, 1⟩, ⟨"q", 1, 2⟩] := by
  have h0 : computeCooccurrence cooccurFwdEnv "p" 5 none
      = computeCooccurrenceFromForwardDeps cooccurFwdEnv "p" 5 := rfl
  rw [h0]
  have na : normalizePackageName "a" = "a" := rfl
  have nb : normalizePackageName "b" = "b" := rfl
  have nq : normalizePackageName "q" = "q" := rfl
  have np : normalizePackageName "p" = "p" := rfl
  have d1 : ¬ (("a" : String) = "b") := by decide
  have d2 : ¬ (("b" : String) = "a") := by decide
  have d3 : ¬ (("a" : String) = "q") := by decide
  have d4 : ¬ (("q" : String) = "a") := by decide
  have d5 : ¬ (("a" : String) = "p") := by decide
  have d6 : ¬ (("p" : String) = "a") := by decide
  have d7 : ¬ (("b" : String) = "q") := by decide
  have d8 : ¬ (("q" : String) = "b") := by decide
  have d9 : ¬ (("b" : String) = "p") := by decide
  have d10 : ¬ (("p" : String) = "b") := by decide
  have d11 : ¬ (("q" : String) = "p") := by decide
  have d12 : ¬ (("p" : String) = "q") := by decide
  norm_num [computeCooccurrenceFromForwardDeps, cooccurFwdEnv,
    na, nb, nq, np, d1, d2, d3, d4, d5, d6, d7, d8, d9, d10, d11, d12,
    jsSetOfList, insertUnique, lookupCount, updateCount,
    getCooccurForwardDepsRatioThreshold, DEPS_COUNT_VERY_SMALL,
    MIN_RATIO_COOCCUR_VERY_SMALL_DEPS, COOCCUR_MULTIPLIER_PER_LIMIT,
    MAX_PACKAGES_TO_CHECK_COOCCUR, DIRECT_DEPENDENCY_BOOST_SCORE,
    List.mergeSort, List.merge, cooccurForwardLe, sharedThenJaccardDescLe,
    toFixed6_one, toFixed6_half, SimilarItem.mk.injEq]


/-- **C5 counterexample.** For the query `"p"` (no reverse dependents, direct
dependencies `"a"` and `"b"`, popular catalog `["a", "q"]`, and `"q"` sharing
both dependencies), `computeCooccurrence` returns the direct dependency `"a"`
with jaccard 1/2 ranked before `"q"` with jaccard 1: the list is not sorted
descending by jaccard, refuting the ordering half of the claim. -/
theorem cooccurrence_result_not_jaccard_sorted :
    ¬ (computeCooccurrence cooccurFwdEnv "p" 5 none).Pairwise
      (fun a b => b.jaccard ≤ a.jaccard) := by
  rw [cooccurFwdEnv_eval]
  intro hp
  have h := (List.pairwise_cons.mp hp).1 _ (List.mem_cons_self _ _)
  norm_num at h


/-! ## C8: direct dependencies in the co-occurrence fallback -/

lemma mem_insertUnique (l : List String) (x y : String) :
    y ∈ insertUnique l x ↔ y ∈ l ∨ y = x := by
  unfold insertUnique
  split
  · rename_i hx
    constructor
    · exact Or.inl
    · rintro (hy | rfl)
      · exact hy
      · exact hx
  · simp [List.mem_append]

lemma mem_foldl_insertUnique (l : List String) :
    ∀ (acc : List String) (y : String),
      y ∈ l.foldl insertUnique acc ↔ y ∈ acc ∨ y ∈ l := by
  induction l with
  | nil => intro acc y; simp
  | cons a t ih =>
    intro acc y
    rw [List.foldl_cons, ih, mem_insertUnique]
    simp only [List.mem_cons]
    tauto

lemma mem_jsSetOfList (l : List String) (y : String) :
    y ∈ jsSetOfList l ↔ y ∈ l := by
  unfold jsSetOfList
  rw [mem_foldl_insertUnique]
  simp

lemma cooccurForwardLe_total (S : List String) (a b : SimilarItem) :
    (cooccurForwardLe S a b || cooccurForwardLe S b a) = true := by
  unfold cooccurForwardLe
  by_cases ha : normalizePackageName a.name ∈ S <;>
    by_cases hb : normalizePackageName b.name ∈ S <;>
    simp [ha, hb, sharedThenJaccardDescLe_total a b]

lemma cooccurForwardLe_trans (S : List String) (a b c : SimilarItem)
    (hab : cooccurForwardLe S a b = true)
    (hbc : cooccurForwardLe S b c = true) :
    cooccurForwardLe S a c = true := by
  unfold cooccurForwardLe at hab hbc ⊢
  by_cases ha : normalizePackageName a.name ∈ S <;>
    by_cases hb : normalizePackageName b.name ∈ S <;>
    by_cases hc : normalizePackageName c.name ∈ S <;>
    simp [ha, hb, hc] at hab hbc ⊢ <;>
    exact sharedThenJaccardDescLe_trans a b c hab hbc

/-- Any sorted-then-truncated output of the forward co-occurrence comparator
ranks direct dependencies before non-direct entries. -/
lemma pairwise_direct_first (S : List String) (l : List SimilarItem) (n : ℕ) :
    ((l.mergeSort (cooccurForwardLe S)).take n).Pairwise
      (fun a b => normalizePackageName b.name ∈ S
        → normalizePackageName a.name ∈ S) := by
  refine List.Pairwise.sublist (List.take_sublist n _) ?_
  have hs := List.sorted_mergeSort (cooccurForwardLe_trans S)
    (cooccurForwardLe_total S) l
  refine hs.imp ?_
  intro a b hab hbS
  by_contra haS
  unfold cooccurForwardLe at hab
  rw [if_neg (by tauto), if_pos ⟨haS, hbS⟩] at hab
  exact Bool.false_ne_true hab

/-- An element satisfying a predicate that is closed upward in the list order
survives truncation when at most `n` elements satisfy the predicate. -/
lemma mem_take_of_partition (q : SimilarItem → Bool) :
    ∀ (s : List SimilarItem) (n : ℕ) (x : SimilarItem),
      s.Pairwise (fun a b => q b = true → q a = true) → x ∈ s → q x = true →
      (s.filter q).length ≤ n → x ∈ s.take n := by
  intro s
  induction s with
  | nil => intro n x _ hx; exact absurd hx (List.not_mem_nil x)
  | cons a t ih =>
    intro n x hpw hx hqx hcnt
    match n with
    | 0 =>
      exfalso
      have hxf : x ∈ (a :: t).filter q := List.mem_filter.mpr ⟨hx, hqx⟩
      have : 0 < ((a :: t).filter q).length := List.length_pos.mpr
        (List.ne_nil_of_mem hxf)
      omega
    | Nat.succ m =>
      rw [List.take_succ_cons]
      rcases List.mem_cons.mp hx with rfl | hxt
      · exact List.mem_cons_self _ _
      · have hqa : q a = true := (List.pairwise_cons.mp hpw).1 x hxt hqx
        have hcnt' : (t.filter q).length ≤ m := by
          rw [List.filter_cons_of_pos hqa] at hcnt
          simpa using hcnt
        exact List.mem_cons_of_mem a
          (ih m x (List.pairwise_cons.mp hpw).2 hxt hqx hcnt')


/-- The seeding step of `computeCooccurrenceFromForwardDeps`: direct
dependencies present in the popular catalog enter the map with count 1. -/
def cooccurSeedStep (popList : List String) (acc : List (String × ℕ))
    (dep : String) : List (String × ℕ) :=
  if normalizePackageName dep ∈ popList ∧ (lookupCount acc dep).isNone then
    acc ++ [(dep, 1)]
  else acc

/-- The seeded co-occurrence map (`cooccur` before the popular scan). -/
def cooccurSeeds (popList : List String) (pkgDeps : List String) :
    List (String × ℕ) :=
  pkgDeps.foldl (cooccurSeedStep popList) []

/-- One step of the popular-package scan of
`computeCooccurrenceFromForwardDeps`. -/
def cooccurMainStep (fetch : String → Option (List String)) (qn : String)
    (S : List String) (acc : List (String × ℕ)) (pop : String) :
    List (String × ℕ) :=
  let normalizedPop := normalizePackageName pop
  if normalizedPop = qn then acc
  else if normalizedPop ∈ S then acc
  else
    match fetch pop with
    | none => acc
    | some popDeps =>
      let popDepsSet := jsSetOfList (popDeps.map normalizePackageName)
      let sharedCount := (S.filter fun dep => dep ∈ popDepsSet).length
      if 0 < sharedCount then
        match lookupCount acc pop with
        | none => acc ++ [(pop, sharedCount)]
        | some c =>
          if c < sharedCount then updateCount acc pop sharedCount else acc
      else acc

/-- The completed co-occurrence map of the forward-dependency strategy. -/
def cooccurForwardTable (env : Env) (pkg : String) (limit : ℕ)
    (pkgDeps : List String) : List (String × ℕ) :=
  (env.popular.take (min env.popular.length
      (min (limit * COOCCUR_MULTIPLIER_PER_LIMIT)
        MAX_PACKAGES_TO_CHECK_COOCCUR))).foldl
    (cooccurMainStep env.fetchMeta (normalizePackageName pkg)
      (jsSetOfList (pkgDeps.map normalizePackageName)))
    (cooccurSeeds (env.popular.map normalizePackageName) pkgDeps)

/-- The scored item built from one co-occurrence entry (direct dependencies
get the boosted score). -/
def cooccurForwardItem (S : List String) (td : ℕ) (e : String × ℕ) :
    SimilarItem :=
  let baseScore : ℚ := (e.2 : ℚ) / (td : ℚ)
  let score :=
    if normalizePackageName e.1 ∈ S then
      max baseScore DIRECT_DEPENDENCY_BOOST_SCORE
    else baseScore
  ⟨e.1, toFixed6 score, e.2⟩

/-- The main ranked output (`coRes`) of the forward-dependency strategy. -/
def cooccurForwardRanked (env : Env) (pkg : String) (limit : ℕ)
    (pkgDeps : List String) : List SimilarItem :=
  let S := jsSetOfList (pkgDeps.map normalizePackageName)
  let td := pkgDeps.length
  ((((cooccurForwardTable env pkg limit pkgDeps).map
      (cooccurForwardItem S td)).filter
    fun r =>
      if normalizePackageName r.name ∈ S then true
      else 1 ≤ r.sharedDependents
        ∧ getCooccurForwardDepsRatioThreshold td ≤ r.jaccard).mergeSort
    (cooccurForwardLe S)).take limit

/-- The fallback chain taken when `coRes` is empty (relaxed rescore, then the
name-based fallback). -/
def cooccurForwardAlt (env : Env) (pkg : String) (limit : ℕ)
    (pkgDeps : List String) : List SimilarItem :=
  let td := pkgDeps.length
  let relaxed := ((((cooccurForwardTable env pkg limit pkgDeps).map fun e =>
      (⟨e.1, toFixed6 ((e.2 : ℚ) / (td : ℚ)), e.2⟩ : SimilarItem)).filter
    fun r => 1 ≤ r.sharedDependents
      ∧ RELAXED_JACCARD_MINIMUM ≤ r.jaccard).mergeSort
    sharedThenJaccardDescLe).take limit
  if 0 < relaxed.length then relaxed
  else computeCooccurrenceNameBasedFallback env pkg limit

/-- The forward-dependency strategy decomposed into its named stages. -/
lemma forward_structure (env : Env) (pkg : String) (limit : ℕ)
    (pkgDeps : List String) (hmeta : env.fetchMeta pkg = some pkgDeps)
    (hne : ¬ (pkgDeps.length = 0)) :
    computeCooccurrenceFromForwardDeps env pkg limit
      = if 0 < (cooccurForwardRanked env pkg limit pkgDeps).length
        then cooccurForwardRanked env pkg limit pkgDeps
        else cooccurForwardAlt env pkg limit pkgDeps := by
  unfold computeCooccurrenceFromForwardDeps
  rw [hmeta]
  dsimp only
  rw [if_neg hne]
  rfl


lemma exists_key_of_lookup_not_none (m : List (String × ℕ)) (k : String)
    (h : ¬ (lookupCount m k).isNone = true) : ∃ e ∈ m, e.1 = k := by
  unfold lookupCount at h
  cases hfind : m.find? (fun e => e.1 = k) with
  | none => rw [hfind] at h; simp at h
  | some e =>
    refine ⟨e, List.mem_of_find?_eq_some hfind, ?_⟩
    have := List.find?_some hfind
    simpa using this

lemma key_mem_cooccurSeedStep (popList : List String)
    (acc : List (String × ℕ)) (dep d : String)
    (h : ∃ e ∈ acc, e.1 = d) :
    ∃ e ∈ cooccurSeedStep popList acc dep, e.1 = d := by
  rcases h with ⟨e, he, hed⟩
  unfold cooccurSeedStep
  split
  · exact ⟨e, List.mem_append_left _ he, hed⟩
  · exact ⟨e, he, hed⟩

lemma cooccurSeeds_key_aux (popList : List String) :
    ∀ (l : List String) (acc : List (String × ℕ)) (d : String),
      ((∃ e ∈ acc, e.1 = d)
        ∨ (d ∈ l ∧ normalizePackageName d ∈ popList)) →
      ∃ e ∈ l.foldl (cooccurSeedStep popList) acc, e.1 = d := by
  intro l
  induction l with
  | nil =>
    rintro acc d (h | ⟨hd, _⟩)
    · exact h
    · exact absurd hd (List.not_mem_nil d)
  | cons a t ih =>
    rintro acc d hcase
    rw [List.foldl_cons]
    rcases hcase with h | ⟨hd, hpop⟩
    · exact ih _ d (Or.inl (key_mem_cooccurSeedStep popList acc a d h))
    · rcases List.mem_cons.mp hd with rfl | hdt
      · by_cases hnone : (lookupCount acc d).isNone = true
        · refine ih _ d (Or.inl ?_)
          unfold cooccurSeedStep
          rw [if_pos ⟨hpop, hnone⟩]
          exact ⟨(d, 1), List.mem_append_right _ (List.mem_singleton_self _), rfl⟩
        · exact ih _ d (Or.inl (key_mem_cooccurSeedStep popList acc d d
            (exists_key_of_lookup_not_none acc d hnone)))
      · exact ih _ d (Or.inr ⟨hdt, hpop⟩)

lemma cooccurSeeds_key (popList : List String) (pkgDeps : List String)
    (d : String) (hd : d ∈ pkgDeps)
    (hpop : normalizePackageName d ∈ popList) :
    ∃ e ∈ cooccurSeeds popList pkgDeps, e.1 = d :=
  cooccurSeeds_key_aux popList pkgDeps [] d (Or.inr ⟨hd, hpop⟩)

lemma cooccurSeeds_length_aux (popList : List String) :
    ∀ (l : List String) (acc : List (String × ℕ)),
      (l.foldl (cooccurSeedStep popList) acc).length
        ≤ acc.length
          + (l.filter fun x => normalizePackageName x ∈ popList).length := by
  intro l
  induction l with
  | nil => intro acc; simp
  | cons a t ih =>
    intro acc
    rw [List.foldl_cons]
    by_cases hpa : normalizePackageName a ∈ popList
    · rw [List.filter_cons_of_pos (by simpa using hpa)]
      have hstep : (cooccurSeedStep popList acc a).length ≤ acc.length + 1 := by
        unfold cooccurSeedStep
        split
        · simp
        · simp
      have := ih (cooccurSeedStep popList acc a)
      simp only [List.length_cons]
      omega
    · rw [List.filter_cons_of_neg (by simpa using hpa)]
      have hstep : cooccurSeedStep popList acc a = acc := by
        unfold cooccurSeedStep
        rw [if_neg (fun hc => hpa hc.1)]
      rw [hstep]
      exact ih acc

lemma cooccurSeeds_length (popList : List String) (pkgDeps : List String) :
    (cooccurSeeds popList pkgDeps).length
      ≤ (pkgDeps.filter fun x => normalizePackageName x ∈ popList).length := by
  have := cooccurSeeds_length_aux popList pkgDeps []
  simpa using this

lemma key_mem_updateCount (m : List (String × ℕ)) (k : String) (v : ℕ)
    (d : String) (h : ∃ e ∈ m, e.1 = d) :
    ∃ e ∈ updateCount m k v, e.1 = d := by
  rcases h with ⟨e, he, hed⟩
  unfold updateCount
  by_cases hek : e.1 = k
  · refine ⟨(k, v), List.mem_map.mpr ⟨e, he, by rw [if_pos hek]⟩, ?_⟩
    rw [← hek, hed]
  · exact ⟨e, List.mem_map.mpr ⟨e, he, by rw [if_neg hek]⟩, hed⟩

lemma key_mem_cooccurMainStep (fetch : String → Option (List String))
    (qn : String) (S : List String) (acc : List (String × ℕ)) (pop d : String)
    (h : ∃ e ∈ acc, e.1 = d) :
    ∃ e ∈ cooccurMainStep fetch qn S acc pop, e.1 = d := by
  unfold cooccurMainStep
  dsimp only
  repeat' split
  all_goals first
    | exact h
    | (rcases h with ⟨e, he, hed⟩
       exact ⟨e, List.mem_append_left _ he, hed⟩)
    | exact key_mem_updateCount acc pop _ d h

lemma filter_length_updateCount (m : List (String × ℕ)) (k : String) (v : ℕ)
    (q : String → Bool) :
    ((updateCount m k v).filter fun e => q e.1).length
      = (m.filter fun e => q e.1).length := by
  unfold updateCount
  rw [List.filter_map]
  rw [List.length_map]
  congr 1
  apply List.filter_congr
  intro e _
  dsimp only [Function.comp]
  by_cases hek : e.1 = k
  · rw [if_pos hek, hek]
  · rw [if_neg hek]

lemma filter_length_cooccurMainStep (fetch : String → Option (List String))
    (qn : String) (S : List String) (acc : List (String × ℕ)) (pop : String) :
    ((cooccurMainStep fetch qn S acc pop).filter
        fun e => normalizePackageName e.1 ∈ S).length
      = (acc.filter fun e => normalizePackageName e.1 ∈ S).length := by
  unfold cooccurMainStep
  dsimp only
  by_cases h1 : normalizePackageName pop = qn
  · rw [if_pos h1]
  · rw [if_neg h1]
    by_cases h2 : normalizePackageName pop ∈ S
    · rw [if_pos h2]
    · rw [if_neg h2]
      cases fetch pop with
      | none => rfl
      | some popDeps =>
        dsimp only
        split
        · split
          · rw [List.filter_append]
            rw [List.filter_cons_of_neg (by simpa using h2)]
            simp
          · split
            · exact filter_length_updateCount acc pop _
                (fun s => decide (normalizePackageName s ∈ S))
            · rfl
        · rfl


lemma pairwise_direct_first_sorted (S : List String) (l : List SimilarItem) :
    (l.mergeSort (cooccurForwardLe S)).Pairwise
      (fun a b => normalizePackageName b.name ∈ S
        → normalizePackageName a.name ∈ S) := by
  have hs := List.sorted_mergeSort (cooccurForwardLe_trans S)
    (cooccurForwardLe_total S) l
  refine hs.imp ?_
  intro a b hab hbS
  by_contra haS
  unfold cooccurForwardLe at hab
  rw [if_neg (by tauto), if_pos ⟨haS, hbS⟩] at hab
  exact Bool.false_ne_true hab

lemma cooccurForwardTable_key (env : Env) (pkg : String) (limit : ℕ)
    (pkgDeps : List String) (d : String) (hd : d ∈ pkgDeps)
    (hpop : normalizePackageName d ∈ env.popular.map normalizePackageName) :
    ∃ e ∈ cooccurForwardTable env pkg limit pkgDeps, e.1 = d := by
  unfold cooccurForwardTable
  refine foldl_mem_invariant
    (fun (m : List (String × ℕ)) => ∃ e ∈ m, e.1 = d) _ _ _ ?_ ?_
  · exact cooccurSeeds_key _ pkgDeps d hd hpop
  · intro b a hb
    exact key_mem_cooccurMainStep env.fetchMeta _ _ b a d hb

lemma cooccurForwardTable_direct_count (env : Env) (pkg : String) (limit : ℕ)
    (pkgDeps : List String)
    (hcap : (pkgDeps.filter fun x =>
        normalizePackageName x ∈ env.popular.map normalizePackageName).length
      ≤ limit) :
    ((cooccurForwardTable env pkg limit pkgDeps).filter
        fun e => normalizePackageName e.1
          ∈ jsSetOfList (pkgDeps.map normalizePackageName)).length ≤ limit := by
  unfold cooccurForwardTable
  refine foldl_mem_invariant
    (fun (m : List (String × ℕ)) => (m.filter
      fun e => normalizePackageName e.1
        ∈ jsSetOfList (pkgDeps.map normalizePackageName)).length ≤ limit)
    _ _ _ ?_ ?_
  · have h1 := List.length_filter_le
      (fun (e : String × ℕ) => decide (normalizePackageName e.1
        ∈ jsSetOfList (pkgDeps.map normalizePackageName)))
      (cooccurSeeds (env.popular.map normalizePackageName) pkgDeps)
    have h2 := cooccurSeeds_length (env.popular.map normalizePackageName)
      pkgDeps
    omega
  · intro b a hb
    rw [filter_length_cooccurMainStep]
    exact hb

lemma cooccurForwardRanked_spec (env : Env) (pkg : String) (limit : ℕ)
    (pkgDeps : List String) (d : String) (hd : d ∈ pkgDeps)
    (hpop : normalizePackageName d ∈ env.popular.map normalizePackageName)
    (hcap : (pkgDeps.filter fun x =>
        normalizePackageName x ∈ env.popular.map normalizePackageName).length
      ≤ limit) :
    (∃ x ∈ cooccurForwardRanked env pkg limit pkgDeps, x.name = d)
    ∧ (cooccurForwardRanked env pkg limit pkgDeps).Pairwise
        (fun a b =>
          normalizePackageName b.name
              ∈ jsSetOfList (pkgDeps.map normalizePackageName)
            → normalizePackageName a.name
              ∈ jsSetOfList (pkgDeps.map normalizePackageName)) := by
  have hS : normalizePackageName d
      ∈ jsSetOfList (pkgDeps.map normalizePackageName) :=
    (mem_jsSetOfList _ _).mpr (List.mem_map_of_mem _ hd)
  unfold cooccurForwardRanked
  dsimp only
  constructor
  · obtain ⟨e, he, hed⟩ := cooccurForwardTable_key env pkg limit pkgDeps d
      hd hpop
    have hnameS : normalizePackageName
        (cooccurForwardItem (jsSetOfList (pkgDeps.map normalizePackageName))
          pkgDeps.length e).name
        ∈ jsSetOfList (pkgDeps.map normalizePackageName) := by
      show normalizePackageName e.1 ∈ jsSetOfList (pkgDeps.map normalizePackageName)
      rw [hed]
      exact hS
    refine ⟨cooccurForwardItem (jsSetOfList (pkgDeps.map normalizePackageName))
      pkgDeps.length e, ?_, hed⟩
    apply mem_take_of_partition
      (fun r => decide (normalizePackageName r.name
        ∈ jsSetOfList (pkgDeps.map normalizePackageName)))
    · exact (pairwise_direct_first_sorted _ _).imp
        (fun h hq => decide_eq_true (h (of_decide_eq_true hq)))
    · refine (List.mergeSort_perm _ _).mem_iff.mpr ?_
      refine List.mem_filter.mpr ⟨List.mem_map_of_mem _ he, ?_⟩
      rw [if_pos hnameS]
    · exact decide_eq_true hnameS
    · -- at most `limit` direct entries survive into the sorted list
      have hperm := (List.mergeSort_perm
        (((cooccurForwardTable env pkg limit pkgDeps).map
          (cooccurForwardItem (jsSetOfList (pkgDeps.map normalizePackageName))
            pkgDeps.length)).filter fun r =>
            if normalizePackageName r.name
                ∈ jsSetOfList (pkgDeps.map normalizePackageName) then true
            else decide (1 ≤ r.sharedDependents
              ∧ getCooccurForwardDepsRatioThreshold pkgDeps.length ≤ r.jaccard))
        (cooccurForwardLe (jsSetOfList (pkgDeps.map normalizePackageName)))).filter
        (fun r => decide (normalizePackageName r.name
          ∈ jsSetOfList (pkgDeps.map normalizePackageName)))
      rw [hperm.length_eq]
      rw [List.filter_filter]
      have hcong : ∀ r ∈ (cooccurForwardTable env pkg limit pkgDeps).map
          (cooccurForwardItem (jsSetOfList (pkgDeps.map normalizePackageName))
            pkgDeps.length),
          (decide (normalizePackageName r.name
              ∈ jsSetOfList (pkgDeps.map normalizePackageName))
            && (if normalizePackageName r.name
                ∈ jsSetOfList (pkgDeps.map normalizePackageName) then true
              else decide (1 ≤ r.sharedDependents
                ∧ getCooccurForwardDepsRatioThreshold pkgDeps.length
                  ≤ r.jaccard)))
          = decide (normalizePackageName r.name
              ∈ jsSetOfList (pkgDeps.map normalizePackageName)) := by
        intro r _
        by_cases hr : normalizePackageName r.name
            ∈ jsSetOfList (pkgDeps.map normalizePackageName)
        · rw [if_pos hr, decide_eq_true hr, Bool.and_self]
        · rw [decide_eq_false hr, Bool.false_and]
      rw [List.filter_congr hcong]
      rw [List.filter_map, List.length_map]
      rw [List.filter_congr (fun e _ => (rfl :
        ((fun r => decide (normalizePackageName r.name
            ∈ jsSetOfList (pkgDeps.map normalizePackageName)))
          ∘ cooccurForwardItem (jsSetOfList (pkgDeps.map normalizePackageName))
            pkgDeps.length) e
        = decide (normalizePackageName e.1
            ∈ jsSetOfList (pkgDeps.map normalizePackageName))))]
      exact cooccurForwardTable_direct_count env pkg limit pkgDeps hcap
  · exact pairwise_direct_first _ _ limit


/-- **C8 (amended).** When the query has no reverse dependents, only the direct
dependencies that are present in the popular catalog are guaranteed:
whenever such a dependency exists (and the popular direct dependencies fit in
the limit), it appears in the returned list, and every direct dependency is
ranked before every non-direct entry. A direct dependency absent from the
popular catalog can be missing entirely. -/
theorem cooccurrence_popular_direct_deps (env : Env) (pkg : String)
    (limit : ℕ) (cmds : Option ℕ) (pkgDeps : List String) (d : String)
    (hbase : (getReverseDeps env pkg).length = 0)
    (hmeta : env.fetchMeta pkg = some pkgDeps)
    (hcap : (pkgDeps.filter fun x =>
        normalizePackageName x ∈ env.popular.map normalizePackageName).length
      ≤ limit)
    (hd : d ∈ pkgDeps)
    (hpop : normalizePackageName d ∈ env.popular.map normalizePackageName) :
    (∃ x ∈ computeCooccurrence env pkg limit cmds, x.name = d)
    ∧ (computeCooccurrence env pkg limit cmds).Pairwise
        (fun a b =>
          normalizePackageName b.name
              ∈ jsSetOfList (pkgDeps.map normalizePackageName)
            → normalizePackageName a.name
              ∈ jsSetOfList (pkgDeps.map normalizePackageName)) := by
  have hne : ¬ (pkgDeps.length = 0) := by
    intro h0
    rw [List.length_eq_zero] at h0
    subst h0
    exact absurd hd (List.not_mem_nil d)
  have hcc : computeCooccurrence env pkg limit cmds
      = computeCooccurrenceFromForwardDeps env pkg limit := by
    unfold computeCooccurrence
    dsimp only
    rw [if_neg (by omega)]
  rw [hcc, forward_structure env pkg limit pkgDeps hmeta hne]
  obtain ⟨⟨x, hx, hxd⟩, hpw⟩ := cooccurForwardRanked_spec env pkg limit
    pkgDeps d hd hpop hcap
  have hposlen : 0 < (cooccurForwardRanked env pkg limit pkgDeps).length :=
    List.length_pos.mpr (List.ne_nil_of_mem hx)
  rw [if_pos hposlen]
  exact ⟨⟨x, hx, hxd⟩, hpw⟩

/-- A popular direct dependency for the C8 witness. -/
def c8WitnessEnv : Env :=
  { cache := fun _ => none
    fetchMeta := fun s => if s = "p" then some ["a"] else none
    bitset := fun _ => []
    popular := ["a"]
    uiFrameworks := []
    isUiFramework := fun _ => false }

/-- Witness for **C8 (amended)**: the popular direct dependency `"a"` is in
the co-occurrence output for `"p"`. -/
theorem cooccurrence_popular_direct_deps_witness :
    (∃ x ∈ computeCooccurrence c8WitnessEnv "p" 1 none, x.name = "a")
    ∧ (computeCooccurrence c8WitnessEnv "p" 1 none).Pairwise
        (fun a b =>
          normalizePackageName b.name
              ∈ jsSetOfList (["a"].map normalizePackageName)
            → normalizePackageName a.name
              ∈ jsSetOfList (["a"].map normalizePackageName)) :=
  cooccurrence_popular_direct_deps c8WitnessEnv "p" 1 none ["a"] "a"
    rfl rfl (by decide) (by decide) (by decide)

/-- The C8 counterexample environment: the query's only direct dependency is
not in the (empty) popular catalog. -/
def cooccurMissEnv : Env :=
  { cache := fun _ => none
    fetchMeta := fun s => if s = "p" then some ["d"] else none
    bitset := fun _ => []
    popular := []
    uiFrameworks := []
    isUiFramework := fun _ => false }

/-- **C8 counterexample.** The query `"p"` has an empty reverse-dependent set
and the direct dependency `"d"`, yet `"d"` does not appear in the
co-occurrence output (the output is empty), because direct dependencies are
seeded only when they belong to the popular catalog. -/
theorem direct_dependency_missing_from_cooccurrence :
    (getReverseDeps cooccurMissEnv "p").length = 0
    ∧ "d" ∈ (cooccurMissEnv.fetchMeta "p").getD []
    ∧ ∀ x ∈ computeCooccurrence cooccurMissEnv "p" 5 none, x.name ≠ "d" := by
  refine ⟨rfl, by decide, ?_⟩
  have heval : computeCooccurrence cooccurMissEnv "p" 5 none = [] := by
    have h0 : computeCooccurrence cooccurMissEnv "p" 5 none
        = computeCooccurrenceFromForwardDeps cooccurMissEnv "p" 5 := rfl
    rw [h0, forward_structure cooccurMissEnv "p" 5 ["d"] rfl (by decide)]
    have ht : cooccurForwardTable cooccurMissEnv "p" 5 ["d"] = [] := rfl
    rw [show cooccurForwardRanked cooccurMissEnv "p" 5 ["d"] = [] by
      unfold cooccurForwardRanked
      dsimp only
      rw [ht]
      simp]
    rw [show cooccurForwardAlt cooccurMissEnv "p" 5 ["d"] = [] by
      unfold cooccurForwardAlt
      dsimp only
      rw [ht]
      simp [computeCooccurrenceNameBasedFallback, cooccurMissEnv,
        MAX_POPULAR_FOR_NAME_BASED]]
    simp
  rw [heval]
  intro x hx
  exact absurd hx (List.not_mem_nil x)


/-! ## C9: retry with backoff in `fetchJsonWithCache` (`lib/pypi.ts`,
`src/README.md`; sequential semantics — the outcome of the `k`-th attempt and
the `k`-th jitter draw are oracles) -/

def MAX_RETRY_ATTEMPTS : ℕ := 5
def RETRY_INITIAL_DELAY_MS : ℕ := 1000
def RETRY_MAX_DELAY_MS : ℕ := 10000
def RETRY_JITTER_MS : ℕ := 500

/-- A JavaScript error value as observed by the retry loop: its `code`
property, its `String(err)` rendering, and its `status` property. -/
structure JsError where
  code : Option String
  msg : String
  status : Option ℕ
deriving DecidableEq, Repr

def retryableCodes : List String :=
  ["ECONNREFUSED", "ETIMEDOUT", "ENOTFOUND", "ECONNRESET", "EAI_AGAIN"]

def retryableMessages : List String :=
  ["network", "timeout", "connection", "failed to fetch", "fetch failed"]

/-- `isRetryableError` from `lib/pypi.ts`. -/
def isRetryableError (e : JsError) : Bool :=
  match e.code with
  | some c =>
    if c ∈ retryableCodes then true
    else retryableMessages.any fun p => jsIncludes (jsToLowerCase e.msg) p
  | none => retryableMessages.any fun p => jsIncludes (jsToLowerCase e.msg) p

/-- The `shouldRetry` test of the catch block:
`isRetryableError(err) || err.status === 429 || (err.status || 0) >= 500`. -/
def shouldRetry (e : JsError) : Bool :=
  isRetryableError e || decide (e.status = some 429)
    || decide (500 ≤ e.status.getD 0)

/-- The `new Error("HTTP " + status + " for " + url)` thrown for a non-ok
response (rendered through `String(err)`). -/
def httpError (s : ℕ) (url : String) : JsError :=
  { code := none
    msg := "Error: HTTP " ++ toString s ++ " for " ++ url
    status := none }

/-- The `throw lastError || new Error("Max retry attempts reached")`
fallback. -/
def maxRetryError : JsError :=
  { code := none, msg := "Max retry attempts reached", status := none }

/-- The observable result of one fetch attempt: a parsed body, a non-ok
HTTP status, or a thrown error (timeout, connection failure, JSON error). -/
inductive FetchOutcome where
  | success (v : ℕ)
  | badStatus (s : ℕ)
  | failure (e : JsError)
deriving DecidableEq, Repr

/-- `Math.min(RETRY_INITIAL_DELAY_MS * 2 ** (attempt - 1),
RETRY_MAX_DELAY_MS) + Math.floor(Math.random() * RETRY_JITTER_MS)`. -/
def retryDelay (a : ℕ) (jitter : ℕ → ℕ) : ℕ :=
  min (RETRY_INITIAL_DELAY_MS * 2 ^ (a - 1)) RETRY_MAX_DELAY_MS + jitter a

/-- The `while (attempt < MAX_RETRY_ATTEMPTS)` loop of `fetchJsonWithCache`,
returning the result together with the list of retry delays slept. The loop
runs at most `MAX_RETRY_ATTEMPTS - attempt` more iterations, so that bound is
carried as structural fuel (`fuel = MAX_RETRY_ATTEMPTS - attempt` at every
call, enforced by the wrapper below); `fuel = 0` is the fall-through
`throw lastError || new Error("Max retry attempts reached")`. -/
def fetchLoop (url : String) (outcome : ℕ → FetchOutcome) (jitter : ℕ → ℕ) :
    ℕ → ℕ → Option JsError → Except JsError ℕ × List ℕ
  | 0, _, lastError => (Except.error (lastError.getD maxRetryError), [])
  | fuel + 1, attempt, lastError =>
    match outcome (attempt + 1) with
    | FetchOutcome.success v => (Except.ok v, [])
    | FetchOutcome.badStatus s =>
      if (s = 429 ∨ 500 ≤ s) ∧ attempt + 1 < MAX_RETRY_ATTEMPTS then
        let rest := fetchLoop url outcome jitter fuel (attempt + 1) lastError
        (rest.1, retryDelay (attempt + 1) jitter :: rest.2)
      else
        if shouldRetry (httpError s url) = true
            ∧ attempt + 1 < MAX_RETRY_ATTEMPTS then
          let rest := fetchLoop url outcome jitter fuel (attempt + 1)
            (some (httpError s url))
          (rest.1, retryDelay (attempt + 1) jitter :: rest.2)
        else (Except.error (httpError s url), [])
    | FetchOutcome.failure e =>
      if shouldRetry e = true ∧ attempt + 1 < MAX_RETRY_ATTEMPTS then
        let rest := fetchLoop url outcome jitter fuel (attempt + 1) (some e)
        (rest.1, retryDelay (attempt + 1) jitter :: rest.2)
      else (Except.error e, [])

/-- `fetchJsonWithCache` (LRU hit short-circuits, otherwise the retry
loop runs from attempt 0 with no recorded error). -/
def fetchJsonWithCache (cached : Option ℕ) (url : String)
    (outcome : ℕ → FetchOutcome) (jitter : ℕ → ℕ) :
    Except JsError ℕ × List ℕ :=
  match cached with
  | some v => (Except.ok v, [])
  | none => fetchLoop url outcome jitter MAX_RETRY_ATTEMPTS 0 none

lemma fetchLoop_spec (url : String) (outcome : ℕ → FetchOutcome)
    (jitter : ℕ → ℕ) :
    ∀ (fuel attempt : ℕ) (lastError : Option JsError),
      attempt + fuel = MAX_RETRY_ATTEMPTS → attempt < MAX_RETRY_ATTEMPTS →
      (fetchLoop url outcome jitter fuel attempt lastError).2.length
          + attempt + 1 ≤ MAX_RETRY_ATTEMPTS
      ∧ (∀ i, (h : i < (fetchLoop url outcome jitter fuel attempt
            lastError).2.length)
          → (fetchLoop url outcome jitter fuel attempt lastError).2.get ⟨i, h⟩
            = min (RETRY_INITIAL_DELAY_MS * 2 ^ (attempt + i))
                RETRY_MAX_DELAY_MS
              + jitter (attempt + i + 1))
      ∧ (∀ v, (fetchLoop url outcome jitter fuel attempt lastError).1
            = Except.ok v
          → outcome (attempt + (fetchLoop url outcome jitter fuel attempt
              lastError).2.length + 1) = FetchOutcome.success v)
      ∧ (∀ e, (fetchLoop url outcome jitter fuel attempt lastError).1
            = Except.error e
          → outcome (attempt + (fetchLoop url outcome jitter fuel attempt
                lastError).2.length + 1) = FetchOutcome.failure e
            ∨ ∃ s, outcome (attempt + (fetchLoop url outcome jitter fuel
                  attempt lastError).2.length + 1)
                = FetchOutcome.badStatus s ∧ e = httpError s url) := by
  intro fuel
  induction fuel with
  | zero =>
    intro attempt lastError hfuel hlt
    omega
  | succ fuel ih =>
    intro attempt lastError hfuel hlt
    cases houtcome : outcome (attempt + 1) with
    | success v =>
      have hstep : fetchLoop url outcome jitter (fuel + 1) attempt lastError
          = (Except.ok v, []) := by
        rw [fetchLoop, houtcome]
      rw [hstep]
      refine ⟨by simpa using hlt, ?_, ?_, ?_⟩
      · intro i h
        simp at h
      · intro w hw
        simp only [List.length_nil]
        rw [houtcome]
        cases hw
        rfl
      · intro e he
        simp at he
    | badStatus s =>
      by_cases hc1 : (s = 429 ∨ 500 ≤ s) ∧ attempt + 1 < MAX_RETRY_ATTEMPTS
      · have hstep : fetchLoop url outcome jitter (fuel + 1) attempt lastError
            = ((fetchLoop url outcome jitter fuel (attempt + 1) lastError).1,
              retryDelay (attempt + 1) jitter
                :: (fetchLoop url outcome jitter fuel (attempt + 1) lastError).2) := by
          rw [fetchLoop, houtcome]
          dsimp only
          rw [if_pos hc1]
        rw [hstep]
        have ihr := ih (attempt + 1) lastError (by omega) hc1.2
        refine ⟨by simp only [List.length_cons]; omega, ?_, ?_, ?_⟩
        · intro i h
          match i with
          | 0 =>
            show retryDelay (attempt + 1) jitter = _
            unfold retryDelay
            simp
          | Nat.succ j =>
            have hj : j < (fetchLoop url outcome jitter fuel (attempt + 1)
                lastError).2.length := by
              simpa using h
            have hjj := ihr.2.1 j hj
            show (fetchLoop url outcome jitter fuel (attempt + 1) lastError).2.get
              ⟨j, hj⟩ = _
            have hidx : attempt + 1 + j = attempt + Nat.succ j := by omega
            rw [hjj, hidx]
        · intro v hv
          have hvv := ihr.2.2.1 v hv
          rw [← hvv]
          congr 1
          simp only [List.length_cons]
          omega
        · intro e₀ he₀
          rcases ihr.2.2.2 e₀ he₀ with h | ⟨s₀, hs₀, hes⟩
          · left
            rw [← h]
            congr 1
            simp only [List.length_cons]
            omega
          · right
            refine ⟨s₀, ?_, hes⟩
            rw [← hs₀]
            congr 1
            simp only [List.length_cons]
            omega
      · by_cases hc2 : shouldRetry (httpError s url) = true
            ∧ attempt + 1 < MAX_RETRY_ATTEMPTS
        · have hstep : fetchLoop url outcome jitter (fuel + 1) attempt lastError
              = ((fetchLoop url outcome jitter fuel (attempt + 1) (some (httpError s url))).1,
                retryDelay (attempt + 1) jitter
                  :: (fetchLoop url outcome jitter fuel (attempt + 1) (some (httpError s url))).2) := by
            rw [fetchLoop, houtcome]
            dsimp only
            rw [if_neg hc1, if_pos hc2]
          rw [hstep]
          have ihr := ih (attempt + 1) (some (httpError s url)) (by omega) hc2.2
          refine ⟨by simp only [List.length_cons]; omega, ?_, ?_, ?_⟩
          · intro i h
            match i with
            | 0 =>
              show retryDelay (attempt + 1) jitter = _
              unfold retryDelay
              simp
            | Nat.succ j =>
              have hj : j < (fetchLoop url outcome jitter fuel (attempt + 1)
                  (some (httpError s url))).2.length := by
                simpa using h
              have hjj := ihr.2.1 j hj
              show (fetchLoop url outcome jitter fuel (attempt + 1) (some (httpError s url))).2.get
                ⟨j, hj⟩ = _
              have hidx : attempt + 1 + j = attempt + Nat.succ j := by omega
              rw [hjj, hidx]
          · intro v hv
            have hvv := ihr.2.2.1 v hv
            rw [← hvv]
            congr 1
            simp only [List.length_cons]
            omega
          · intro e₀ he₀
            rcases ihr.2.2.2 e₀ he₀ with h | ⟨s₀, hs₀, hes⟩
            · left
              rw [← h]
              congr 1
              simp only [List.length_cons]
              omega
            · right
              refine ⟨s₀, ?_, hes⟩
              rw [← hs₀]
              congr 1
              simp only [List.length_cons]
              omega
        · have hstep : fetchLoop url outcome jitter (fuel + 1) attempt
              lastError = (Except.error (httpError s url), []) := by
            rw [fetchLoop, houtcome]
            dsimp only
            rw [if_neg hc1, if_neg hc2]
          rw [hstep]
          refine ⟨by simpa using hlt, ?_, ?_, ?_⟩
          · intro i h
            simp at h
          · intro v hv
            simp at hv
          · intro e he
            right
            refine ⟨s, ?_, ?_⟩
            · simp only [List.length_nil]
              rw [houtcome]
            · cases he
              rfl
    | failure e =>
      by_cases hc : shouldRetry e = true ∧ attempt + 1 < MAX_RETRY_ATTEMPTS
      · have hstep : fetchLoop url outcome jitter (fuel + 1) attempt lastError
            = ((fetchLoop url outcome jitter fuel (attempt + 1) (some e)).1,
              retryDelay (attempt + 1) jitter
                :: (fetchLoop url outcome jitter fuel (attempt + 1) (some e)).2) := by
          rw [fetchLoop, houtcome]
          dsimp only
          rw [if_pos hc]
        rw [hstep]
        have ihr := ih (attempt + 1) (some e) (by omega) hc.2
        refine ⟨by simp only [List.length_cons]; omega, ?_, ?_, ?_⟩
        · intro i h
          match i with
          | 0 =>
            show retryDelay (attempt + 1) jitter = _
            unfold retryDelay
            simp
          | Nat.succ j =>
            have hj : j < (fetchLoop url outcome jitter fuel (attempt + 1)
                (some e)).2.length := by
              simpa using h
            have hjj := ihr.2.1 j hj
            show (fetchLoop url outcome jitter fuel (attempt + 1) (some e)).2.get
              ⟨j, hj⟩ = _
            have hidx : attempt + 1 + j = attempt + Nat.succ j := by omega
            rw [hjj, hidx]
        · intro v hv
          have hvv := ihr.2.2.1 v hv
          rw [← hvv]
          congr 1
          simp only [List.length_cons]
          omega
        · intro e₀ he₀
          rcases ihr.2.2.2 e₀ he₀ with h | ⟨s₀, hs₀, hes⟩
          · left
            rw [← h]
            congr 1
            simp only [List.length_cons]
            omega
          · right
            refine ⟨s₀, ?_, hes⟩
            rw [← hs₀]
            congr 1
            simp only [List.length_cons]
            omega
      · have hstep : fetchLoop url outcome jitter (fuel + 1) attempt lastError
            = (Except.error e, []) := by
          rw [fetchLoop, houtcome]
          dsimp only
          rw [if_neg hc]
        rw [hstep]
        refine ⟨by simpa using hlt, ?_, ?_, ?_⟩
        · intro i h
          simp at h
        · intro v hv
          simp at hv
        · intro e₀ he₀
          left
          simp only [List.length_nil]
          rw [houtcome]
          cases he₀
          rfl


/-- **C9.** The retry loop of `fetchJsonWithCache` makes at most
`MAX_RETRY_ATTEMPTS` attempts in total; before the `(i+1)`-st retry it sleeps
`min(RETRY_INITIAL_DELAY_MS * 2^i, RETRY_MAX_DELAY_MS)` plus the `(i+1)`-st
jitter draw; a success is always the genuine result of the last attempt made;
a surfaced error is always the error of the last attempt made (after
exhaustion the last error propagates, never a silent empty success); and a
non-retryable failure on the first attempt propagates immediately with no
retry delay. -/
theorem fetch_retry_spec (url : String) (outcome : ℕ → FetchOutcome)
    (jitter : ℕ → ℕ) :
    (fetchJsonWithCache none url outcome jitter).2.length + 1
      ≤ MAX_RETRY_ATTEMPTS
    ∧ (∀ i, (h : i < (fetchJsonWithCache none url outcome jitter).2.length)
        → (fetchJsonWithCache none url outcome jitter).2.get ⟨i, h⟩
          = min (RETRY_INITIAL_DELAY_MS * 2 ^ i) RETRY_MAX_DELAY_MS
            + jitter (i + 1))
    ∧ (∀ v, (fetchJsonWithCache none url outcome jitter).1 = Except.ok v
        → outcome ((fetchJsonWithCache none url outcome jitter).2.length + 1)
          = FetchOutcome.success v)
    ∧ (∀ e, (fetchJsonWithCache none url outcome jitter).1 = Except.error e
        → outcome ((fetchJsonWithCache none url outcome jitter).2.length + 1)
            = FetchOutcome.failure e
          ∨ ∃ s, outcome
                ((fetchJsonWithCache none url outcome jitter).2.length + 1)
              = FetchOutcome.badStatus s ∧ e = httpError s url)
    ∧ (∀ e, outcome 1 = FetchOutcome.failure e → shouldRetry e = false
        → fetchJsonWithCache none url outcome jitter = (Except.error e, [])) := by
  have hmax : (0 : ℕ) < MAX_RETRY_ATTEMPTS := by
    unfold MAX_RETRY_ATTEMPTS
    omega
  have h := fetchLoop_spec url outcome jitter MAX_RETRY_ATTEMPTS 0 none
    (by omega) hmax
  have hfc : fetchJsonWithCache none url outcome jitter
      = fetchLoop url outcome jitter MAX_RETRY_ATTEMPTS 0 none := rfl
  rw [hfc]
  refine ⟨by have h1 := h.1; omega, ?_, ?_, ?_, ?_⟩
  · exact fun i hi => by simpa using h.2.1 i hi
  · exact fun v hv => by simpa using h.2.2.1 v hv
  · exact fun e he => by simpa using h.2.2.2 e he
  · intro e houtcome hsr
    rw [← hfc]
    show fetchLoop url outcome jitter MAX_RETRY_ATTEMPTS 0 none
      = (Except.error e, [])
    rw [show MAX_RETRY_ATTEMPTS = 4 + 1 from rfl]
    rw [fetchLoop]
    rw [show (0 : ℕ) + 1 = 1 from rfl, houtcome]
    dsimp only
    rw [if_neg]
    intro hcontra
    rw [hsr] at hcontra
    exact Bool.false_ne_true hcontra.1


/-- A non-retryable error (an HTTP 404 rendered through `String(err)`): no
retryable code, no status property, no retryable message pattern. -/
def w9err : JsError :=
  { code := none
    msg := "Error: HTTP 404 for https://pypi.org/pypi/nonexistent/json"
    status := none }

def w9outcome : ℕ → FetchOutcome := fun _ => FetchOutcome.failure w9err

def w9jitter : ℕ → ℕ := fun _ => 0

/-- Witness for **C9**: a non-retryable first-attempt failure propagates
immediately, with no retry delays. -/
theorem fetch_retry_spec_witness :
    shouldRetry w9err = false
    ∧ fetchJsonWithCache none "https://pypi.org/pypi/nonexistent/json"
        w9outcome w9jitter = (Except.error w9err, []) := by
  have h := (fetch_retry_spec "https://pypi.org/pypi/nonexistent/json"
    w9outcome w9jitter).2.2.2.2
  exact ⟨by decide, h w9err rfl (by decide)⟩


/-! ## C1: error surfacing (`src/app/api/meta/[pkg]/route.ts`, with the two
un-caught throw paths modelled: the base-bitset load of
`computeSimilarOnDemand` and the `loadSimilarIndexCache` `JSON.parse` behind
`getPrecomputedSimilar`) -/

def MIN_RESULTS_FOR_QUALITY : ℕ := 10
def MIN_TOP_SCORE_FOR_QUALITY : ℚ := 5 / 100

/-- The route's `qualityOk` check on a candidate result list
(`list.length >= MIN_RESULTS_FOR_QUALITY && topScore >=
MIN_TOP_SCORE_FOR_QUALITY`, empty or missing lists failing). -/
def qualityOk (l : Option (List SimilarItem)) : Bool :=
  match l with
  | none => false
  | some list =>
    if list.length = 0 then false
    else decide (MIN_RESULTS_FOR_QUALITY ≤ list.length
      ∧ MIN_TOP_SCORE_FOR_QUALITY ≤ (list.headD dfltItem).jaccard)

/-- `computeSimilarOnDemand` with its genuinely fallible base-bitset load:
`bitsetLoad` is the un-wrapped `await getDependentsBitset(pkg)` of
`src/lib/similar.ts:386` (`Except.error` is a rejected promise — an un-caught
`readFile`/`JSON.parse` failure in the `bitsetCache` module of
`src/README.md`); the candidate-side calls, wrapped in
`try { ... } catch { /* ignore */ }`, remain the total `env.bitset` view.
A rejection at the base load aborts the whole computation. -/
def computeSimilarOnDemandE (env : Env)
    (bitsetLoad : String → Except JsError (List ℕ)) (pkg : String) (limit : ℕ)
    (restrictToPeerGroup : Bool)
    (topSearchLimit maxDependentsToScan maxLiveCandidates : Option ℕ) :
    Except JsError (List SimilarItem) :=
  let base := getReverseDeps env pkg
  if base.length < 1 then
    Except.ok (
      match env.fetchMeta pkg with
      | none => computeSimilarNameBasedFallback env pkg limit
      | some pkgDeps =>
        if pkgDeps.length = 0 then computeSimilarNameBasedFallback env pkg limit
        else
          let results := computeSimilarForwardDeps env pkg limit pkgDeps
          if 0 < results.length then results
          else computeSimilarNameBasedFallback env pkg limit)
  else
    let candidates₀ :=
      if restrictToPeerGroup ∧ env.isUiFramework pkg then
        env.uiFrameworks.foldl
          (fun c n =>
            if normalizePackageName n ≠ normalizePackageName pkg then
              insertUnique c n
            else c)
          []
      else
        let tsl := min (orDefault topSearchLimit DEFAULT_TOP_SEARCH_LIMIT)
          MAX_TOP_SEARCH_LIMIT
        let top := if 0 < env.popular.length then env.popular.take tsl else []
        jsSetOfList top
    let mds := min (orDefault maxDependentsToScan DEFAULT_MAX_DEPENDENTS_TO_SCAN)
      MAX_MAX_DEPENDENTS_TO_SCAN
    let baseDependents := base.take mds
    let candidates₁ := collectFromDependents env pkg baseDependents candidates₀
    let candidates₂ := candidates₁.take MAX_CANDIDATES_TO_COLLECT
    let mlc := min (orDefault maxLiveCandidates DEFAULT_MAX_LIVE_CANDIDATES)
      MAX_MAX_LIVE_CANDIDATES
    match bitsetLoad pkg with
    | Except.error e => Except.error e
    | Except.ok baseBitset =>
      Except.ok (
        let popularSet := env.popular.map normalizePackageName
        let sortedCandidates := candidates₂.mergeSort
          (candidatePriorityLe env base.length popularSet)
        let candArray := sortedCandidates.take (min 5000 candidates₂.length)
        let minChecked := limit * MIN_CHECKED_MULTIPLIER
        let final := evalBatches env pkg limit base baseBitset mlc minChecked
          candArray ⟨[], 0, 0⟩
        let results := final.heap.mergeSort jaccardDescLe
        if results.length = 0 then
          let candArray₂ := sortedCandidates.take
            (min 2000 sortedCandidates.length)
          let alt := relaxedCachePass env pkg base candArray₂
          let results₂ := (alt.mergeSort jaccardDescLe).take limit
          if results₂.length = 0 ∧ 0 < base.length
              ∧ base.length < BASE_SIZE_SMALL then
            let nameBased := smallBaseNameRescue env pkg limit
            if 0 < nameBased.length then nameBased.take limit else results₂
          else results₂
        else results)

/-- When the base-bitset load resolves (to the list the caught view sees),
the fallible pipeline returns exactly the total pipeline's value. -/
lemma computeSimilarOnDemandE_ok (env : Env)
    (bitsetLoad : String → Except JsError (List ℕ)) (pkg : String) (limit : ℕ)
    (restrict : Bool) (tsl mds mlc : Option ℕ)
    (h : bitsetLoad pkg = Except.ok (env.bitset pkg)) :
    computeSimilarOnDemandE env bitsetLoad pkg limit restrict tsl mds mlc
      = Except.ok (computeSimilarOnDemand env pkg limit restrict tsl mds mlc) := by
  unfold computeSimilarOnDemandE computeSimilarOnDemand
  dsimp only
  by_cases hbase : (getReverseDeps env pkg).length < 1
  · rw [if_pos hbase, if_pos hbase]
  · rw [if_neg hbase, if_neg hbase, h]

/-- When the query has reverse dependents (so the main path runs) and the
base-bitset load rejects, the whole computation throws that error. -/
lemma computeSimilarOnDemandE_error (env : Env)
    (bitsetLoad : String → Except JsError (List ℕ)) (pkg : String) (limit : ℕ)
    (restrict : Bool) (tsl mds mlc : Option ℕ) (e : JsError)
    (hbase : ¬ (getReverseDeps env pkg).length < 1)
    (h : bitsetLoad pkg = Except.error e) :
    computeSimilarOnDemandE env bitsetLoad pkg limit restrict tsl mds mlc
      = Except.error e := by
  unfold computeSimilarOnDemandE
  dsimp only
  rw [if_neg hbase, h]


/-- The `GET` handler of the similarity route
(`src/app/api/meta/[pkg]/route.ts`): an empty name is rejected with HTTP 400
before the `try` block; inside it, the precomputed-index lookup
(`getPrecomputedSimilar`, whose `loadSimilarIndexCache` does an un-caught
`readFileSync`/`JSON.parse`) and the on-demand computation (with its
un-caught base-bitset load) can throw, and the route's `catch` turns any such
error into HTTP 500. The in-memory response cache and the
progressive-refinement loop are elided: the cache only replays previous
successes, and each refinement step re-invokes `computeSimilarOnDemand` with
larger scan options — the same function and the same throw path as the first
invocation, which is the one modelled. -/
def handleSimilarRequest (env : Env)
    (bitsetLoad : String → Except JsError (List ℕ))
    (precomputed : Except JsError (Option (List SimilarItem)))
    (pkg : String) (rawLimit : ℤ) :
    Except (ℕ × String) (List SimilarItem × List SimilarItem) :=
  if pkg = "" then Except.error (400, "Invalid package name")
  else
    let limit := (max 1 (min 100 rawLimit)).toNat
    match precomputed with
    | Except.error _ => Except.error (500, "Internal server error")
    | Except.ok pre =>
      let cooccur := computeCooccurrence env pkg limit
        (some INITIAL_MAX_DEPENDENTS_TO_SCAN)
      if qualityOk pre then Except.ok (pre.getD [], cooccur)
      else
        match computeSimilarOnDemandE env bitsetLoad pkg limit false
            (some DEFAULT_TOP_SEARCH_LIMIT)
            (some INITIAL_MAX_DEPENDENTS_TO_SCAN)
            (some INITIAL_MAX_LIVE_CANDIDATES) with
        | Except.error _ => Except.error (500, "Internal server error")
        | Except.ok best => Except.ok (best, cooccur)

/-- **C1 (amended).** The empty package name is rejected with HTTP 400 before
any computation, and a 400 is the only error for the empty name; for a
nonempty name any surfaced error is the route catch's HTTP 500 (reachable:
the base-bitset load and the precomputed-index parse are awaited un-caught),
and when those two loads succeed the route returns the two ranked lists of
the total pipeline — so "error iff invalid" holds only on runs where the two
un-caught data-file loads do not throw. -/
theorem similar_route_error_surfacing (env : Env)
    (bitsetLoad : String → Except JsError (List ℕ))
    (precomputed : Except JsError (Option (List SimilarItem)))
    (pkg : String) (rawLimit : ℤ) :
    (pkg = "" →
      handleSimilarRequest env bitsetLoad precomputed pkg rawLimit
        = Except.error (400, "Invalid package name"))
    ∧ (∀ c msg, pkg ≠ "" →
        handleSimilarRequest env bitsetLoad precomputed pkg rawLimit
          = Except.error (c, msg) →
        c = 500 ∧ msg = "Internal server error")
    ∧ (pkg ≠ "" → precomputed = Except.ok none →
        bitsetLoad pkg = Except.ok (env.bitset pkg) →
        handleSimilarRequest env bitsetLoad precomputed pkg rawLimit
          = Except.ok
            (computeSimilarOnDemand env pkg ((max 1 (min 100 rawLimit)).toNat)
              false (some DEFAULT_TOP_SEARCH_LIMIT)
              (some INITIAL_MAX_DEPENDENTS_TO_SCAN)
              (some INITIAL_MAX_LIVE_CANDIDATES),
            computeCooccurrence env pkg ((max 1 (min 100 rawLimit)).toNat)
              (some INITIAL_MAX_DEPENDENTS_TO_SCAN))) := by
  refine ⟨?_, ?_, ?_⟩
  · intro hempty
    unfold handleSimilarRequest
    rw [if_pos hempty]
  · intro c msg hne herr
    unfold handleSimilarRequest at herr
    rw [if_neg hne] at herr
    dsimp only at herr
    cases hpre : precomputed with
    | error e =>
      rw [hpre] at herr
      simp only [Except.error.injEq, Prod.mk.injEq] at herr
      exact ⟨herr.1.symm, herr.2.symm⟩
    | ok pre =>
      rw [hpre] at herr
      dsimp only at herr
      split at herr
      · exact absurd herr (by simp)
      · cases hE : computeSimilarOnDemandE env bitsetLoad pkg
            ((max 1 (min 100 rawLimit)).toNat) false
            (some DEFAULT_TOP_SEARCH_LIMIT)
            (some INITIAL_MAX_DEPENDENTS_TO_SCAN)
            (some INITIAL_MAX_LIVE_CANDIDATES) with
        | error e =>
          rw [hE] at herr
          simp only [Except.error.injEq, Prod.mk.injEq] at herr
          exact ⟨herr.1.symm, herr.2.symm⟩
        | ok best =>
          rw [hE] at herr
          exact absurd herr (by simp)
  · intro hne hpre hbl
    unfold handleSimilarRequest
    rw [if_neg hne, hpre]
    dsimp only
    rw [if_neg (by rw [show qualityOk none = false from rfl]; simp)]
    rw [computeSimilarOnDemandE_ok env bitsetLoad pkg _ false _ _ _ hbl]


/-- A corrupt-data-file rejection as seen by JavaScript. -/
def jsonParseError : JsError :=
  { code := none
    msg := "SyntaxError: Unexpected end of JSON input"
    status := none }

/-- Environment for the C1 counterexample and witness: the query `"p"` has a
cached nonempty reverse-dependent set, so the main scoring path runs and
performs the un-wrapped base-bitset load. -/
def c1Env : Env :=
  { cache := fun s => if s = "p" then some ["x"] else none
    fetchMeta := fun _ => none
    bitset := fun _ => []
    popular := []
    uiFrameworks := []
    isUiFramework := fun _ => false }

/-- A base-bitset load that rejects (corrupt shard file). -/
def c1FailingBitsetLoad : String → Except JsError (List ℕ) :=
  fun _ => Except.error jsonParseError

/-- A base-bitset load that resolves to the caught view's list. -/
def c1OkBitsetLoad : String → Except JsError (List ℕ) :=
  fun s => Except.ok (c1Env.bitset s)

/-- **C1 counterexample.** A syntactically valid (nonempty) package name can
surface an error: when the bitset shard file is corrupt, the un-caught
`await getDependentsBitset(pkg)` of `similar.ts:386` rejects,
`computeSimilarOnDemand` throws for the valid name `"p"`, and the route
answers HTTP 500 — refuting "an error is surfaced iff the input is
invalid". -/
theorem valid_name_surfaces_error :
    ("p" : String) ≠ ""
    ∧ computeSimilarOnDemandE c1Env c1FailingBitsetLoad "p" 20 false
        (some DEFAULT_TOP_SEARCH_LIMIT) (some INITIAL_MAX_DEPENDENTS_TO_SCAN)
        (some INITIAL_MAX_LIVE_CANDIDATES) = Except.error jsonParseError
    ∧ handleSimilarRequest c1Env c1FailingBitsetLoad (Except.ok none) "p" 20
        = Except.error (500, "Internal server error") := by
  have hbase : ¬ (getReverseDeps c1Env "p").length < 1 := by decide
  have hE := computeSimilarOnDemandE_error c1Env c1FailingBitsetLoad "p" 20
    false (some DEFAULT_TOP_SEARCH_LIMIT) (some INITIAL_MAX_DEPENDENTS_TO_SCAN)
    (some INITIAL_MAX_LIVE_CANDIDATES) jsonParseError hbase rfl
  refine ⟨by decide, hE, ?_⟩
  unfold handleSimilarRequest
  rw [if_neg (by decide)]
  dsimp only
  rw [if_neg (by rw [show qualityOk none = false from rfl]; simp)]
  rw [show ((max 1 (min 100 (20 : ℤ))).toNat) = 20 from by decide]
  rw [hE]

/-- Witness for **C1 (amended)**: the empty name is rejected with 400, and
with both un-caught loads succeeding a valid name gets the two ranked
lists. -/
theorem similar_route_error_surfacing_witness :
    handleSimilarRequest c1Env c1OkBitsetLoad (Except.ok none) "" 20
      = Except.error (400, "Invalid package name")
    ∧ handleSimilarRequest c1Env c1OkBitsetLoad (Except.ok none) "p" 20
      = Except.ok
        (computeSimilarOnDemand c1Env "p" 20 false
          (some DEFAULT_TOP_SEARCH_LIMIT) (some INITIAL_MAX_DEPENDENTS_TO_SCAN)
          (some INITIAL_MAX_LIVE_CANDIDATES),
        computeCooccurrence c1Env "p" 20
          (some INITIAL_MAX_DEPENDENTS_TO_SCAN)) := by
  have h1 := (similar_route_error_surfacing c1Env c1OkBitsetLoad
    (Except.ok none) "" 20).1 rfl
  have h2 := (similar_route_error_surfacing c1Env c1OkBitsetLoad
    (Except.ok none) "p" 20).2.2 (by decide) rfl rfl
  refine ⟨h1, ?_⟩
  rw [h2]
  rw [show ((max 1 (min 100 (20 : ℤ))).toNat) = 20 from by decide]

end PyPDepSim
